import Mathlib

/-!
Open-post editing and the client session of the websocket server
(`websockets/post_updates.go`, `websockets/websockets.go`,
`websockets/handlers.go`, `websockets/synchronisation.go`), with the utilities
`db/util.go` and `util/util.go`

A shallow embedding of the open-post mutations `appendRune`, `backspace`,
`spliceText`, `closePost`, `insertImage`, `spoilerImage`, of `hasPost`,
`handleMessage`, `runHandler`, `Close`, `Send`, `closeConnections`,
`synchronise`, `registerSync` and `reclaimPost`, of `InTransaction`,
`SplitBoardAndID`, `SplitPunctuation` and `SplitPunctuationString`, together with
the parts of Go's `unicode/utf8`, `strings` and `strconv` packages and of the
string/rune conversions that these functions rely on. The package `cache` is
modelled from the specification.

Conventions.

* A Go `[]byte` / `string` is a `List Nat` (every byte of a valid UTF-8 text is
  below 256); a `rune` (`int32`) is an `Int`; `int` is `Int`; `uint`/`uint64`
  is `Nat`, reduced modulo `2 ^ 64` at the places where Go converts.
* Bit operations of `unicode/utf8` are written arithmetically:
  `x >> k` is `x / 2 ^ k`, `x & 0x3F` is `x % 64`, and `t | y` with disjoint
  bits is `t + y`.
* The feed, the store and the spam counter are recorded as a trace of effects.
* A Go run-time panic (slice bounds out of range) is the result `none`.
-/

namespace Remichan

/-! ## `unicode/utf8` -/

/-- The constant `utf8.RuneError`, U+FFFD. -/
def RuneError : Int := 0xFFFD

/-- The constant `utf8.MaxRune`. -/
def MaxRune : Int := 0x10FFFF

/-- A Unicode scalar value: in range and not a surrogate (`utf8.ValidRune`). -/
def ValidRune (r : Int) : Bool :=
  (decide (0 ≤ r) && decide (r < 0xD800)) || (decide (0xDFFF < r) && decide (r ≤ MaxRune))

/-- The bytes of a scalar value given as a natural number
(`utf8.AppendRune` on a valid rune). -/
def encodeNat (n : Nat) : List Nat :=
  if n ≤ 0x7F then [n]
  else if n ≤ 0x7FF then [0xC0 + n / 64, 0x80 + n % 64]
  else if n ≤ 0xFFFF then [0xE0 + n / 4096, 0x80 + n / 64 % 64, 0x80 + n % 64]
  else [0xF0 + n / 262144, 0x80 + n / 4096 % 64, 0x80 + n / 64 % 64, 0x80 + n % 64]

/-- The conversion `string(r)` of a rune: its UTF-8 encoding, where a rune that
is not a scalar value is replaced by U+FFFD (`utf8.AppendRune`). -/
def encodeRune (r : Int) : List Nat :=
  if ValidRune r then encodeNat r.toNat else [0xEF, 0xBF, 0xBD]

/-- The conversion `string(rs)` of a `[]rune`. -/
def encodeRunes : List Int → List Nat
  | [] => []
  | r :: rs => encodeRune r ++ encodeRunes rs

/-- The function `utf8.RuneLen`: the number of bytes of the encoding, `-1` for a
rune that is not a scalar value. -/
def RuneLen (r : Int) : Int :=
  if r < 0 then -1
  else if r ≤ 0x7F then 1
  else if r ≤ 0x7FF then 2
  else if 0xD800 ≤ r ∧ r ≤ 0xDFFF then -1
  else if r ≤ 0xFFFF then 3
  else if r ≤ MaxRune then 4
  else -1

/-- The function `utf8.DecodeRune`: the first rune of `p` and its width in bytes;
`(RuneError, 0)` on empty input and `(RuneError, 1)` on an invalid encoding.
The table `first` and the accept ranges are spelled out as comparisons. -/
def DecodeRune (p : List Nat) : Int × Nat :=
  match p with
  | [] => (RuneError, 0)
  | p0 :: t =>
    if p0 < 0x80 then ((p0 : Int), 1)
    else if p0 < 0xC2 ∨ 0xF4 < p0 then (RuneError, 1)
    else
      let sz : Nat := if p0 < 0xE0 then 2 else if p0 < 0xF0 then 3 else 4
      let lo : Nat := if p0 = 0xE0 then 0xA0 else if p0 = 0xF0 then 0x90 else 0x80
      let hi : Nat := if p0 = 0xED then 0x9F else if p0 = 0xF4 then 0x8F else 0xBF
      if t.length + 1 < sz then (RuneError, 1)
      else
        match t with
        | [] => (RuneError, 1)
        | b1 :: t1 =>
          if b1 < lo ∨ hi < b1 then (RuneError, 1)
          else if sz ≤ 2 then (((p0 % 32 * 64 + b1 % 64 : Nat) : Int), 2)
          else
            match t1 with
            | [] => (RuneError, 1)
            | b2 :: t2 =>
              if b2 < 0x80 ∨ 0xBF < b2 then (RuneError, 1)
              else if sz ≤ 3 then
                (((p0 % 16 * 4096 + b1 % 64 * 64 + b2 % 64 : Nat) : Int), 3)
              else
                match t2 with
                | [] => (RuneError, 1)
                | b3 :: _ =>
                  if b3 < 0x80 ∨ 0xBF < b3 then (RuneError, 1)
                  else
                    (((p0 % 8 * 262144 + b1 % 64 * 4096 + b2 % 64 * 64 + b3 % 64 : Nat) : Int), 4)

/-- The rune-by-rune traversal of a string (`for range`, `[]rune(s)`): at every
position `utf8.DecodeRune` is applied and the position advances by the width.
The first argument counts the bytes still to be skipped. -/
def decodeFrom : Nat → List Nat → List (Int × Nat)
  | _, [] => []
  | 0, b :: rest => DecodeRune (b :: rest) :: decodeFrom ((DecodeRune (b :: rest)).2 - 1) rest
  | k + 1, _ :: rest => decodeFrom k rest

/-- The conversion `[]rune(string(p))`. -/
def decodeRunes (p : List Nat) : List Int :=
  (decodeFrom 0 p).map Prod.fst

/-- The function `utf8.Valid`: no position of `p` decodes to the error result
`(RuneError, 1)`. -/
def utf8Valid (p : List Nat) : Bool :=
  (decodeFrom 0 p).all fun d => !(d.1 == RuneError && d.2 == 1)

/-- The function `utf8.RuneStart`: the byte is not a continuation byte
(`b & 0xC0 != 0x80`). -/
def RuneStart (b : Nat) : Bool :=
  b / 64 % 4 != 2

/-- The distance `end - start` that the backwards scan of `utf8.DecodeLastRune`
settles on, given the bytes before the last one in reverse order: the scan looks
at most `UTFMax - 1` bytes back for a start byte and is clamped at the
beginning of the slice. -/
def lastRuneBack : List Nat → Nat
  | [] => 1
  | a :: q1 =>
    if RuneStart a then 2
    else match q1 with
      | [] => 2
      | b :: q2 =>
        if RuneStart b then 3
        else match q2 with
          | [] => 3
          | c :: q3 =>
            if RuneStart c then 4
            else match q3 with
              | [] => 4
              | _ :: _ => 5

/-- The function `utf8.DecodeLastRune`: the last rune of `p` and its width;
`(RuneError, 0)` on empty input and `(RuneError, 1)` on an invalid encoding. -/
def DecodeLastRune (p : List Nat) : Int × Nat :=
  match p.reverse with
  | [] => (RuneError, 0)
  | l :: q =>
    if l < 0x80 then ((l : Int), 1)
    else
      let back := lastRuneBack q
      let d := DecodeRune (p.drop (p.length - back))
      if d.2 ≠ back then (RuneError, 1) else d

/-! ## Data model -/

/-- The constant `common.MaxLenBody`. -/
def MaxLenBody : Nat := 2000

/-- The constant `common.MaxLinesBody`. -/
def MaxLinesBody : Nat := 100

/-- The kinds of hash command (`common.CommandType`); the declaration is not
among the sources, only `common.Roulette` and `common.Flip` are referred to. -/
inductive CommandType
  | Dice | Flip | EightBall | SyncWatch | Pyu | Pcount | Roulette | Rcount
  deriving DecidableEq, Repr

/-- A parsed hash command (`common.Command`), restricted to the fields that
`CheckRouletteBan` reads: the command type and the `[2]uint8` roulette value. -/
structure Command where
  Typ : CommandType
  Roulette : Nat × Nat
  deriving DecidableEq, Repr

/-- A link from one post to another (`common.Link`). -/
structure Link where
  ID : Nat
  OP : Nat
  Board : String
  deriving DecidableEq, Repr

/-- The errors returned by the handlers. `json`, `parser` and `store` stand for
the errors of code outside these files (JSON decoding, the body parser, the
store); `text s` is `errors.New(s)`; `errInvalidPayload` and `errInvalidFrame`
are the error types of `websockets.go`; `ErrInvalidBoard` and `ErrInvalidThread`
are the error values of package `common`, `ErrMismatchedHashAndPassword` the one
of `bcrypt`, `CloseError` is a `*websocket.CloseError` with its close code and
`ErrMsgParse` the error type of `db/util.go`. -/
inductive Err
  | errNoPostOpen
  | errEmptyPost
  | errTooManyLines
  | errSpliceTooLong
  | errSpliceNOOP
  | errTextOnly
  | errHasImage
  | errInvalidSpliceCoords (body : List Nat) (Start Len : Nat) (Text : List Nat)
  | ErrBodyTooLong
  | ErrContainsNull
  | json (code : Nat)
  | parser (code : Nat)
  | store (code : Nat)
  | text (s : String)
  | errInvalidPayload (msg : List Nat)
  | errInvalidFrame (s : String)
  | ErrInvalidBoard (board : String)
  | ErrInvalidThread (thread : Nat) (board : String)
  | ErrMismatchedHashAndPassword
  | CloseError (Code : Nat)
  | ErrMsgParse (msg : List Nat)
  deriving DecidableEq, Repr

/-- The value handed to `common.EncodeMessage` together with its message type:
`MessageAppend` with `[2]uint64{id, char}`, `MessageBackspace` with the post id,
`MessageSplice` with a `spliceMessage`, `MessageSpoiler` with the post id,
`MessageServerTime` with the unix time; `MessageInsertImage` is the message that
`common.PrependMessageType` builds from the bytes returned by `db.InsertImage`;
`MessageInvalid` with the text of an error; `MessageReclaim` with the result
code; `MessageConfigs` with the configuration of a board; `MessageSynchronise`
with the value `nil` (`none`) or, built by `common.PrependMessageType`, with the
JSON of a board page. -/
inductive Msg
  | MessageAppend (id : Nat) (char : Nat)
  | MessageBackspace (id : Nat)
  | MessageSplice (ID Start Len : Nat) (Text : List Nat)
  | MessageSpoiler (id : Nat)
  | MessageServerTime (time : Int)
  | MessageInsertImage (raw : List Nat)
  | MessageInvalid (text : String)
  | MessageReclaim (code : Nat)
  | MessageConfigs (board : String)
  | MessageSynchronise (json : Option (List Nat))
  deriving DecidableEq, Repr

/-- What a handler hands to the update feed, the spam counter, the store and the
connection, in call order. Store writes and sent messages are recorded when the
store or the connection accepts them; `feedSyncClient` is the call
`feeds.SyncClient` that attaches the client to a feed, `feedInsertPost` the call
`c.feed.InsertPost`, `WriteControlClose` the close frame handed to
`c.conn.WriteControl` and `connClose` the call `c.conn.Close`. -/
inductive Effect
  | feedSetOpenBody (id : Nat) (body : List Nat) (msg : Msg)
  | IncrementSpamScore (ip : String) (score : Nat)
  | dbSetOpenBody (id : Nat) (body : List Nat)
  | dbClosePost (id op : Nat) (body : List Nat) (links : List Link) (com : List Command)
  | dbBan (board reason issuer : String) (duration : Nat) (id : Nat)
  | dbIncrementRcount (thread : Nat)
  | dbInsertImage (id : Nat) (token name : List Nat) (spoiler : Bool)
  | feedInsertImage (id : Nat) (spoiler : Bool) (msg : Msg)
  | dbSpoilerImage (id op : Nat)
  | feedSpoilerImage (id : Nat) (msg : Msg)
  | send (msg : Msg)
  | feedSyncClient (thread : Nat) (board : String)
  | feedInsertPost (id : Nat)
  | WriteControlClose (closeType : Nat)
  | connClose
  deriving DecidableEq, Repr

/-- Modelled from the spec: the type `openPost` is not among the sources. The
spec lists its attributes (post id with 0 for none open, owning thread, board,
byte body buffer, rune length, line count, has-image flag, is-spoilered flag,
creation timestamp); the field names are the ones the handlers use. -/
structure openPost where
  hasImage : Bool
  isSpoilered : Bool
  len : Int
  lines : Int
  id : Nat
  op : Nat
  time : Int
  body : List Nat
  board : String
  deriving DecidableEq, Repr

/-- The zero value `openPost{}`. -/
def openPost.zero : openPost :=
  { hasImage := false, isSpoilered := false, len := 0, lines := 0, id := 0, op := 0,
    time := 0, body := [], board := "" }

/-- Modelled from the spec: the method `openPost.countLines` is not among the
sources. The line count of a body is its number of newline bytes, the quantity
that `appendRune` and `backspace` keep in `lines`. -/
def countLines (body : List Nat) : Int :=
  (body.count 10 : Nat)

/-- The fields of `Client` that the open-post handlers use, and the trace of
effects the client has caused. -/
structure Client where
  gotFirstMessage : Bool
  post : openPost
  ip : String
  trace : List Effect
  deriving DecidableEq, Repr

/-- What the handlers obtain from outside `post_updates.go`: the clock, the
configuration, the parser package and the results of the store calls. -/
structure Env where
  /-- The value of `time.Now().Unix()`. -/
  now : Int
  /-- The value of `config.Get().CharScore`. -/
  CharScore : Nat
  /-- The result of `parser.IsPrintable(r, true)`, `none` for `nil`. -/
  IsPrintable : Int → Option Err
  /-- The result of `parser.IsPrintableRunes(text, true)`. -/
  IsPrintableRunes : List Int → Option Err
  /-- The result of `parser.ParseBody(body, board, op, id, ip, false)`. -/
  ParseBody : List Nat → String → Nat → Nat → String → Except Err (List Link × List Command)
  /-- The result of `db.SetOpenBody(id, body)`. -/
  SetOpenBody : Nat → List Nat → Option Err
  /-- The result of `db.ClosePost(id, op, body, links, com)`. -/
  ClosePost : Nat → Nat → List Nat → List Link → List Command → Option Err
  /-- The result of `db.Ban(board, reason, by, duration, id)`. -/
  Ban : String → String → String → Nat → Nat → Option Err
  /-- The result of `db.IncrementRcount(tx, thread)` inside `db.InTransaction`. -/
  IncrementRcount : Nat → Option Err

/-- The type `spliceRequestString`: splice coordinates and the text as a string. -/
structure spliceRequestString where
  Start : Nat
  Len : Nat
  Text : List Nat
  deriving DecidableEq, Repr

/-- The type `spliceRequest`: splice coordinates and the text as runes. -/
structure spliceRequest where
  Start : Nat
  Len : Nat
  Text : List Int
  deriving DecidableEq, Repr

/-- The method `spliceRequest.UnmarshalJSON`, applied to the result of
`json.Unmarshal(buf, &tmp)`: the text is converted with `[]rune(tmp.Text)`. -/
def spliceRequest.UnmarshalJSON (tmp : Option spliceRequestString) : Except Err spliceRequest :=
  match tmp with
  | none => .error (.json 0)
  | some t => .ok { Start := t.Start, Len := t.Len, Text := decodeRunes t.Text }

/-- The duration `time.Hour` in nanoseconds. -/
def Hour : Nat := 3600000000000

/-- The conversions `uint(n)` and `uint64(n)` of a signed integer. -/
def toUint (n : Int) : Nat :=
  (n % 2 ^ 64).toNat

/-! ## The handlers -/

/-- The function `CheckRouletteBan`: the first `#roulette` command with a losing
first value bans the poster for an hour and increments the thread's rcount. -/
def CheckRouletteBan (e : Env) (c : Client) (commands : List Command) (board : String)
    (thread id : Nat) : Client × Option Err :=
  match commands with
  | [] => (c, none)
  | command :: rest =>
    if command.Typ = CommandType.Roulette ∧ command.Roulette.1 = 1 then
      match e.Ban board "lost at #roulette" "system" Hour id with
      | some err => (c, some err)
      | none =>
        let c1 := { c with trace := c.trace ++ [Effect.dbBan board "lost at #roulette" "system" Hour id] }
        match e.IncrementRcount thread with
        | some err => (c1, some err)
        | none => ({ c1 with trace := c1.trace ++ [Effect.dbIncrementRcount thread] }, none)
    else CheckRouletteBan e c rest board thread id

/-- The method `Client.closePost`. -/
def closePost (e : Env) (c : Client) : Client × Option Err :=
  if c.post.id = 0 then (c, some Err.errNoPostOpen)
  else
    let parsed : Except Err (List Link × List Command) :=
      if c.post.len ≠ 0 then e.ParseBody c.post.body c.post.board c.post.op c.post.id c.ip
      else .ok ([], [])
    match parsed with
    | .error err => (c, some err)
    | .ok (links, com) =>
      match e.ClosePost c.post.id c.post.op c.post.body links com with
      | some err => (c, some err)
      | none =>
        let c1 := { c with trace := c.trace ++ [Effect.dbClosePost c.post.id c.post.op c.post.body links com] }
        let r := CheckRouletteBan e c1 com c.post.board c.post.op c.post.id
        ({ r.1 with post := openPost.zero }, r.2)

/-- The method `Client.hasPost`: whether the client has an open post not older
than 29 minutes; an older post is closed. Returns the client, the flag and the
error. -/
def hasPost (e : Env) (c : Client) : Client × Bool × Option Err :=
  if c.post.id = 0 then (c, false, some Err.errNoPostOpen)
  else if c.post.time < e.now - 29 * 60 then
    let r := closePost e c
    (r.1, false, r.2)
  else (c, true, none)

/-- The methods `Client.updateBody` and `Client.incrementSpamScore`: the body and
the message go to the feed, the spam score is incremented by `uint(n) * CharScore`
and the body is written to the store. -/
def updateBody (e : Env) (c : Client) (msg : Msg) (n : Int) : Client × Option Err :=
  let c1 := { c with trace := c.trace ++
    [Effect.feedSetOpenBody c.post.id c.post.body msg,
     Effect.IncrementSpamScore c.ip (toUint n * e.CharScore % 2 ^ 64)] }
  match e.SetOpenBody c.post.id c.post.body with
  | some err => (c1, some err)
  | none => ({ c1 with trace := c1.trace ++ [Effect.dbSetOpenBody c.post.id c.post.body] }, none)

/-- The method `Client.appendRune`. The argument is the result of
`decodeMessage(data, &char)`, `none` when the payload does not decode. -/
def appendRune (e : Env) (c0 : Client) (data : Option Int) : Client × Option Err :=
  match hasPost e c0 with
  | (c, has, err) =>
    if err.isSome then (c, err)
    else if !has then (c, err)
    else if c.post.len + 1 > MaxLenBody then (c, some Err.ErrBodyTooLong)
    else
      match data with
      | none => (c, some (Err.json 0))
      | some char =>
        if char = 0 then (c, some Err.ErrContainsNull)
        else
          let c1 : Client :=
            if char = 10 then { c with post := { c.post with lines := c.post.lines + 1 } } else c
          if char = 10 ∧ c1.post.lines > MaxLinesBody then (c1, some Err.errTooManyLines)
          else
            match e.IsPrintable char with
            | some err => (c1, some err)
            | none =>
              let msg := Msg.MessageAppend c1.post.id (toUint char)
              let c2 : Client := { c1 with post := { c1.post with
                body := c1.post.body ++ encodeRune char, len := c1.post.len + 1 } }
              updateBody e c2 msg 1

/-- The method `Client.backspace`. -/
def backspace (e : Env) (c0 : Client) : Client × Option Err :=
  match hasPost e c0 with
  | (c, has, err) =>
    if err.isSome then (c, err)
    else if !has then (c, none)
    else if c.post.len = 0 then (c, some Err.errEmptyPost)
    else
      let msg := Msg.MessageBackspace c.post.id
      let d := DecodeLastRune c.post.body
      let c1 : Client := { c with post := { c.post with
        body := c.post.body.take (c.post.body.length - d.2),
        lines := if d.1 = 10 then c.post.lines - 1 else c.post.lines,
        len := c.post.len - 1 } }
      updateBody e c1 msg 1

/-- The part of `Client.spliceText` after validation (from `var ( old = ...`
on): the runes after the replaced range are appended to the text, the result is
trimmed to `MaxLenBody`, the message is built and the body is rebuilt from the
byte position of rune `Start`. A slice expression out of range is `none`. -/
def spliceBody (e : Env) (c : Client) (req : spliceRequest) : Option (Client × Option Err) :=
  let old := decodeRunes c.post.body
  if old.length < req.Start + req.Len then none
  else
    let end0 := req.Text ++ old.drop (req.Start + req.Len)
    let len1 : Int := c.post.len + (-(req.Len : Int) + (req.Text.length : Int))
    let exceeding : Int := len1 - MaxLenBody
    if exceeding > 0 ∧ (end0.length : Int) - exceeding < 0 then none
    else
      let end1 := if exceeding > 0 then end0.take ((end0.length : Int) - exceeding).toNat else end0
      let resLen : Nat := if exceeding > 0 then (old.drop req.Start).length else req.Len
      let resText : List Nat := if exceeding > 0 then encodeRunes end1 else encodeRunes req.Text
      let len2 : Int := if exceeding > 0 then MaxLenBody else len1
      let msg := Msg.MessageSplice c.post.id req.Start resLen resText
      let byteStartPos : Int := ((old.take req.Start).map RuneLen).sum
      if byteStartPos < 0 ∨ (c.post.body.length : Int) < byteStartPos then none
      else
        let body1 := c.post.body.take byteStartPos.toNat ++ encodeRunes end1
        let c1 : Client := { c with post := { c.post with
          len := len2, body := body1, lines := countLines body1 } }
        if c1.post.lines > MaxLinesBody then some (c1, some Err.errTooManyLines)
        else some (updateBody e c1 msg ((resText.length : Int) + 1))

/-- The method `Client.spliceText`. The argument is the result of
`json.Unmarshal` inside `spliceRequest.UnmarshalJSON`, `none` when the payload
does not decode. `Start` and `Len` are at most `MaxLenBody` where their sum is
formed, so the `uint` addition does not wrap. -/
def spliceText (e : Env) (c0 : Client) (data : Option spliceRequestString) :
    Option (Client × Option Err) :=
  match hasPost e c0 with
  | (c, has, err) =>
    if err.isSome then some (c, err)
    else if !has then some (c, none)
    else
      match spliceRequest.UnmarshalJSON data with
      | .error err => some (c, some err)
      | .ok req =>
        match e.IsPrintableRunes req.Text with
        | some err => some (c, some err)
        | none =>
          if req.Start > MaxLenBody ∨ req.Len > MaxLenBody
              ∨ ((req.Start + req.Len : Nat) : Int) > c.post.len then
            some (c, some (Err.errInvalidSpliceCoords c.post.body req.Start req.Len
              (encodeRunes req.Text)))
          else if req.Len = 0 ∧ req.Text.length = 0 then some (c, some Err.errSpliceNOOP)
          else if req.Text.length > MaxLenBody then some (c, some Err.errSpliceTooLong)
          else if (0 : Int) ∈ req.Text then some (c, some Err.ErrContainsNull)
          else spliceBody e c req

/-- Modelled from the spec: the type `ImageRequest` is not among the sources. The
spec gives the request as `insertImage(token, name, spoiler)`; the field names
are the ones `insertImage` and its tests use. -/
structure ImageRequest where
  Spoiler : Bool
  Token : List Nat
  Name : List Nat
  deriving DecidableEq, Repr

/-- What `insertImage` and `spoilerImage` obtain from outside `post_updates.go`:
the board configuration, the file-name formatter and the results of the store
calls. -/
structure ImageEnv where
  /-- The value of `config.GetBoardConfigs(board).TextOnly`. -/
  TextOnly : String → Bool
  /-- The result of `formatImageName(&req.Name)`: the rewritten name or the error. -/
  formatImageName : List Nat → Except Err (List Nat)
  /-- The result of `db.InsertImage(tx, id, token, name, spoiler)` inside
  `db.InTransaction`: the message bytes or the error. -/
  InsertImage : Nat → List Nat → List Nat → Bool → Except Err (List Nat)
  /-- The result of `db.SpoilerImage(id, op)`. -/
  SpoilerImage : Nat → Nat → Option Err

/-- The method `Client.insertImage`. The argument is the result of
`decodeMessage(data, &req)`, `none` when the payload does not decode. -/
def insertImage (e : Env) (ie : ImageEnv) (c0 : Client) (data : Option ImageRequest) :
    Client × Option Err :=
  match hasPost e c0 with
  | (c, has, err) =>
    if err.isSome then (c, err)
    else if !has then (c, some Err.errNoPostOpen)
    else if c.post.hasImage then (c, some Err.errHasImage)
    else
      match data with
      | none => (c, some (Err.json 0))
      | some req =>
        if ie.TextOnly c.post.board then (c, some Err.errTextOnly)
        else
          match ie.formatImageName req.Name with
          | .error err => (c, some err)
          | .ok name =>
            match ie.InsertImage c.post.id req.Token name req.Spoiler with
            | .error err => (c, some err)
            | .ok msg =>
              ({ c with
                  post := { c.post with hasImage := true, isSpoilered := req.Spoiler },
                  trace := c.trace ++
                    [Effect.dbInsertImage c.post.id req.Token name req.Spoiler,
                     Effect.feedInsertImage c.post.id req.Spoiler
                       (Msg.MessageInsertImage msg)] }, none)

/-- The method `Client.spoilerImage`. -/
def spoilerImage (e : Env) (ie : ImageEnv) (c0 : Client) : Client × Option Err :=
  match hasPost e c0 with
  | (c, has, err) =>
    if err.isSome then (c, err)
    else if !has then (c, some Err.errNoPostOpen)
    else if !c.post.hasImage then (c, some (Err.text "post does not have an image"))
    else if c.post.isSpoilered then (c, some (Err.text "already spoilered"))
    else
      match ie.SpoilerImage c.post.id c.post.op with
      | some err => (c, some err)
      | none =>
        ({ c with trace := c.trace ++
            [Effect.dbSpoilerImage c.post.id c.post.op,
             Effect.feedSpoilerImage c.post.id (Msg.MessageSpoiler c.post.id)] }, none)

/-! ## Frames and the close signal (`websockets.go`, `handlers.go`) -/

/-- The constants of `common.MessageType` that `handleMessage` and `runHandler`
refer to. Their declaration is not among the sources, so their values are a
parameter. -/
structure MessageTypes where
  MessageInsertPost : Nat
  MessageAppend : Nat
  MessageBackspace : Nat
  MessageSplice : Nat
  MessageClosePost : Nat
  MessageInsertImage : Nat
  MessageSpoiler : Nat
  MessageSynchronise : Nat
  MessageReclaim : Nat
  MessageNOOP : Nat
  MessageMeguTV : Nat

/-- The constant `websocket.TextMessage`. -/
def TextMessage : Int := 1

/-- The constant `websocket.BinaryMessage`. -/
def BinaryMessage : Int := 2

/-- The handlers that `runHandler` can select. -/
inductive Handler
  | synchronise
  | reclaimPost
  | appendRune
  | backspace
  | closePost
  | spliceText
  | insertPost
  | insertImage
  | NOOP
  | spoilerImage
  | SubscribeToMeguTV
  deriving DecidableEq, Repr

/-- The outcome of `handleMessage` up to the call of the handler: an error
returned before any handler is called, or the handler that is called with its
argument `msg[2:]` (the no-operation case and the handlers without argument
included). -/
inductive Handled
  | failed (err : Err)
  | run (h : Handler) (data : List Nat)
  deriving DecidableEq, Repr

/-- The method `Client.runHandler` up to the call of the handler: the `switch`
over the message type. -/
def runHandler (mt : MessageTypes) (typ : Nat) (msg : List Nat) : Handled :=
  let data := msg.drop 2
  if typ = mt.MessageSynchronise then Handled.run Handler.synchronise data
  else if typ = mt.MessageReclaim then Handled.run Handler.reclaimPost data
  else if typ = mt.MessageAppend then Handled.run Handler.appendRune data
  else if typ = mt.MessageBackspace then Handled.run Handler.backspace data
  else if typ = mt.MessageClosePost then Handled.run Handler.closePost data
  else if typ = mt.MessageSplice then Handled.run Handler.spliceText data
  else if typ = mt.MessageInsertPost then Handled.run Handler.insertPost data
  else if typ = mt.MessageInsertImage then Handled.run Handler.insertImage data
  else if typ = mt.MessageNOOP then Handled.run Handler.NOOP data
  else if typ = mt.MessageSpoiler then Handled.run Handler.spoilerImage data
  else if typ = mt.MessageMeguTV then Handled.run Handler.SubscribeToMeguTV data
  else Handled.failed (Err.errInvalidPayload msg)

/-- The call `strconv.ParseUint(string(msg[:2]), 10, 8)` on the first two bytes
of a message: both must be decimal digits (no sign, no underscore in base 10);
two digits always fit 8 bits. `none` is the error result. -/
def parseType (msg : List Nat) : Option Nat :=
  match msg with
  | a :: b :: _ =>
    if 48 ≤ a ∧ a ≤ 57 ∧ 48 ≤ b ∧ b ≤ 57 then some ((a - 48) * 10 + (b - 48)) else none
  | _ => none

/-- What `handleMessage` obtains from outside: the message type constants, the
clock and the result of `c.sendMessage(common.MessageServerTime, ...)`. -/
structure FrameEnv where
  types : MessageTypes
  /-- The value of `time.Now().Unix()`. -/
  now : Int
  /-- The result of `c.sendMessage`, `none` for `nil`. -/
  sendMessage : Option Err

/-- The method `Client.handleMessage` up to the call of the handler. -/
def handleMessage (fe : FrameEnv) (c : Client) (msgType : Int) (msg : List Nat) :
    Client × Handled :=
  if msgType ≠ TextMessage then
    (c, Handled.failed (Err.errInvalidFrame "only text frames allowed"))
  else if msg.length < 2 then (c, Handled.failed (Err.errInvalidPayload msg))
  else
    match parseType msg with
    | none => (c, Handled.failed (Err.errInvalidPayload msg))
    | some typ =>
      if !c.gotFirstMessage then
        if typ ≠ fe.types.MessageSynchronise then
          (c, Handled.failed (Err.errInvalidPayload msg))
        else
          let c1 : Client := { c with gotFirstMessage := true }
          match fe.sendMessage with
          | some err => (c1, Handled.failed err)
          | none =>
            ({ c1 with trace := c1.trace ++ [Effect.send (Msg.MessageServerTime fe.now)] },
              runHandler fe.types typ msg)
      else (c, runHandler fe.types typ msg)

/-- A non-blocking send `select { case ch <- v: default: }` on a buffered channel
of capacity `cap`, the channel given as the list of its pending values, oldest
first. -/
def trySend (cap : Nat) (ch : List (Option Err)) (v : Option Err) : List (Option Err) :=
  if ch.length < cap then ch ++ [v] else ch

/-- The method `Client.Close` as a function on the channel `c.close`, which
`newClient` makes with capacity 2: if a value is pending, the outer `select`
receives it; otherwise the error is sent twice without blocking. An error value
`nil` is `none`. -/
def Close (ch : List (Option Err)) (err : Option Err) : List (Option Err) :=
  match ch with
  | _ :: rest => rest
  | [] => trySend 2 (trySend 2 [] err) err

/-- The receive `case err := <-c.close: return err` of `listenerLoop`: the error
the loop returns when a close signal is pending, `none` when the channel is
empty. -/
def listenerExit (ch : List (Option Err)) : Option (Option Err) :=
  ch.head?

/-! ## The session: outbound queue, close frame, synchronisation
(`websockets.go`, `synchronisation.go`) -/

/-- The channels `c.sendExternal` and `c.close` of a client, each as the list of
its pending values, oldest first, and the messages handed to `c.send` so far, in
call order. -/
structure Session where
  sendExternal : List (List Nat)
  close : List (Option Err)
  written : List (List Nat)
  deriving DecidableEq, Repr

/-- The method `Client.Send`: a non-blocking send on the buffered channel
`c.sendExternal`; when its buffer is full, `c.Close(errors.New("send buffer
overflow"))`. The capacity of the channel is `time.Second*60/feeds.TickerInterval`;
the constant of package `feeds` is not among the sources, so the capacity is the
parameter `size`. -/
def Send (size : Nat) (s : Session) (msg : List Nat) : Session :=
  if s.sendExternal.length < size then { s with sendExternal := s.sendExternal ++ [msg] }
  else { s with close := Close s.close (some (Err.text "send buffer overflow")) }

/-- The branch `case msg := <-c.sendExternal` of `listenerLoop`: the oldest queued
message is received and handed to `c.send`, whose error, if any, the loop returns.
With an empty queue the branch is not taken. The argument `send` is the result of
`c.conn.WriteMessage`. -/
def listenerSend (send : List Nat → Option Err) (s : Session) : Session × Option Err :=
  match s.sendExternal with
  | [] => (s, none)
  | msg :: rest => ({ s with sendExternal := rest, written := s.written ++ [msg] }, send msg)

/-- The constant `websocket.CloseNormalClosure`. -/
def CloseNormalClosure : Nat := 1000

/-- The constant `websocket.CloseGoingAway`. -/
def CloseGoingAway : Nat := 1001

/-- The constant `websocket.CloseNoStatusReceived`. -/
def CloseNoStatusReceived : Nat := 1005

/-- The constant `websocket.CloseAbnormalClosure`. -/
def CloseAbnormalClosure : Nat := 1006

/-- The constant `websocket.CloseInvalidFramePayloadData`. -/
def CloseInvalidFramePayloadData : Nat := 1007

/-- The method `Error` of an error value: the text itself for an
`errInvalidFrame` and for `errors.New`; `text` gives the strings of the other
error types. -/
def Err.Error (text : Err → String) : Err → String
  | .errInvalidFrame s => s
  | .text s => s
  | e => text e

/-- The error value that `closeConnections` returns: the cause (`nil` is `none`),
or the `util.WrappedError` that `util.WrapError` builds around it. -/
inductive Returned
  | err (e : Option Err)
  | WrappedError (Text : String) (Inner : Option Err)
  deriving DecidableEq, Repr

/-- What `closeConnections` obtains from outside: the strings of `err.Error()` for
the error types whose method is not in `websockets.go`, and the result of
`c.conn.Close()`. -/
structure ConnEnv where
  text : Err → String
  connClose : Option Err

/-- The method `Client.closeConnections` on the client and its channel `c.close`.
The results of `c.sendMessage` and of `c.conn.WriteControl` are ignored by the
code; the calls are recorded in the trace. -/
def closeConnections (ce : ConnEnv) (c : Client) (ch : List (Option Err)) (err : Option Err) :
    Client × List (Option Err) × Returned :=
  let ch1 := Close ch none
  let r : Client × Option Err × Nat :=
    match err with
    | some (Err.CloseError Code) =>
      if Code = CloseNormalClosure ∨ Code = CloseGoingAway ∨ Code = CloseNoStatusReceived
          ∨ Code = CloseAbnormalClosure then
        (c, none, CloseNormalClosure)
      else (c, err, 0)
    | none => (c, none, CloseNormalClosure)
    | some e =>
      ({ c with trace := c.trace ++ [Effect.send (Msg.MessageInvalid (Err.Error ce.text e))] },
        err, CloseInvalidFramePayloadData)
  match r with
  | (c1, err1, closeType) =>
    let c2 : Client :=
      if closeType ≠ 0 then { c1 with trace := c1.trace ++ [Effect.WriteControlClose closeType] }
      else c1
    let c3 : Client := { c2 with trace := c2.trace ++ [Effect.connClose] }
    match ce.connClose with
    | some closeError => (c3, ch1, Returned.WrappedError (Err.Error ce.text closeError) err1)
    | none => (c3, ch1, Returned.err err1)

/-- The type `syncRequest`. -/
structure syncRequest where
  Last100 : Bool
  Catalog : Bool
  Page : Nat
  ProtocolVersion : Nat
  Thread : Nat
  Board : String
  deriving DecidableEq, Repr

/-- The type `reclaimRequest`. -/
structure reclaimRequest where
  ID : Nat
  Password : String
  deriving DecidableEq, Repr

/-- The fields of `common.Post` that `reclaimPost` reads or hands on. -/
structure Post where
  Editing : Bool
  ID : Nat
  Time : Int
  Body : List Nat
  deriving DecidableEq, Repr

/-- The type `common.StandalonePost`: a `Post` with its thread and board. -/
structure StandalonePost extends Post where
  OP : Nat
  Board : String
  deriving DecidableEq, Repr

/-- The conversion `int64(x)` of a `uint`. -/
def toInt64 (x : Nat) : Int :=
  if x % 2 ^ 64 < 2 ^ 63 then ((x % 2 ^ 64 : Nat) : Int) else ((x % 2 ^ 64 : Nat) : Int) - 2 ^ 64

/-- What `synchronise` and `registerSync` obtain from outside
`synchronisation.go`. -/
structure SyncEnv where
  /-- The constant `common.ProtocolVersion`. -/
  ProtocolVersion : Nat
  /-- The result of `auth.IsBoard(board)`. -/
  IsBoard : String → Bool
  /-- The result of `db.ValidateOP(thread, board)`. -/
  ValidateOP : Nat → String → Except Err Bool
  /-- The result of `db.IsBanned(board, ip)`. -/
  IsBanned : String → String → Option Err
  /-- The error of `common.EncodeMessage(common.MessageConfigs, ...)` for a board. -/
  EncodeConfigs : String → Option Err
  /-- The result of `c.send` or `c.sendMessage` for a message. -/
  send : Msg → Option Err
  /-- The method `Client.closePreviousPost`, which is not among the sources. -/
  closePreviousPost : Client → Client × Option Err
  /-- The error of `feeds.SyncClient(c, thread, board)`. -/
  SyncClient : Nat → String → Option Err
  /-- The JSON and the error that `cache.GetJSONAndData(key, f)` returns for the key
  `cache.BoardKey(board, page, !catalog)` and the front end chosen by `catalog`. -/
  GetJSONAndData : String → Int → Bool → List Nat × Option Err

/-- The methods `Client.send` and `Client.sendMessage`, given the result of the
write: a message that the connection accepts is recorded in the trace. -/
def sendResult (c : Client) (msg : Msg) (r : Option Err) : Client × Option Err :=
  match r with
  | some err => (c, some err)
  | none => ({ c with trace := c.trace ++ [Effect.send msg] }, none)

/-- The method `Client.registerSync`. The assignment of `c.feed` is recorded as
the effect `feedSyncClient`. -/
def registerSync (se : SyncEnv) (c0 : Client) (req : syncRequest) : Client × Option Err :=
  let r : Client × Option Err :=
    if c0.post.id ≠ 0 then se.closePreviousPost c0 else (c0, none)
  match r with
  | (c, some err) => (c, some err)
  | (c, none) =>
    match se.SyncClient req.Thread req.Board with
    | some err => (c, some err)
    | none =>
      let c1 : Client :=
        { c with trace := c.trace ++ [Effect.feedSyncClient req.Thread req.Board] }
      if req.Thread ≠ 0 then (c1, none)
      else if req.ProtocolVersion ≠ se.ProtocolVersion then
        sendResult c1 (Msg.MessageSynchronise none) (se.send (Msg.MessageSynchronise none))
      else
        let json := (se.GetJSONAndData req.Board (toInt64 req.Page) req.Catalog).1
        sendResult c1 (Msg.MessageSynchronise (some json))
          (se.send (Msg.MessageSynchronise (some json)))

/-- The method `Client.synchronise`. The argument is the result of
`decodeMessage(data, &msg)`, `none` when the payload does not decode. -/
def synchronise (se : SyncEnv) (c : Client) (data : Option syncRequest) : Client × Option Err :=
  match data with
  | none => (c, some (Err.json 0))
  | some msg =>
    if !se.IsBoard msg.Board then (c, some (Err.ErrInvalidBoard msg.Board))
    else
      let invalid : Option Err :=
        if msg.Thread ≠ 0 then
          match se.ValidateOP msg.Thread msg.Board with
          | .error err => some err
          | .ok valid =>
            if !valid then some (Err.ErrInvalidThread msg.Thread msg.Board) else none
        else none
      match invalid with
      | some err => (c, some err)
      | none =>
        match se.IsBanned msg.Board c.ip with
        | some err => (c, some err)
        | none =>
          if msg.ProtocolVersion = se.ProtocolVersion then
            match se.EncodeConfigs msg.Board with
            | some err => (c, some err)
            | none =>
              match sendResult c (Msg.MessageConfigs msg.Board)
                  (se.send (Msg.MessageConfigs msg.Board)) with
              | (c1, some err) => (c1, some err)
              | (c1, none) => registerSync se c1 msg
          else registerSync se c msg

/-- What `reclaimPost` obtains from outside `synchronisation.go`. -/
structure ReclaimEnv where
  /-- The method `Client.closePreviousPost`, which is not among the sources. -/
  closePreviousPost : Client → Client × Option Err
  /-- The result of `db.GetPostPassword(id)`; a `nil` hash is `none`. -/
  GetPostPassword : Nat → Except Err (Option (List Nat))
  /-- The result of `auth.BcryptCompare(password, hash)`. -/
  BcryptCompare : String → List Nat → Option Err
  /-- The result of `db.GetPost(id)`. -/
  GetPost : Nat → Except Err StandalonePost
  /-- The open post that the method `openPost.init`, which is not among the
  sources, builds from a stored post. -/
  init : StandalonePost → openPost
  /-- The result of `c.sendMessage` for a message. -/
  send : Msg → Option Err

/-- The method `Client.reclaimPost`. The argument is the result of
`decodeMessage(data, &req)`, `none` when the payload does not decode. -/
def reclaimPost (re : ReclaimEnv) (c0 : Client) (data : Option reclaimRequest) :
    Client × Option Err :=
  match re.closePreviousPost c0 with
  | (c, some err) => (c, some err)
  | (c, none) =>
    match data with
    | none => (c, some (Err.json 0))
    | some req =>
      match re.GetPostPassword req.ID with
      | .error err => (c, some err)
      | .ok none => sendResult c (Msg.MessageReclaim 1) (re.send (Msg.MessageReclaim 1))
      | .ok (some hash) =>
        match re.BcryptCompare req.Password hash with
        | some err =>
          if err = Err.ErrMismatchedHashAndPassword then
            sendResult c (Msg.MessageReclaim 1) (re.send (Msg.MessageReclaim 1))
          else (c, some err)
        | none =>
          match re.GetPost req.ID with
          | .error err => (c, some err)
          | .ok post =>
            if !post.Editing then
              sendResult c (Msg.MessageReclaim 1) (re.send (Msg.MessageReclaim 1))
            else
              sendResult
                { c with post := re.init post,
                         trace := c.trace ++ [Effect.feedInsertPost post.ID] }
                (Msg.MessageReclaim 0) (re.send (Msg.MessageReclaim 0))

/-! ## Store and text utilities (`db/util.go`, `util/util.go`) -/

/-- What `InTransaction` does with the database, in call order: `db.BeginTx`,
the call of `fn` on the transaction, `tx.Rollback`, `tx.Commit`. -/
inductive TxEffect
  | BeginTx (readOnly : Bool)
  | call (tx : Nat)
  | Rollback (tx : Nat)
  | Commit (tx : Nat)
  deriving DecidableEq, Repr

/-- What `InTransaction` obtains from the database: the result of `db.BeginTx`
(the transaction, named by a number) and the result of `tx.Commit`. The result of
`tx.Rollback` is ignored by the code. -/
structure TxEnv where
  BeginTx : Bool → Except Err Nat
  Commit : Nat → Option Err

/-- The function `InTransaction`; `fn` gives the error that the callback returns
for a transaction. -/
def InTransaction (te : TxEnv) (readOnly : Bool) (fn : Nat → Option Err) :
    List TxEffect × Option Err :=
  match te.BeginTx readOnly with
  | .error err => ([TxEffect.BeginTx readOnly], some err)
  | .ok tx =>
    match fn tx with
    | some err => ([TxEffect.BeginTx readOnly, TxEffect.call tx, TxEffect.Rollback tx], some err)
    | none => ([TxEffect.BeginTx readOnly, TxEffect.call tx, TxEffect.Commit tx], te.Commit tx)

/-- The call `strings.Split(s, ",")`: the fields of `s` between its commas; a
text without comma, the empty one included, is one field. -/
def SplitComma : List Nat → List (List Nat)
  | [] => [[]]
  | c :: rest =>
    if c = 44 then [] :: SplitComma rest
    else
      match SplitComma rest with
      | field :: fields => (c :: field) :: fields
      | [] => [[c]]

/-- The two errors of `strconv.ParseUint`. -/
inductive NumError
  | ErrSyntax
  | ErrRange
  deriving DecidableEq, Repr

/-- The loop of `strconv.ParseUint` for base 10 over the bytes of the text: a byte
that is not a decimal digit is a syntax error; `n >= cutoff` with
`cutoff = maxUint64/10 + 1`, and `n1 < n || n1 > maxVal` for the `uint64` sum
`n1 = n*10 + d`, are range errors, on which `maxVal` is returned. -/
def parseUintLoop (maxVal : Nat) : Nat → List Nat → Nat × Option NumError
  | n, [] => (n, none)
  | n, c :: rest =>
    if 48 ≤ c ∧ c ≤ 57 then
      if n ≥ (2 ^ 64 - 1) / 10 + 1 then (maxVal, some NumError.ErrRange)
      else
        let n1 := (n * 10 + (c - 48)) % 2 ^ 64
        if n1 < n * 10 ∨ n1 > maxVal then (maxVal, some NumError.ErrRange)
        else parseUintLoop maxVal n1 rest
    else (0, some NumError.ErrSyntax)

/-- The call `strconv.ParseUint(s, 10, bitSize)` for `bitSize` from 1 to 64. -/
def ParseUint (s : List Nat) (bitSize : Nat) : Nat × Option NumError :=
  if s = [] then (0, some NumError.ErrSyntax)
  else parseUintLoop (2 ^ bitSize - 1) 0 s

/-- The function `SplitBoardAndID`: the board, the id and the error. -/
def SplitBoardAndID (msg : List Nat) : List Nat × Nat × Option Err :=
  match SplitComma msg with
  | [board, num] =>
    match ParseUint num 64 with
    | (id, none) => (board, id, none)
    | (id, some _) => (board, id, some (Err.ErrMsgParse msg))
  | _ => ([], 0, some (Err.ErrMsgParse msg))

/-- The function `isPunctuation`: one of the bytes
`! " ' ( ) , - . : ; ? [ ]`. -/
def isPunctuation (b : Nat) : Bool :=
  b = 33 || b = 34 || b = 39 || b = 40 || b = 41 || b = 44 || b = 45 || b = 46 || b = 58
    || b = 59 || b = 63 || b = 91 || b = 93

/-- The function `SplitPunctuation`: leading byte, middle, trailing byte. -/
def SplitPunctuation (word : List Nat) : Nat × List Nat × Nat :=
  if word.length < 2 then (0, word, 0)
  else
    let r : Nat × List Nat :=
      if isPunctuation (word.getD 0 0) then (word.getD 0 0, word.drop 1) else (0, word)
    let l := r.2.length
    if l < 2 then (r.1, r.2, 0)
    else if isPunctuation (r.2.getD (l - 1) 0) then (r.1, r.2.take (l - 1), r.2.getD (l - 1) 0)
    else (r.1, r.2, 0)

/-- The function `SplitPunctuationString`, on the bytes of the string. -/
def SplitPunctuationString (word : List Nat) : Nat × List Nat × Nat :=
  if word.length < 2 then (0, word, 0)
  else
    let r : Nat × List Nat :=
      if isPunctuation (word.getD 0 0) then (word.getD 0 0, word.drop 1) else (0, word)
    let l := r.2.length
    if l < 2 then (r.1, r.2, 0)
    else if isPunctuation (r.2.getD (l - 1) 0) then (r.1, r.2.take (l - 1), r.2.getD (l - 1) 0)
    else (r.1, r.2, 0)

/-! ## The snapshot cache (package `cache`) -/

/-- Modelled from the spec: the package `cache` is not among the sources, only
its tests are. The spec gives a key as a struct of board, id, page, kind and
with-index, compared by value. -/
structure Key where
  board : String
  id : Nat
  page : Int
  kind : Nat
  withIndex : Bool
  deriving DecidableEq, Repr

/-- Modelled from the spec: the front end of package `cache`, a configuration with
the callbacks `GetCounter(k)`, `GetFresh(k)` and `RenderJSON(data)`. A value is
given by its bytes. -/
structure FrontEnd where
  GetCounter : Key → Except Err Nat
  GetFresh : Key → Except Err (List Nat)
  RenderJSON : List Nat → List Nat

/-- Modelled from the spec: a cache entry stores a freshness counter, the JSON
artifact, the value it was made from and the last-checked wall time, here in
nanoseconds. -/
structure CacheEntry where
  counter : Nat
  json : List Nat
  data : List Nat
  lastChecked : Int
  deriving DecidableEq, Repr

/-- The calls of the callbacks of a front end. -/
inductive CacheCall
  | GetCounter (k : Key)
  | GetFresh (k : Key)
  deriving DecidableEq, Repr

/-- Modelled from the spec: the cache maps keys to entries; the calls it has made
to front ends are recorded in call order. -/
structure Cache where
  entries : List (Key × CacheEntry)
  calls : List CacheCall
  deriving DecidableEq, Repr

/-- Modelled from the spec: the fixed counter TTL of 1 second, in nanoseconds. -/
def counterTTL : Int := 1000000000

/-- The entry of a key, if any. -/
def Cache.find (c : Cache) (k : Key) : Option CacheEntry :=
  (c.entries.find? (fun p => decide (p.1 = k))).map (fun p => p.2)

/-- The cache with the entry of a key replaced. -/
def Cache.store (c : Cache) (k : Key) (entry : CacheEntry) : Cache :=
  { c with entries := (k, entry) :: c.entries.filter (fun p => decide (p.1 ≠ k)) }

/-- The cache with the entry of a key discarded. -/
def Cache.discard (c : Cache) (k : Key) : Cache :=
  { c with entries := c.entries.filter (fun p => decide (p.1 ≠ k)) }

/-- The cache with one more recorded call. -/
def Cache.called (c : Cache) (call : CacheCall) : Cache :=
  { c with calls := c.calls ++ [call] }

/-- Modelled from the spec: step 1 of the freshness algorithm of package `cache`,
the build for a key without entry: call `GetCounter`, call `GetFresh`, render the
JSON, store, return. A failed build stores nothing. -/
def Cache.build (now : Int) (f : FrontEnd) (k : Key) (c : Cache) :
    Cache × Except Err (List Nat × List Nat × Nat) :=
  match f.GetCounter k with
  | .error err => (c.called (CacheCall.GetCounter k), .error err)
  | .ok counter =>
    match f.GetFresh k with
    | .error err =>
      ((c.called (CacheCall.GetCounter k)).called (CacheCall.GetFresh k), .error err)
    | .ok data =>
      ((((c.called (CacheCall.GetCounter k)).called (CacheCall.GetFresh k)).store k
          { counter := counter, json := f.RenderJSON data, data := data, lastChecked := now }),
        .ok (f.RenderJSON data, data, counter))

/-- Modelled from the spec: the operation `GetJSON(key, frontend)` of package
`cache` at wall time `now`, by the freshness algorithm of the spec. Without entry
the value is built. An entry whose last-checked time is newer than the counter TTL
is returned without a call. Otherwise `GetCounter` is called: if it matches the
stored counter, last-checked is updated and the cached artifact returned; if it
differs, the entry is discarded and the value is built. -/
def GetJSON (now : Int) (f : FrontEnd) (k : Key) (c : Cache) :
    Cache × Except Err (List Nat × List Nat × Nat) :=
  match c.find k with
  | none => Cache.build now f k c
  | some entry =>
    if now - entry.lastChecked < counterTTL then (c, .ok (entry.json, entry.data, entry.counter))
    else
      match f.GetCounter k with
      | .error err => (c.called (CacheCall.GetCounter k), .error err)
      | .ok counter =>
        if counter = entry.counter then
          ((c.called (CacheCall.GetCounter k)).store k { entry with lastChecked := now },
            .ok (entry.json, entry.data, entry.counter))
        else Cache.build now f k ((c.called (CacheCall.GetCounter k)).discard k)

/-! ## Auxiliary definitions for the statements and proofs -/

/-- The possible results of `DecodeRune` on non-empty input. -/
inductive DecodeCase (p0 : Nat) (t : List Nat) : Prop
  | err (h : DecodeRune (p0 :: t) = (RuneError, 1))
  | one (h0 : p0 < 0x80) (h : DecodeRune (p0 :: t) = ((p0 : Int), 1))
  | two (b1 : Nat) (t1 : List Nat) (ht : t = b1 :: t1) (h0 : 0xC2 ≤ p0) (h1 : p0 ≤ 0xDF)
      (h2 : 0x80 ≤ b1) (h3 : b1 ≤ 0xBF)
  | three (b1 b2 : Nat) (t2 : List Nat) (ht : t = b1 :: b2 :: t2) (h0 : 0xE0 ≤ p0) (h1 : p0 ≤ 0xEF)
      (h2 : (if p0 = 0xE0 then 0xA0 else 0x80) ≤ b1) (h3 : b1 ≤ (if p0 = 0xED then 0x9F else 0xBF))
      (h4 : 0x80 ≤ b2) (h5 : b2 ≤ 0xBF)
  | four (b1 b2 b3 : Nat) (t3 : List Nat) (ht : t = b1 :: b2 :: b3 :: t3) (h0 : 0xF0 ≤ p0)
      (h1 : p0 ≤ 0xF4)
      (h2 : (if p0 = 0xF0 then 0x90 else 0x80) ≤ b1) (h3 : b1 ≤ (if p0 = 0xF4 then 0x8F else 0xBF))
      (h4 : 0x80 ≤ b2) (h5 : b2 ≤ 0xBF) (h6 : 0x80 ≤ b3) (h7 : b3 ≤ 0xBF)

/-- The rune that `string(r)` encodes. -/
def sanitize (r : Int) : Int := if ValidRune r then r else RuneError

/-- The shape of an encoded rune: one byte below 0x80, or a start byte followed by
one to three continuation bytes. -/
inductive EncShape (r : Int) : Prop
  | one (b0 : Nat) (he : encodeRune r = [b0]) (h0 : b0 < 0x80)
  | two (b0 b1 : Nat) (he : encodeRune r = [b0, b1]) (h0 : 0xC0 ≤ b0) (h0' : b0 < 0x100)
      (h1 : 0x80 ≤ b1) (h1' : b1 < 0xC0)
  | three (b0 b1 b2 : Nat) (he : encodeRune r = [b0, b1, b2]) (h0 : 0xC0 ≤ b0) (h0' : b0 < 0x100)
      (h1 : 0x80 ≤ b1) (h1' : b1 < 0xC0) (h2 : 0x80 ≤ b2) (h2' : b2 < 0xC0)
  | four (b0 b1 b2 b3 : Nat) (he : encodeRune r = [b0, b1, b2, b3]) (h0 : 0xC0 ≤ b0)
      (h0' : b0 < 0x100)
      (h1 : 0x80 ≤ b1) (h1' : b1 < 0xC0) (h2 : 0x80 ≤ b2) (h2' : b2 < 0xC0)
      (h3 : 0x80 ≤ b3) (h3' : b3 < 0xC0)

/-- The client has an open post that is not older than 29 minutes at time `e.now`. -/
def openNow (e : Env) (c : Client) : Prop :=
  c.post.id ≠ 0 ∧ ¬ c.post.time < e.now - 29 * 60

instance (e : Env) (c : Client) : Decidable (openNow e c) := by
  unfold openNow; infer_instance

/-- The runes after the replaced range appended to the text, trimmed so that the
whole body has at most `MaxLenBody` runes. -/
def spliceEnd (old : List Int) (req : spliceRequest) : List Int :=
  if (old.length : Int) - req.Len + req.Text.length > MaxLenBody then
    (req.Text ++ old.drop (req.Start + req.Len)).take (MaxLenBody - req.Start)
  else req.Text ++ old.drop (req.Start + req.Len)

/-- The message that `spliceText` hands to the feed. -/
def spliceMsg (id : Nat) (old : List Int) (req : spliceRequest) : Msg :=
  if (old.length : Int) - req.Len + req.Text.length > MaxLenBody then
    Msg.MessageSplice id req.Start (old.length - req.Start) (encodeRunes (spliceEnd old req))
  else Msg.MessageSplice id req.Start req.Len (encodeRunes req.Text)

/-- The text of the message that `spliceText` hands to the feed. -/
def spliceMsgText (old : List Int) (req : spliceRequest) : List Nat :=
  if (old.length : Int) - req.Len + req.Text.length > MaxLenBody then
    encodeRunes (spliceEnd old req)
  else encodeRunes req.Text

/-- The client after the body has been rebuilt by a splice. -/
def spliced (c : Client) (old : List Int) (req : spliceRequest) : Client :=
  { c with post := { c.post with
      len := min ((old.length : Int) - req.Len + req.Text.length) MaxLenBody,
      body := encodeRunes (old.take req.Start ++ spliceEnd old req),
      lines := countLines (encodeRunes (old.take req.Start ++ spliceEnd old req)) } }

/-- The rune sequence `old[0..start) ++ text ++ old[start+len..)`. -/
def spliceRunes (old : List Int) (start len : Nat) (text : List Int) : List Int :=
  old.take start ++ text ++ old.drop (start + len)

/-- The request that `spliceRequest.UnmarshalJSON` builds from the decoded payload. -/
def reqOf (tmp : spliceRequestString) : spliceRequest :=
  { Start := tmp.Start, Len := tmp.Len, Text := decodeRunes tmp.Text }

/-- An environment whose clock reads `now`, in which every rune is printable, the
parser finds no links or commands and the store accepts every call. -/
def quietEnv (now : Int) : Env :=
  { now := now, CharScore := 1, IsPrintable := fun _ => none, IsPrintableRunes := fun _ => none,
    ParseBody := fun _ _ _ _ _ => .ok ([], []), SetOpenBody := fun _ _ => none,
    ClosePost := fun _ _ _ _ _ => none, Ban := fun _ _ _ _ _ => none,
    IncrementRcount := fun _ => none }

/-- A client with post 2 of thread 1 on board `a` open, created at time `t`. -/
def clientWith (body : List Nat) (len lines t : Int) : Client :=
  { gotFirstMessage := true, ip := "::1", trace := [],
    post := { hasImage := false, isSpoilered := false, len := len, lines := lines, id := 2,
              op := 1, time := t, body := body, board := "a" } }

/-- The bytes of the string `αΒΓΔ`. -/
def greekBody : List Nat := [0xCE, 0xB1, 0xCE, 0x92, 0xCE, 0x93, 0xCE, 0x94]

/-- A body of 2000 runes: 2000 times the letter `a`. -/
def fullBody : List Nat := List.replicate 2000 97

/-- The bytes of the replacement text of the truncation scenario,
`Never gonna give you up Never gonna let you down Never gonna run around and desert you `. -/
def neverGonna : List Nat :=
  [78, 101, 118, 101, 114, 32, 103, 111, 110, 110, 97, 32, 103, 105, 118, 101, 32, 121, 111, 117,
   32, 117, 112, 32, 78, 101, 118, 101, 114, 32, 103, 111, 110, 110, 97, 32, 108, 101, 116, 32,
   121, 111, 117, 32, 100, 111, 119, 110, 32, 78, 101, 118, 101, 114, 32, 103, 111, 110, 110, 97,
   32, 114, 117, 110, 32, 97, 114, 111, 117, 110, 100, 32, 97, 110, 100, 32, 100, 101, 115, 101,
   114, 116, 32, 121, 111, 117, 32]

/-- The client of the truncation scenario after the splice. -/
def fullClientAfter : Client :=
  { clientWith (List.replicate 1943 97 ++ neverGonna.take 57) 2000 0 1000 with
    trace :=
      [Effect.feedSetOpenBody 2 (List.replicate 1943 97 ++ neverGonna.take 57)
         (Msg.MessageSplice 2 1943 57 (neverGonna.take 57)),
       Effect.IncrementSpamScore "::1" 58,
       Effect.dbSetOpenBody 2 (List.replicate 1943 97 ++ neverGonna.take 57)] }

/-- The splice message that was last handed to the feed, as the triple of its
`start`, its `len` read as an integer, and its `text`. -/
def lastSpliceBroadcast (c : Client) : Option (Nat × Int × List Nat) :=
  match c.trace.reverse.find? (fun x => match x with
      | Effect.feedSetOpenBody _ _ _ => true
      | _ => false) with
  | some (Effect.feedSetOpenBody _ _ (Msg.MessageSplice _ start len text)) =>
    some (start, (len : Int), text)
  | _ => none

/-- The client with body `abc` after the splice `(0, 1, "x")`. -/
def abcAfterReplace : Client :=
  { clientWith [120, 98, 99] 3 0 1000 with
    trace := [Effect.feedSetOpenBody 2 [120, 98, 99] (Msg.MessageSplice 2 0 1 [120]),
       Effect.IncrementSpamScore "::1" 2,
       Effect.dbSetOpenBody 2 [120, 98, 99]] }

/-- The client `abcAfterReplace` after the splice `(0, 1, "")`. -/
def abcAfterReplaceRemove : Client :=
  { clientWith [98, 99] 2 0 1000 with
    trace := abcAfterReplace.trace ++
      [Effect.feedSetOpenBody 2 [98, 99] (Msg.MessageSplice 2 0 1 []),
       Effect.IncrementSpamScore "::1" 1,
       Effect.dbSetOpenBody 2 [98, 99]] }

/-- The client with body `abc` after the splice `(1, 0, "xy")`. -/
def abcAfterInsert : Client :=
  { clientWith [97, 120, 121, 98, 99] 5 0 1000 with
    trace := [Effect.feedSetOpenBody 2 [97, 120, 121, 98, 99]
         (Msg.MessageSplice 2 1 0 [120, 121]),
       Effect.IncrementSpamScore "::1" 3,
       Effect.dbSetOpenBody 2 [97, 120, 121, 98, 99]] }

/-- The invariant of an open post: the body is valid UTF-8 and NUL-free, `len` is
its rune count and `len` is at most `MaxLenBody`. -/
def postInv (p : openPost) : Prop :=
  utf8Valid p.body = true ∧ 0 ∉ p.body ∧ p.len = (decodeRunes p.body).length
    ∧ p.len ≤ MaxLenBody

instance (p : openPost) : Decidable (postInv p) := by
  unfold postInv; infer_instance

/-- A body of 100 newlines. -/
def hundredLines : List Nat := List.replicate 100 10

/-- A client whose open post holds 100 newlines, with `len` and `lines` 100. -/
def hundredLinesClient : Client := clientWith hundredLines 100 100 1000

/-- The links and commands that `closePost` hands to the store: the result of
`parser.ParseBody`, and none for a post with `len = 0`. -/
def parsedBody (e : Env) (c : Client) : Except Err (List Link × List Command) :=
  if c.post.len ≠ 0 then e.ParseBody c.post.body c.post.board c.post.op c.post.id c.ip
  else .ok ([], [])

/-- An image environment in which no board is text-only, the name is kept and the
store accepts every call. -/
def quietImageEnv : ImageEnv :=
  { TextOnly := fun _ => false, formatImageName := fun n => .ok n,
    InsertImage := fun _ _ _ _ => .ok [], SpoilerImage := fun _ _ => none }

/-- The client with post 2 (`abc`) after `closePost`. -/
def abcClosed : Client :=
  { clientWith [] 0 0 0 with
    post := openPost.zero,
    trace := [Effect.dbClosePost 2 1 [97, 98, 99] [] []] }

/-- A losing `#roulette` command: a `Roulette` command whose first value is 1. -/
def losingRoulette (command : Command) : Prop :=
  command.Typ = CommandType.Roulette ∧ command.Roulette.1 = 1

instance (command : Command) : Decidable (losingRoulette command) := by
  unfold losingRoulette; infer_instance

/-- An environment like `quietEnv` whose parser finds the given commands. -/
def commandEnv (now : Int) (com : List Command) : Env :=
  { quietEnv now with ParseBody := fun _ _ _ _ _ => .ok ([], com) }

/-- An environment like `commandEnv` whose store rejects every ban. -/
def banFailsEnv (now : Int) (com : List Command) : Env :=
  { commandEnv now com with Ban := fun _ _ _ _ _ => some (Err.store 1) }

/-- A client with post 2 of thread 1 on board `a` open, body `#roulette`. -/
def rouletteClient : Client :=
  clientWith [35, 114, 111, 117, 108, 101, 116, 116, 101] 9 0 1000

/-- A client with post 2 of thread 1 on board `a` open, created at time 1000, that
has an image which is not spoilered. -/
def imageClient : Client :=
  { clientWith [97, 98, 99] 3 0 1000 with
      post := { (clientWith [97, 98, 99] 3 0 1000).post with hasImage := true } }

/-- An image environment like `quietImageEnv` in which every board is text-only. -/
def textOnlyEnv : ImageEnv :=
  { quietImageEnv with TextOnly := fun _ => true }

/-- The image request of `TestInsertImage`: not spoilered, a token and the name
`foo.jpeg`. -/
def fooRequest : ImageRequest :=
  { Spoiler := false, Token := [116], Name := [102, 111, 111, 46, 106, 112, 101, 103] }

/-- The same request with the spoiler flag set. -/
def fooSpoilerRequest : ImageRequest :=
  { fooRequest with Spoiler := true }

/-- The post that `insertImage` leaves on success. -/
def withImage (c : Client) (req : ImageRequest) (name msg : List Nat) : Client :=
  { c with
      post := { c.post with hasImage := true, isSpoilered := req.Spoiler },
      trace := c.trace ++
        [Effect.dbInsertImage c.post.id req.Token name req.Spoiler,
         Effect.feedInsertImage c.post.id req.Spoiler (Msg.MessageInsertImage msg)] }

/-- The client that `spoilerImage` leaves on success. -/
def withSpoiler (c : Client) : Client :=
  { c with trace := c.trace ++
      [Effect.dbSpoilerImage c.post.id c.post.op,
       Effect.feedSpoilerImage c.post.id (Msg.MessageSpoiler c.post.id)] }

/-- The message type has a case in the `switch` of `runHandler`. -/
def hasHandler (mt : MessageTypes) (typ : Nat) : Prop :=
  typ = mt.MessageSynchronise ∨ typ = mt.MessageReclaim ∨ typ = mt.MessageAppend
    ∨ typ = mt.MessageBackspace ∨ typ = mt.MessageClosePost ∨ typ = mt.MessageSplice
    ∨ typ = mt.MessageInsertPost ∨ typ = mt.MessageInsertImage ∨ typ = mt.MessageNOOP
    ∨ typ = mt.MessageSpoiler ∨ typ = mt.MessageMeguTV

instance (mt : MessageTypes) (typ : Nat) : Decidable (hasHandler mt typ) := by
  unfold hasHandler; infer_instance

/-- The frames that are admitted to a handler, in the words of the specification:
at least two bytes, the first two both decimal digits, naming a type that has a
handler, and the client has synchronised or the type is Synchronise. -/
def admissible (mt : MessageTypes) (synced : Bool) (msg : List Nat) : Prop :=
  match msg with
  | a :: b :: _ =>
    48 ≤ a ∧ a ≤ 57 ∧ 48 ≤ b ∧ b ≤ 57 ∧ hasHandler mt ((a - 48) * 10 + (b - 48))
      ∧ (synced = true ∨ (a - 48) * 10 + (b - 48) = mt.MessageSynchronise)
  | _ => False

instance (mt : MessageTypes) (synced : Bool) (msg : List Nat) :
    Decidable (admissible mt synced msg) := by
  unfold admissible; split <;> infer_instance

/-- A table of message types: the post updates are 1 to 7, Synchronise is 30 (the
type of the frame `30nope` of `TestHandleMessage`), and 99 is no type. -/
def testTypes : MessageTypes :=
  { MessageInsertPost := 1, MessageAppend := 2, MessageBackspace := 3, MessageSplice := 4,
    MessageClosePost := 5, MessageInsertImage := 6, MessageSpoiler := 7,
    MessageSynchronise := 30, MessageReclaim := 31, MessageNOOP := 34, MessageMeguTV := 40 }

/-- A frame environment with the table `testTypes` in which sending succeeds. -/
def testFrameEnv : FrameEnv :=
  { types := testTypes, now := 1000, sendMessage := none }

/-- A client that has not sent its first message and has no open post. -/
def freshClient : Client :=
  { gotFirstMessage := false, post := openPost.zero, ip := "::1", trace := [] }

/-- The bytes of `natsutte tsuchatta`. -/
def natsutte : List Nat :=
  [110, 97, 116, 115, 117, 116, 116, 101, 32, 116, 115, 117, 99, 104, 97, 116, 116, 97]

/-- What happens to the outbound queue of a session: a call of `Send`, or the
listener taking the branch that writes the oldest queued message. -/
inductive QueueOp
  | Send (msg : List Nat)
  | write
  deriving DecidableEq, Repr

/-- A run of `Send` calls and listener writes in the given order, until the
listener loop returns with the error of a write. -/
def runQueue (size : Nat) (send : List Nat → Option Err) : List QueueOp → Session → Session
  | [], s => s
  | QueueOp.Send msg :: ops, s => runQueue size send ops (Send size s msg)
  | QueueOp.write :: ops, s =>
    match listenerSend send s with
    | (s1, none) => runQueue size send ops s1
    | (s1, some _) => s1

/-- The messages of the `Send` calls of a run, in call order. -/
def sentMessages : List QueueOp → List (List Nat)
  | [] => []
  | QueueOp.Send msg :: ops => msg :: sentMessages ops
  | QueueOp.write :: ops => sentMessages ops

/-- The error of `Send` on a full queue. -/
def overflow : Option Err := some (Err.text "send buffer overflow")

/-- A session with nothing queued, no close signal and nothing written. -/
def idleSession : Session := { sendExternal := [], close := [], written := [] }

/-- A connection environment whose socket closes without error. -/
def quietConn : ConnEnv := { text := fun _ => "", connClose := none }

/-- The close codes of a graceful closure by the peer. -/
def gracefulCode (Code : Nat) : Prop :=
  Code = CloseNormalClosure ∨ Code = CloseGoingAway ∨ Code = CloseNoStatusReceived
    ∨ Code = CloseAbnormalClosure

instance (Code : Nat) : Decidable (gracefulCode Code) := by
  unfold gracefulCode; infer_instance

/-- The client after `closeConnections` has made the given calls. -/
def closedWith (c : Client) (calls : List Effect) : Client :=
  { c with trace := c.trace ++ calls }

/-- A synchronisation environment with protocol version 1 and the single board
`a`, which has no threads; nobody is banned and the store, the feeds, the cache
and the connection accept every call. -/
def boardEnv : SyncEnv :=
  { ProtocolVersion := 1,
    IsBoard := fun board => decide (board = "a"),
    ValidateOP := fun _ _ => .ok false,
    IsBanned := fun _ _ => none,
    EncodeConfigs := fun _ => none,
    send := fun _ => none,
    closePreviousPost := fun c => (c, none),
    SyncClient := fun _ _ => none,
    GetJSONAndData := fun _ _ _ => ([91, 93], none) }

/-- An environment like `boardEnv` in which fetching a board page from the cache
fails with a store error and returns no JSON. -/
def cacheFailsEnv : SyncEnv :=
  { boardEnv with GetJSONAndData := fun _ _ _ => ([], some (Err.store 1)) }

/-- A request to synchronise to a board. -/
def boardRequest (board : String) (thread version : Nat) : syncRequest :=
  { Last100 := false, Catalog := false, Page := 0, ProtocolVersion := version,
    Thread := thread, Board := board }

/-- The request names a post that can be reclaimed: the store has a password hash
for it, the password matches the hash, and the stored post is being edited. -/
def reclaimable (re : ReclaimEnv) (req : reclaimRequest) (hash : List Nat)
    (post : StandalonePost) : Prop :=
  re.GetPostPassword req.ID = .ok (some hash) ∧ re.BcryptCompare req.Password hash = none
    ∧ re.GetPost req.ID = .ok post ∧ post.Editing = true

/-- The client after the reply `MessageReclaim` with code 1. -/
def refused (c : Client) : Client :=
  { c with trace := c.trace ++ [Effect.send (Msg.MessageReclaim 1)] }

/-- The client after a stored post has been reclaimed and the reply
`MessageReclaim` with code 0 sent. -/
def reclaimed (re : ReclaimEnv) (c : Client) (post : StandalonePost) : Client :=
  { c with post := re.init post,
           trace := c.trace ++ [Effect.feedInsertPost post.ID,
             Effect.send (Msg.MessageReclaim 0)] }

/-- The stored post 2 of `TestReclaimPost`: being edited, body `abc\ndef`. -/
def storedPost2 : StandalonePost :=
  { Editing := true, ID := 2, Time := 3, Body := [97, 98, 99, 10, 100, 101, 102], OP := 1,
    Board := "a" }

/-- The stored post 3 of `TestReclaimPost`: closed. -/
def storedPost3 : StandalonePost :=
  { Editing := false, ID := 3, Time := 0, Body := [], OP := 1, Board := "a" }

/-- The environment of `TestReclaimPost`: the posts 2 and 3 are stored with the
hash (here the bytes `[1]`) of the password `123`; no previous post is open and
the connection accepts every write. The open post made from a stored post takes
its id, thread, board, time and body. -/
def reclaimEnv : ReclaimEnv :=
  { closePreviousPost := fun c => (c, none),
    GetPostPassword := fun id => .ok (if id = 2 ∨ id = 3 then some [1] else none),
    BcryptCompare := fun password _ =>
      if password = "123" then none else some Err.ErrMismatchedHashAndPassword,
    GetPost := fun id =>
      if id = 2 then .ok storedPost2 else if id = 3 then .ok storedPost3
      else .error (Err.store 0),
    init := fun post =>
      { openPost.zero with id := post.ID, op := post.OP, board := post.Board,
                           time := post.Time, body := post.Body },
    send := fun _ => none }

/-- A database on which `db.BeginTx` gives the transaction 7 and `tx.Commit`
succeeds. -/
def quietTx : TxEnv := { BeginTx := fun _ => .ok 7, Commit := fun _ => none }

/-- A database on which `db.BeginTx` fails. -/
def noTx : TxEnv := { BeginTx := fun _ => .error (Err.store 1), Commit := fun _ => none }

/-- The client after the automatic close of its post without roulette loss. -/
def autoClosed (c : Client) (links : List Link) (com : List Command) : Client :=
  { c with post := openPost.zero,
           trace := c.trace ++ [Effect.dbClosePost c.post.id c.post.op c.post.body links com] }

/-- The client after the automatic close of its post with a lost roulette. -/
def autoClosedBanned (c : Client) (links : List Link) (com : List Command) : Client :=
  { c with post := openPost.zero,
           trace := c.trace ++
             [Effect.dbClosePost c.post.id c.post.op c.post.body links com,
              Effect.dbBan c.post.board "lost at #roulette" "system" Hour c.post.id,
              Effect.dbIncrementRcount c.post.op] }

/-- The byte that `SplitPunctuation` reports for an edge: the byte itself when it
is punctuation, 0 otherwise. -/
def edgeByte (b : Nat) : Nat := if isPunctuation b then b else 0

/-- The one-byte list of a split-off edge byte, empty when none was split off. -/
def edgeList (b : Nat) : List Nat := if b = 0 then [] else [b]

/-- The properties that the amended claim C28 states of a result of
`SplitPunctuation` for a word. -/
def splitsEdges (word : List Nat) (r : Nat × List Nat × Nat) : Prop :=
  (word.length < 2 → r = (0, word, 0))
    ∧ (2 ≤ word.length → r.1 = edgeByte (word.getD 0 0))
    ∧ (3 ≤ word.length → r.2.2 = edgeByte (word.getD (word.length - 1) 0))
    ∧ (word.length = 2 →
        r.2.2 = if isPunctuation (word.getD 0 0) then 0 else edgeByte (word.getD 1 0))
    ∧ word = edgeList r.1 ++ r.2.1 ++ edgeList r.2.2
    ∧ (word ≠ [] → r.2.1 ≠ [])

/-- The claim C28 in its own words, for a non-empty word and a result: leading is
the first byte when that is punctuation and 0 otherwise; trailing is the last
byte when that is punctuation and 0 otherwise; the middle is the rest of the
word. -/
def splitsEveryEdge (word : List Nat) (r : Nat × List Nat × Nat) : Prop :=
  r.1 = edgeByte (word.getD 0 0)
    ∧ r.2.2 = edgeByte (word.getD (word.length - 1) 0)
    ∧ word = edgeList r.1 ++ r.2.1 ++ edgeList r.2.2

instance (word : List Nat) (r : Nat × List Nat × Nat) : Decidable (splitsEveryEdge word r) := by
  unfold splitsEveryEdge; infer_instance

/-- The decimal digits of a number, most significant first, as bytes; the fuel
bounds the number of digits. -/
def decimalFuel : Nat → Nat → List Nat
  | 0, _ => []
  | fuel + 1, n => if n < 10 then [48 + n] else decimalFuel fuel (n / 10) ++ [48 + n % 10]

/-- The decimal text of a number (`strconv.FormatUint(n, 10)`). -/
def decimal (n : Nat) : List Nat := decimalFuel (n + 1) n

/-- The number that a text of decimal digits denotes, continuing from `n`. -/
def digitsValueFrom (n : Nat) (s : List Nat) : Nat :=
  s.foldl (fun acc c => acc * 10 + (c - 48)) n

/-- The number that a text of decimal digits denotes. -/
def digitsValue (s : List Nat) : Nat := digitsValueFrom 0 s

/-- A base-10 unsigned 64-bit integer: a non-empty text of decimal digits whose
value is below `2 ^ 64`. -/
def isDecimal64 (s : List Nat) : Prop :=
  s ≠ [] ∧ (∀ c ∈ s, 48 ≤ c ∧ c ≤ 57) ∧ digitsValue s < 2 ^ 64

/-- The front end of `TestGetJSON` and `TestCounterExpiry`: the counter is always
1 and the fresh value is the string `foo`, whose JSON is the string in quotes. -/
def fooFrontEnd : FrontEnd :=
  { GetCounter := fun _ => .ok 1,
    GetFresh := fun _ => .ok [102, 111, 111],
    RenderJSON := fun v => [34] ++ v ++ [34] }

/-- A cache without entries that has made no call. -/
def emptyCache : Cache := { entries := [], calls := [] }

/-- The key of page 0 of the board `a`. -/
def boardKey : Key := { board := "a", id := 0, page := 0, kind := 1, withIndex := false }

/-- The cache after a successful build for a key at a time. -/
def builtCache (now : Int) (f : FrontEnd) (k : Key) (c : Cache) (counter : Nat)
    (v : List Nat) : Cache :=
  ((c.called (CacheCall.GetCounter k)).called (CacheCall.GetFresh k)).store k
    { counter := counter, json := f.RenderJSON v, data := v, lastChecked := now }

/-- The client with a body of 2000 letters `a` after the splice `(0, 0, "x")`: the
body is `x` followed by 1999 letters `a`. -/
def fullClientAfterX : Client :=
  { clientWith (120 :: List.replicate 1999 97) 2000 0 1000 with
    trace :=
      [Effect.feedSetOpenBody 2 (120 :: List.replicate 1999 97)
         (Msg.MessageSplice 2 0 2000 (120 :: List.replicate 1999 97)),
       Effect.IncrementSpamScore "::1" 2001,
       Effect.dbSetOpenBody 2 (120 :: List.replicate 1999 97)] }

/-! ## Theorems -/

theorem DecodeRune_one (p0 : Nat) (t : List Nat) (h : p0 < 0x80) :
    DecodeRune (p0 :: t) = ((p0 : Int), 1) := by
  simp only [DecodeRune, if_pos h]

theorem DecodeRune_two (p0 b1 : Nat) (t : List Nat) (h0 : 0xC2 ≤ p0) (h1 : p0 ≤ 0xDF)
    (h2 : 0x80 ≤ b1) (h3 : b1 ≤ 0xBF) :
    DecodeRune (p0 :: b1 :: t) = (((p0 % 32 * 64 + b1 % 64 : Nat) : Int), 2) := by
  have e1 : ¬ p0 < 0x80 := by omega
  have e2 : ¬ (p0 < 0xC2 ∨ 0xF4 < p0) := by omega
  have e3 : p0 < 0xE0 := by omega
  have e4 : ¬ p0 = 0xE0 := by omega
  have e5 : ¬ p0 = 0xF0 := by omega
  have e6 : ¬ p0 = 0xED := by omega
  have e7 : ¬ p0 = 0xF4 := by omega
  have e8 : ¬ (b1 < 0x80 ∨ 0xBF < b1) := by omega
  have e9 : ¬ ((b1 :: t).length + 1 < 2) := by simp
  simp only [DecodeRune, if_neg e1, if_neg e2, if_pos e3, if_neg e4, if_neg e5, if_neg e6,
    if_neg e7, if_neg e8, if_neg e9, le_refl, if_true]

theorem DecodeRune_three (p0 b1 b2 : Nat) (t : List Nat) (h0 : 0xE0 ≤ p0) (h1 : p0 ≤ 0xEF)
    (h2 : (if p0 = 0xE0 then 0xA0 else 0x80) ≤ b1) (h3 : b1 ≤ (if p0 = 0xED then 0x9F else 0xBF))
    (h4 : 0x80 ≤ b2) (h5 : b2 ≤ 0xBF) :
    DecodeRune (p0 :: b1 :: b2 :: t)
      = (((p0 % 16 * 4096 + b1 % 64 * 64 + b2 % 64 : Nat) : Int), 3) := by
  have e1 : ¬ p0 < 0x80 := by omega
  have e2 : ¬ (p0 < 0xC2 ∨ 0xF4 < p0) := by omega
  have e3 : ¬ p0 < 0xE0 := by omega
  have e3' : p0 < 0xF0 := by omega
  have e5 : ¬ p0 = 0xF0 := by omega
  have e7 : ¬ p0 = 0xF4 := by omega
  have e8 : ¬ (b2 < 0x80 ∨ 0xBF < b2) := by omega
  have e9 : ¬ ((b1 :: b2 :: t).length + 1 < 3) := by simp
  have e10 : ¬ ((3 : Nat) ≤ 2) := by omega
  have e11 : ¬ (b1 < (if p0 = 0xE0 then 0xA0 else 0x80) ∨ (if p0 = 0xED then 0x9F else 0xBF) < b1) := by
    omega
  simp only [DecodeRune, if_neg e1, if_neg e2, if_neg e3, if_pos e3', if_neg e5,
    if_neg e7, if_neg e8, if_neg e9, if_neg e10, if_neg e11, le_refl, if_true]

theorem DecodeRune_four (p0 b1 b2 b3 : Nat) (t : List Nat) (h0 : 0xF0 ≤ p0) (h1 : p0 ≤ 0xF4)
    (h2 : (if p0 = 0xF0 then 0x90 else 0x80) ≤ b1) (h3 : b1 ≤ (if p0 = 0xF4 then 0x8F else 0xBF))
    (h4 : 0x80 ≤ b2) (h5 : b2 ≤ 0xBF) (h6 : 0x80 ≤ b3) (h7 : b3 ≤ 0xBF) :
    DecodeRune (p0 :: b1 :: b2 :: b3 :: t)
      = (((p0 % 8 * 262144 + b1 % 64 * 4096 + b2 % 64 * 64 + b3 % 64 : Nat) : Int), 4) := by
  have e1 : ¬ p0 < 0x80 := by omega
  have e2 : ¬ (p0 < 0xC2 ∨ 0xF4 < p0) := by omega
  have e3 : ¬ p0 < 0xE0 := by omega
  have e3' : ¬ p0 < 0xF0 := by omega
  have e4 : ¬ p0 = 0xE0 := by omega
  have e6 : ¬ p0 = 0xED := by omega
  have e8 : ¬ (b2 < 0x80 ∨ 0xBF < b2) := by omega
  have e8' : ¬ (b3 < 0x80 ∨ 0xBF < b3) := by omega
  have e9 : ¬ ((b1 :: b2 :: b3 :: t).length + 1 < 4) := by simp
  have e10 : ¬ ((4 : Nat) ≤ 2) := by omega
  have e10' : ¬ ((4 : Nat) ≤ 3) := by omega
  have e11 : ¬ (b1 < (if p0 = 0xF0 then 0x90 else 0x80) ∨ (if p0 = 0xF4 then 0x8F else 0xBF) < b1) := by
    omega
  simp only [DecodeRune, if_neg e1, if_neg e2, if_neg e3, if_neg e3', if_neg e4, if_neg e6,
    if_neg e8, if_neg e8', if_neg e9, if_neg e10, if_neg e10', if_neg e11]

theorem DecodeRune_cases (p0 : Nat) (t : List Nat) : DecodeCase p0 t := by
  by_cases g1 : p0 < 0x80
  · exact .one g1 (DecodeRune_one p0 t g1)
  by_cases g2 : p0 < 0xC2 ∨ 0xF4 < p0
  · exact .err (by simp only [DecodeRune, if_neg g1, if_pos g2])
  match t with
  | [] => exact .err (by simp only [DecodeRune, if_neg g1, if_neg g2]; split_ifs <;> simp_all)
  | b1 :: t1 =>
    by_cases g3 : b1 < (if p0 = 0xE0 then 0xA0 else if p0 = 0xF0 then 0x90 else 0x80)
        ∨ (if p0 = 0xED then 0x9F else if p0 = 0xF4 then 0x8F else 0xBF) < b1
    · exact .err (by simp only [DecodeRune, if_neg g1, if_neg g2, if_pos g3]; split_ifs <;> rfl)
    by_cases g4 : p0 < 0xE0
    · exact .two b1 t1 rfl (by omega) (by omega) (by split_ifs at g3 <;> omega)
        (by split_ifs at g3 <;> omega)
    match t1 with
    | [] => exact .err (by simp only [DecodeRune, if_neg g1, if_neg g2, if_neg g3, if_neg g4]; split_ifs <;> simp_all)
    | b2 :: t2 =>
      by_cases g5 : b2 < 0x80 ∨ 0xBF < b2
      · exact .err (by simp only [DecodeRune, if_neg g1, if_neg g2, if_neg g3, if_neg g4, if_pos g5]; split_ifs <;> simp_all)
      by_cases g6 : p0 < 0xF0
      · exact .three b1 b2 t2 rfl (by omega) (by omega) (by split_ifs at g3 ⊢ <;> omega)
          (by split_ifs at g3 ⊢ <;> omega) (by omega) (by omega)
      match t2 with
      | [] => exact .err (by simp only [DecodeRune, if_neg g1, if_neg g2, if_neg g3, if_neg g4, if_neg g5, if_neg g6]; split_ifs <;> simp_all)
      | b3 :: t3 =>
        by_cases g7 : b3 < 0x80 ∨ 0xBF < b3
        · exact .err (by simp only [DecodeRune, if_neg g1, if_neg g2, if_neg g3, if_neg g4, if_neg g5, if_neg g6, if_pos g7]; split_ifs <;> simp_all)
        exact .four b1 b2 b3 t3 rfl (by omega) (by omega) (by split_ifs at g3 ⊢ <;> omega)
          (by split_ifs at g3 ⊢ <;> omega) (by omega) (by omega) (by omega) (by omega)

theorem ValidRune_iff (r : Int) :
    ValidRune r = true ↔ (0 ≤ r ∧ r < 0xD800) ∨ (0xDFFF < r ∧ r ≤ 0x10FFFF) := by
  simp [ValidRune, MaxRune]

theorem ValidRune_natCast (n : Nat) :
    ValidRune (n : Int) = true ↔ n < 0xD800 ∨ (0xDFFF < n ∧ n ≤ 0x10FFFF) := by
  rw [ValidRune_iff]; omega

theorem encodeRune_natCast (n : Nat) (hn : n < 0xD800 ∨ (0xDFFF < n ∧ n ≤ 0x10FFFF)) :
    encodeRune (n : Int) = encodeNat n := by
  have h := (ValidRune_natCast n).mpr hn
  simp only [encodeRune, h, if_true, Int.toNat_ofNat]

theorem DecodeRune_encodeNat (n : Nat) (hn : n < 0xD800 ∨ (0xDFFF < n ∧ n ≤ 0x10FFFF))
    (rest : List Nat) :
    DecodeRune (encodeNat n ++ rest) = ((n : Int), (encodeNat n).length) := by
  unfold encodeNat
  split_ifs with h1 h2 h3
  · rw [List.singleton_append, DecodeRune_one _ _ (by omega)]; rfl
  · simp only [List.cons_append, List.nil_append, List.length_cons, List.length_nil]
    rw [DecodeRune_two _ _ _ (by omega) (by omega) (by omega) (by omega)]
    congr 2; omega
  · simp only [List.cons_append, List.nil_append, List.length_cons, List.length_nil]
    rw [DecodeRune_three _ _ _ _ (by omega) (by omega) (by split_ifs <;> omega)
      (by split_ifs <;> omega) (by omega) (by omega)]
    congr 2; omega
  · simp only [List.cons_append, List.nil_append, List.length_cons, List.length_nil]
    rw [DecodeRune_four _ _ _ _ _ (by omega) (by omega) (by split_ifs <;> omega)
      (by split_ifs <;> omega) (by omega) (by omega) (by omega) (by omega)]
    congr 2; omega

theorem encodeNat_length_pos (n : Nat) : 1 ≤ (encodeNat n).length := by
  unfold encodeNat; split_ifs <;> simp

theorem encodeRune_length_pos (r : Int) : 1 ≤ (encodeRune r).length := by
  unfold encodeRune; split_ifs
  · exact encodeNat_length_pos _
  · simp

theorem DecodeRune_encodeRune (r : Int) (rest : List Nat) :
    DecodeRune (encodeRune r ++ rest) = (sanitize r, (encodeRune r).length) := by
  unfold encodeRune sanitize
  by_cases h : ValidRune r = true
  · have h' := (ValidRune_iff r).mp h
    have hr : ((r.toNat : Nat) : Int) = r := by omega
    simp only [h, if_true]
    rw [DecodeRune_encodeNat r.toNat (by omega) rest, hr]
  · rw [if_neg h, if_neg h]
    rw [show [0xEF, 0xBF, 0xBD] ++ rest = 0xEF :: 0xBF :: 0xBD :: rest from rfl]
    rw [DecodeRune_three _ _ _ _ (by omega) (by omega) (by decide) (by decide) (by omega) (by omega)]
    rfl

/-- Whatever `DecodeRune` returns is a scalar value. -/
theorem DecodeRune_valid (p : List Nat) : ValidRune (DecodeRune p).1 = true := by
  match p with
  | [] => rfl
  | p0 :: t =>
    cases DecodeRune_cases p0 t with
    | err h => rw [h]; rfl
    | one h0 h => rw [h]; exact (ValidRune_natCast _).mpr (by omega)
    | two b1 t1 ht h0 h1 h2 h3 =>
      subst ht; rw [DecodeRune_two _ _ _ h0 h1 h2 h3]; exact (ValidRune_natCast _).mpr (by omega)
    | three b1 b2 t2 ht h0 h1 h2 h3 h4 h5 =>
      subst ht; rw [DecodeRune_three _ _ _ _ h0 h1 h2 h3 h4 h5]
      exact (ValidRune_natCast _).mpr (by split_ifs at h2 h3 <;> omega)
    | four b1 b2 b3 t3 ht h0 h1 h2 h3 h4 h5 h6 h7 =>
      subst ht; rw [DecodeRune_four _ _ _ _ _ h0 h1 h2 h3 h4 h5 h6 h7]
      exact (ValidRune_natCast _).mpr (by split_ifs at h2 h3 <;> omega)

/-- A successful `DecodeRune` consumed exactly the encoding of the rune it returns. -/
theorem DecodeRune_sound (p0 : Nat) (t : List Nat)
    (h : DecodeRune (p0 :: t) ≠ (RuneError, 1)) :
    encodeRune (DecodeRune (p0 :: t)).1 = (p0 :: t).take (DecodeRune (p0 :: t)).2
      ∧ 1 ≤ (DecodeRune (p0 :: t)).2 ∧ (DecodeRune (p0 :: t)).2 ≤ (p0 :: t).length := by
  cases DecodeRune_cases p0 t with
  | err h' => exact absurd h' h
  | one h0 h' =>
    rw [h', encodeRune_natCast _ (by omega)]
    simp [encodeNat, show p0 ≤ 127 by omega]
  | two b1 t1 ht h0 h1 h2 h3 =>
    subst ht; rw [DecodeRune_two _ _ _ h0 h1 h2 h3, encodeRune_natCast _ (by omega)]
    simp only [encodeNat, List.length_cons]
    refine ⟨?_, by omega, by omega⟩
    rw [if_neg (by omega), if_pos (by omega)]
    simp only [List.take_succ_cons, List.take_zero]
    congr 1; omega; congr 1; omega
  | three b1 b2 t2 ht h0 h1 h2 h3 h4 h5 =>
    subst ht
    have hb1 : 0x80 ≤ b1 ∧ b1 ≤ 0xBF := by split_ifs at h2 h3 <;> omega
    rw [DecodeRune_three _ _ _ _ h0 h1 h2 h3 h4 h5,
      encodeRune_natCast _ (by split_ifs at h2 h3 <;> omega)]
    simp only [encodeNat, List.length_cons]
    refine ⟨?_, by omega, by omega⟩
    rw [if_neg (by split_ifs at h2 h3 <;> omega), if_neg (by split_ifs at h2 h3 <;> omega),
      if_pos (by omega)]
    simp only [List.take_succ_cons, List.take_zero]
    congr 1; omega; congr 1; omega; congr 1; omega
  | four b1 b2 b3 t3 ht h0 h1 h2 h3 h4 h5 h6 h7 =>
    subst ht
    have hb1 : 0x80 ≤ b1 ∧ b1 ≤ 0xBF := by split_ifs at h2 h3 <;> omega
    rw [DecodeRune_four _ _ _ _ _ h0 h1 h2 h3 h4 h5 h6 h7,
      encodeRune_natCast _ (by split_ifs at h2 h3 <;> omega)]
    simp only [encodeNat, List.length_cons]
    refine ⟨?_, by omega, by omega⟩
    rw [if_neg (by split_ifs at h2 h3 <;> omega), if_neg (by split_ifs at h2 h3 <;> omega),
      if_neg (by split_ifs at h2 h3 <;> omega)]
    simp only [List.take_succ_cons, List.take_zero]
    congr 1; omega; congr 1; omega; congr 1; omega; congr 1; omega

theorem decodeFrom_skip (p : List Nat) : ∀ k, decodeFrom k p = decodeFrom 0 (p.drop k) := by
  induction p with
  | nil => intro k; simp [decodeFrom]
  | cons b rest ih =>
    intro k
    cases k with
    | zero => simp
    | succ k => simp only [decodeFrom, List.drop_succ_cons]; exact ih k

theorem encodeRunes_append (a b : List Int) :
    encodeRunes (a ++ b) = encodeRunes a ++ encodeRunes b := by
  induction a with
  | nil => rfl
  | cons r rs ih =>
    show encodeRune r ++ encodeRunes (rs ++ b) = (encodeRune r ++ encodeRunes rs) ++ encodeRunes b
    rw [ih, List.append_assoc]

theorem sanitize_of_valid (r : Int) (h : ValidRune r = true) : sanitize r = r := by
  simp only [sanitize, h, if_true]

theorem map_sanitize_of_valid (rs : List Int) (h : ∀ r ∈ rs, ValidRune r = true) :
    rs.map sanitize = rs := by
  induction rs with
  | nil => rfl
  | cons r rs ih =>
    simp only [List.map_cons, sanitize_of_valid r (h r (List.mem_cons_self _ _)),
      ih (fun x hx => h x (List.mem_cons_of_mem _ hx))]

theorem decodeFrom_encodeRune_append (r : Int) (rest : List Nat) :
    decodeFrom 0 (encodeRune r ++ rest)
      = (sanitize r, (encodeRune r).length) :: decodeFrom 0 rest := by
  have hpos := encodeRune_length_pos r
  have hD := DecodeRune_encodeRune r rest
  match he : encodeRune r with
  | [] => rw [he] at hpos; simp at hpos
  | b :: tl =>
    rw [he] at hD
    rw [List.cons_append] at hD ⊢
    rw [decodeFrom, hD, decodeFrom_skip]
    simp only [List.length_cons, Nat.add_sub_cancel]
    rw [List.drop_left]

theorem decodeRunes_encodeRunes_append (rs : List Int) (rest : List Nat) :
    decodeRunes (encodeRunes rs ++ rest) = rs.map sanitize ++ decodeRunes rest := by
  induction rs with
  | nil => rfl
  | cons r rs ih =>
    unfold decodeRunes at ih ⊢
    simp only [encodeRunes, List.append_assoc, decodeFrom_encodeRune_append, List.map_cons, ih,
      List.cons_append]

theorem decodeRunes_encodeRunes (rs : List Int) :
    decodeRunes (encodeRunes rs) = rs.map sanitize := by
  have h := decodeRunes_encodeRunes_append rs []
  simpa [decodeRunes, decodeFrom] using h

theorem sanitize_not_error (r : Int) :
    ¬ (sanitize r = RuneError ∧ (encodeRune r).length = 1) := by
  intro ⟨h1, h2⟩
  unfold sanitize at h1
  unfold encodeRune at h2
  by_cases hv : ValidRune r = true
  · rw [if_pos hv] at h1 h2
    subst h1
    revert h2; decide
  · rw [if_neg hv] at h2; simp at h2

theorem utf8Valid_encodeRunes_append (rs : List Int) (rest : List Nat) :
    utf8Valid (encodeRunes rs ++ rest) = utf8Valid rest := by
  induction rs with
  | nil => rfl
  | cons r rs ih =>
    unfold utf8Valid at ih ⊢
    simp only [encodeRunes, List.append_assoc, decodeFrom_encodeRune_append, List.all_cons, ih]
    have hne := sanitize_not_error r
    have : (!(sanitize r == RuneError && (encodeRune r).length == 1)) = true := by
      simp only [Bool.not_eq_true', Bool.and_eq_false_imp, beq_iff_eq, beq_eq_false_iff_ne]
      intro h1 h2
      exact hne ⟨h1, h2⟩
    rw [this, Bool.true_and]

theorem utf8Valid_encodeRunes (rs : List Int) : utf8Valid (encodeRunes rs) = true := by
  have h := utf8Valid_encodeRunes_append rs []
  simpa [utf8Valid, decodeFrom] using h

theorem DecodeRune_size_pos (p0 : Nat) (t : List Nat) : 1 ≤ (DecodeRune (p0 :: t)).2 := by
  by_cases h : DecodeRune (p0 :: t) = (RuneError, 1)
  · rw [h]
  · exact (DecodeRune_sound p0 t h).2.1

theorem decodeFrom_cons (p0 : Nat) (t : List Nat) :
    decodeFrom 0 (p0 :: t)
      = DecodeRune (p0 :: t) :: decodeFrom 0 ((p0 :: t).drop (DecodeRune (p0 :: t)).2) := by
  have h := DecodeRune_size_pos p0 t
  rw [decodeFrom, decodeFrom_skip]
  congr 2
  obtain ⟨k, hk⟩ : ∃ k, (DecodeRune (p0 :: t)).2 = k + 1 := ⟨_, (Nat.sub_add_cancel h).symm⟩
  rw [hk]; simp

/-- Every rune of `[]rune(s)` is a scalar value. -/
theorem decodeRunes_valid_aux (n : Nat) :
    ∀ p : List Nat, p.length ≤ n → ∀ r ∈ decodeRunes p, ValidRune r = true := by
  induction n with
  | zero =>
    intro p hp r hr
    have : p = [] := List.length_eq_zero.mp (by omega)
    subst this; simp [decodeRunes, decodeFrom] at hr
  | succ n ih =>
    intro p hn
    match p with
    | [] => intro r hr; simp [decodeRunes, decodeFrom] at hr
    | p0 :: t =>
      intro r hr
      unfold decodeRunes at hr
      rw [decodeFrom_cons, List.map_cons, List.mem_cons] at hr
      rcases hr with hr | hr
      · rw [hr]; exact DecodeRune_valid _
      · have hpos := DecodeRune_size_pos p0 t
        exact ih _ (by simp only [List.length_drop, List.length_cons] at hn ⊢; omega) r hr

theorem decodeRunes_valid (p : List Nat) : ∀ r ∈ decodeRunes p, ValidRune r = true :=
  decodeRunes_valid_aux p.length p (le_refl _)

theorem encodeRunes_decodeRunes_aux (n : Nat) :
    ∀ p : List Nat, p.length ≤ n → utf8Valid p = true → encodeRunes (decodeRunes p) = p := by
  induction n with
  | zero =>
    intro p hp _
    have : p = [] := List.length_eq_zero.mp (by omega)
    subst this; rfl
  | succ n ih =>
    intro p hn hv
    match p with
    | [] => rfl
    | p0 :: t =>
      unfold utf8Valid at hv
      rw [decodeFrom_cons, List.all_cons, Bool.and_eq_true] at hv
      have hne : DecodeRune (p0 :: t) ≠ (RuneError, 1) := by
        intro h; rw [h] at hv; simp at hv
      obtain ⟨h1, h2, h3⟩ := DecodeRune_sound p0 t hne
      unfold decodeRunes
      rw [decodeFrom_cons, List.map_cons, encodeRunes, h1]
      have := ih ((p0 :: t).drop (DecodeRune (p0 :: t)).2)
        (by simp only [List.length_drop, List.length_cons] at hn ⊢; omega) hv.2
      unfold decodeRunes at this
      rw [this, List.take_append_drop]

/-- On valid UTF-8, `string([]rune(s))` is `s`. -/
theorem encodeRunes_decodeRunes (p : List Nat) (hv : utf8Valid p = true) :
    encodeRunes (decodeRunes p) = p :=
  encodeRunes_decodeRunes_aux p.length p (le_refl _) hv

theorem RuneLen_eq (r : Int) (h : ValidRune r = true) : RuneLen r = (encodeRune r).length := by
  have h' := (ValidRune_iff r).mp h
  unfold RuneLen encodeRune encodeNat MaxRune
  rw [if_pos h]
  split_ifs <;> first | omega | rfl

theorem sum_RuneLen (rs : List Int) (h : ∀ r ∈ rs, ValidRune r = true) :
    (rs.map RuneLen).sum = ((encodeRunes rs).length : Int) := by
  induction rs with
  | nil => rfl
  | cons r rs ih =>
    simp only [List.map_cons, List.sum_cons, encodeRunes, List.length_append, Nat.cast_add,
      RuneLen_eq r (h r (List.mem_cons_self _ _)), ih (fun x hx => h x (List.mem_cons_of_mem _ hx))]

theorem encodeRune_shape (r : Int) : EncShape r := by
  by_cases hv : ValidRune r = true
  · have h' := (ValidRune_iff r).mp hv
    have he : encodeRune r = encodeNat r.toNat := by simp only [encodeRune, hv, if_true]
    unfold encodeNat at he
    split_ifs at he with g1 g2 g3
    · exact .one _ he (by omega)
    · exact .two _ _ he (by omega) (by omega) (by omega) (by omega)
    · exact .three _ _ _ he (by omega) (by omega) (by omega) (by omega) (by omega) (by omega)
    · exact .four _ _ _ _ he (by omega) (by omega) (by omega) (by omega) (by omega) (by omega)
        (by omega) (by omega)
  · have he : encodeRune r = [0xEF, 0xBF, 0xBD] := by simp only [encodeRune, hv]; rfl
    exact .three _ _ _ he (by omega) (by omega) (by omega) (by omega) (by omega) (by omega)

theorem RuneStart_of_ge (b : Nat) (h0 : 0xC0 ≤ b) (h1 : b < 0x100) : RuneStart b = true := by
  have : b / 64 % 4 = 3 := by omega
  simp [RuneStart, this]

theorem RuneStart_of_cont (b : Nat) (h0 : 0x80 ≤ b) (h1 : b < 0xC0) : RuneStart b = false := by
  have : b / 64 % 4 = 2 := by omega
  simp [RuneStart, this]

theorem DecodeLastRune_append_encodeRune (pre : List Nat) (r : Int) :
    DecodeLastRune (pre ++ encodeRune r) = (sanitize r, (encodeRune r).length) := by
  have hD := DecodeRune_encodeRune r []
  rw [List.append_nil] at hD
  cases encodeRune_shape r with
  | one b0 he h0 =>
    rw [he] at hD ⊢
    rw [DecodeRune_one _ _ h0] at hD
    simp only [DecodeLastRune, List.reverse_append, List.reverse_cons, List.reverse_nil,
      List.nil_append, List.singleton_append, if_pos h0]
    exact hD
  | two b0 b1 he h0 h0' h1 h1' =>
    rw [he] at hD ⊢
    have e1 : ¬ b1 < 0x80 := by omega
    simp only [DecodeLastRune, List.reverse_append, List.reverse_cons, List.reverse_nil,
      List.nil_append, List.singleton_append, List.cons_append, if_neg e1, lastRuneBack,
      RuneStart_of_ge b0 h0 h0', if_true, List.length_append, List.length_cons, List.length_nil,
      Nat.add_sub_cancel, List.drop_left, hD]
    simp [hD]
  | three b0 b1 b2 he h0 h0' h1 h1' h2 h2' =>
    rw [he] at hD ⊢
    have e1 : ¬ b2 < 0x80 := by omega
    simp only [DecodeLastRune, List.reverse_append, List.reverse_cons, List.reverse_nil,
      List.nil_append, List.singleton_append, List.cons_append, if_neg e1, lastRuneBack,
      RuneStart_of_ge b0 h0 h0', RuneStart_of_cont b1 h1 h1', if_true, List.length_append,
      List.length_cons, List.length_nil,
      Nat.add_sub_cancel, List.drop_left, hD]
    simp [hD]
  | four b0 b1 b2 b3 he h0 h0' h1 h1' h2 h2' h3 h3' =>
    rw [he] at hD ⊢
    have e1 : ¬ b3 < 0x80 := by omega
    simp only [DecodeLastRune, List.reverse_append, List.reverse_cons, List.reverse_nil,
      List.nil_append, List.singleton_append, List.cons_append, if_neg e1, lastRuneBack,
      RuneStart_of_ge b0 h0 h0', RuneStart_of_cont b1 h1 h1', RuneStart_of_cont b2 h2 h2',
      if_true, List.length_append,
      List.length_cons, List.length_nil,
      Nat.add_sub_cancel, List.drop_left, hD]
    simp [hD]

theorem zero_mem_encodeRune (r : Int) : 0 ∈ encodeRune r ↔ r = 0 := by
  constructor
  · intro h
    by_cases hv : ValidRune r = true
    · have h' := (ValidRune_iff r).mp hv
      simp only [encodeRune, hv, if_true, encodeNat] at h
      split_ifs at h <;> simp at h <;> omega
    · simp only [encodeRune, hv] at h; simp at h
  · intro h; subst h; decide

theorem zero_mem_encodeRunes (rs : List Int) : 0 ∈ encodeRunes rs ↔ (0 : Int) ∈ rs := by
  induction rs with
  | nil => simp [encodeRunes]
  | cons r rs ih =>
    simp only [encodeRunes, List.mem_append, zero_mem_encodeRune, ih, List.mem_cons]
    constructor
    · rintro (h | h)
      · exact Or.inl h.symm
      · exact Or.inr h
    · rintro (h | h)
      · exact Or.inl h.symm
      · exact Or.inr h

theorem hasPost_of_openNow (e : Env) (c : Client) (h : openNow e c) :
    hasPost e c = (c, true, none) := by
  unfold hasPost
  rw [if_neg h.1, if_neg h.2]

theorem take_encodeRunes (a b : List Int) :
    (encodeRunes (a ++ b)).take (encodeRunes a).length = encodeRunes a := by
  rw [encodeRunes_append, List.take_left]

/-- What `spliceBody` computes on a post whose body is the encoding of the scalar
values `old` and whose `len` is their number, for coordinates inside the body. -/
theorem spliceBody_eq (e : Env) (c : Client) (req : spliceRequest) (old : List Int)
    (hold : ∀ r ∈ old, ValidRune r = true) (hbody : c.post.body = encodeRunes old)
    (hlen : c.post.len = old.length) (hrange : req.Start + req.Len ≤ old.length)
    (hstart : req.Start ≤ MaxLenBody) :
    spliceBody e c req =
      some (if countLines (encodeRunes (old.take req.Start ++ spliceEnd old req)) > MaxLinesBody
        then (spliced c old req, some Err.errTooManyLines)
        else updateBody e (spliced c old req) (spliceMsg c.post.id old req)
          (((spliceMsgText old req).length : Int) + 1)) := by
  have hdec : decodeRunes (encodeRunes old) = old := by
    rw [decodeRunes_encodeRunes, map_sanitize_of_valid old hold]
  have hsum : ((old.take req.Start).map RuneLen).sum
      = ((encodeRunes (old.take req.Start)).length : Int) :=
    sum_RuneLen _ (fun r hr => hold r (List.mem_of_mem_take hr))
  have hsplit : encodeRunes old
      = encodeRunes (old.take req.Start) ++ encodeRunes (old.drop req.Start) := by
    rw [← encodeRunes_append, List.take_append_drop]
  have hle : (encodeRunes (old.take req.Start)).length ≤ (encodeRunes old).length := by
    rw [hsplit, List.length_append]; omega
  have htake : (encodeRunes old).take (encodeRunes (old.take req.Start)).length
      = encodeRunes (old.take req.Start) := by
    rw [hsplit, List.take_left]
  unfold spliceBody
  simp only [hbody, hdec, hsum, hlen]
  rw [if_neg (by omega)]
  have hend : (req.Text ++ old.drop (req.Start + req.Len)).length
      = req.Text.length + (old.length - (req.Start + req.Len)) := by
    rw [List.length_append, List.length_drop]
  have hM : MaxLenBody = 2000 := rfl
  rw [if_neg (by rw [hend]; omega), if_neg (by omega)]
  simp only [Int.toNat_ofNat, htake]
  by_cases hover : (old.length : Int) - req.Len + req.Text.length > MaxLenBody
  · have h1 : (old.length : Int) + (-(req.Len : Int) + (req.Text.length : Int)) - MaxLenBody > 0 := by
      omega
    have h2 : (((req.Text ++ old.drop (req.Start + req.Len)).length : Int)
        - ((old.length : Int) + (-(req.Len : Int) + (req.Text.length : Int)) - MaxLenBody)).toNat
        = MaxLenBody - req.Start := by
      rw [hend]; omega
    simp only [if_pos h1, h2, spliceEnd, spliceMsg, spliceMsgText, spliced, if_pos hover,
      encodeRunes_append, List.length_drop]
    rw [min_eq_right (by omega)]
    split_ifs <;> rfl
  · have h1 : ¬ (old.length : Int) + (-(req.Len : Int) + (req.Text.length : Int)) - MaxLenBody > 0 := by
      omega
    simp only [if_neg h1, spliceEnd, spliceMsg, spliceMsgText, spliced, if_neg hover,
      encodeRunes_append]
    rw [min_eq_left (by omega)]
    have : (old.length : Int) + (-(req.Len : Int) + (req.Text.length : Int))
        = (old.length : Int) - req.Len + req.Text.length := by omega
    rw [this]
    split_ifs <;> rfl

/-- On an open post `spliceText` is its validation followed by `spliceBody`. -/
theorem spliceText_of_openNow (e : Env) (c : Client) (tmp : spliceRequestString)
    (hopen : openNow e c) (hprint : e.IsPrintableRunes (decodeRunes tmp.Text) = none) :
    spliceText e c (some tmp) =
      if tmp.Start > MaxLenBody ∨ tmp.Len > MaxLenBody
          ∨ ((tmp.Start + tmp.Len : Nat) : Int) > c.post.len then
        some (c, some (Err.errInvalidSpliceCoords c.post.body tmp.Start tmp.Len
          (encodeRunes (decodeRunes tmp.Text))))
      else if tmp.Len = 0 ∧ (decodeRunes tmp.Text).length = 0 then some (c, some Err.errSpliceNOOP)
      else if (decodeRunes tmp.Text).length > MaxLenBody then some (c, some Err.errSpliceTooLong)
      else if (0 : Int) ∈ decodeRunes tmp.Text then some (c, some Err.ErrContainsNull)
      else spliceBody e c (reqOf tmp) := by
  unfold spliceText
  rw [hasPost_of_openNow e c hopen]
  simp only [Option.isSome_none, Bool.false_eq_true, if_false, Bool.not_true,
    spliceRequest.UnmarshalJSON, hprint, reqOf]

/-- The body of an open post in terms of its runes. -/
theorem body_eq_encodeRunes (p : List Nat) (hv : utf8Valid p = true) :
    p = encodeRunes (decodeRunes p) := (encodeRunes_decodeRunes p hv).symm

theorem decodeRunes_encodeRunes_of_valid (rs : List Int) (h : ∀ r ∈ rs, ValidRune r = true) :
    decodeRunes (encodeRunes rs) = rs := by
  rw [decodeRunes_encodeRunes, map_sanitize_of_valid rs h]

theorem spliceEnd_valid (old : List Int) (req : spliceRequest)
    (hold : ∀ r ∈ old, ValidRune r = true) (htext : ∀ r ∈ req.Text, ValidRune r = true) :
    ∀ r ∈ old.take req.Start ++ spliceEnd old req, ValidRune r = true := by
  intro r hr
  rw [List.mem_append] at hr
  rcases hr with hr | hr
  · exact hold r (List.mem_of_mem_take hr)
  · unfold spliceEnd at hr
    have key : ∀ r ∈ req.Text ++ old.drop (req.Start + req.Len), ValidRune r = true := by
      intro x hx
      rw [List.mem_append] at hx
      rcases hx with hx | hx
      · exact htext x hx
      · exact hold x (List.mem_of_mem_drop hx)
    split_ifs at hr
    · exact key r (List.mem_of_mem_take hr)
    · exact key r hr

theorem spliceEnd_not_over (old : List Int) (req : spliceRequest)
    (h : ¬ (old.length : Int) - req.Len + req.Text.length > MaxLenBody) :
    old.take req.Start ++ spliceEnd old req = spliceRunes old req.Start req.Len req.Text := by
  simp only [spliceEnd, if_neg h, spliceRunes, List.append_assoc]

theorem spliceEnd_over (old : List Int) (req : spliceRequest)
    (hrange : req.Start + req.Len ≤ old.length) (hstart : req.Start ≤ MaxLenBody)
    (h : (old.length : Int) - req.Len + req.Text.length > MaxLenBody) :
    old.take req.Start ++ spliceEnd old req
      = (spliceRunes old req.Start req.Len req.Text).take MaxLenBody := by
  have hM : MaxLenBody = 2000 := rfl
  have key : ∀ X : List Int, (old.take req.Start ++ X).take MaxLenBody
      = old.take req.Start ++ X.take (MaxLenBody - req.Start) := by
    intro X
    rw [List.take_append_eq_append_take, List.length_take, min_eq_left (by omega),
      List.take_of_length_le (by rw [List.length_take]; omega)]
  simp only [spliceEnd, if_pos h, spliceRunes, List.append_assoc]
  rw [key]

theorem spliceRunes_length (old : List Int) (start len : Nat) (text : List Int)
    (hrange : start + len ≤ old.length) :
    ((spliceRunes old start len text).length : Int) = (old.length : Int) - len + text.length := by
  simp only [spliceRunes, List.length_append, List.length_take, List.length_drop]
  omega

theorem updateBody_post (e : Env) (c : Client) (msg : Msg) (n : Int) :
    (updateBody e c msg n).1.post = c.post := by
  unfold updateBody
  cases e.SetOpenBody c.post.id c.post.body <;> rfl

theorem updateBody_err (e : Env) (c : Client) (msg : Msg) (n : Int) :
    (updateBody e c msg n).2 = e.SetOpenBody c.post.id c.post.body := by
  unfold updateBody
  cases e.SetOpenBody c.post.id c.post.body <;> rfl

theorem updateBody_ok (e : Env) (c : Client) (msg : Msg) (n : Int)
    (h : e.SetOpenBody c.post.id c.post.body = none) :
    updateBody e c msg n =
      ({ c with trace := c.trace ++
          [Effect.feedSetOpenBody c.post.id c.post.body msg,
           Effect.IncrementSpamScore c.ip (toUint n * e.CharScore % 2 ^ 64),
           Effect.dbSetOpenBody c.post.id c.post.body] }, none) := by
  unfold updateBody
  rw [h]
  simp

/-- The accepted case of `spliceText` on an open post that satisfies its
invariant: the validation passes and the body is rebuilt. -/
theorem spliceText_accept (e : Env) (c : Client) (tmp : spliceRequestString)
    (hopen : openNow e c) (hprint : e.IsPrintableRunes (decodeRunes tmp.Text) = none)
    (hvalid : utf8Valid c.post.body = true)
    (hlen : c.post.len = (decodeRunes c.post.body).length)
    (hS : tmp.Start ≤ MaxLenBody) (hL : tmp.Len ≤ MaxLenBody)
    (hrange : tmp.Start + tmp.Len ≤ (decodeRunes c.post.body).length)
    (hnoop : ¬ (tmp.Len = 0 ∧ (decodeRunes tmp.Text).length = 0))
    (hlong : ¬ (decodeRunes tmp.Text).length > MaxLenBody)
    (hnul : (0 : Int) ∉ decodeRunes tmp.Text) :
    spliceText e c (some tmp) =
      some (if countLines (encodeRunes ((decodeRunes c.post.body).take tmp.Start
            ++ spliceEnd (decodeRunes c.post.body) (reqOf tmp))) > MaxLinesBody
        then (spliced c (decodeRunes c.post.body) (reqOf tmp), some Err.errTooManyLines)
        else updateBody e (spliced c (decodeRunes c.post.body) (reqOf tmp))
          (spliceMsg c.post.id (decodeRunes c.post.body) (reqOf tmp))
          (((spliceMsgText (decodeRunes c.post.body) (reqOf tmp)).length : Int) + 1)) := by
  rw [spliceText_of_openNow e c tmp hopen hprint]
  rw [if_neg (by rw [hlen]; omega), if_neg hnoop, if_neg hlong, if_neg hnul]
  exact spliceBody_eq e c (reqOf tmp) (decodeRunes c.post.body) (decodeRunes_valid _)
    (body_eq_encodeRunes _ hvalid) hlen hrange hS

/-- A splice that returns no error has passed every check of the validation. -/
theorem spliceText_success_guards (e : Env) (c c' : Client) (tmp : spliceRequestString)
    (hopen : openNow e c) (hsucc : spliceText e c (some tmp) = some (c', none)) :
    e.IsPrintableRunes (decodeRunes tmp.Text) = none
      ∧ tmp.Start ≤ MaxLenBody ∧ tmp.Len ≤ MaxLenBody
      ∧ ((tmp.Start + tmp.Len : Nat) : Int) ≤ c.post.len
      ∧ ¬ (tmp.Len = 0 ∧ (decodeRunes tmp.Text).length = 0)
      ∧ ¬ (decodeRunes tmp.Text).length > MaxLenBody
      ∧ (0 : Int) ∉ decodeRunes tmp.Text := by
  have hp : e.IsPrintableRunes (decodeRunes tmp.Text) = none := by
    cases hq : e.IsPrintableRunes (decodeRunes tmp.Text) with
    | none => rfl
    | some err =>
      unfold spliceText at hsucc
      rw [hasPost_of_openNow e c hopen] at hsucc
      simp [spliceRequest.UnmarshalJSON, hq] at hsucc
  rw [spliceText_of_openNow e c tmp hopen hp] at hsucc
  refine ⟨hp, ?_⟩
  split_ifs at hsucc with h1 h2 h3 h4
  · simp at hsucc
  · simp at hsucc
  · simp at hsucc
  · simp at hsucc
  · exact ⟨by omega, by omega, by omega, h2, h3, h4⟩

/-- A splice on an open post that satisfies its invariant and returns no error:
the resulting client. -/
theorem spliceText_success (e : Env) (c c' : Client) (tmp : spliceRequestString)
    (hopen : openNow e c) (hvalid : utf8Valid c.post.body = true)
    (hlen : c.post.len = (decodeRunes c.post.body).length)
    (hsucc : spliceText e c (some tmp) = some (c', none)) :
    c' = { spliced c (decodeRunes c.post.body) (reqOf tmp) with
        trace := c.trace ++
          [Effect.feedSetOpenBody c.post.id
             (encodeRunes ((decodeRunes c.post.body).take tmp.Start
               ++ spliceEnd (decodeRunes c.post.body) (reqOf tmp)))
             (spliceMsg c.post.id (decodeRunes c.post.body) (reqOf tmp)),
           Effect.IncrementSpamScore c.ip
             (toUint (((spliceMsgText (decodeRunes c.post.body) (reqOf tmp)).length : Int) + 1)
               * e.CharScore % 2 ^ 64),
           Effect.dbSetOpenBody c.post.id
             (encodeRunes ((decodeRunes c.post.body).take tmp.Start
               ++ spliceEnd (decodeRunes c.post.body) (reqOf tmp)))] } := by
  obtain ⟨hp, hS, hL, hr, hnoop, hlong, hnul⟩ := spliceText_success_guards e c c' tmp hopen hsucc
  rw [spliceText_accept e c tmp hopen hp hvalid hlen hS hL (by rw [hlen] at hr; omega) hnoop
    hlong hnul] at hsucc
  split_ifs at hsucc with hl
  · simp at hsucc
  · rw [Option.some.injEq] at hsucc
    have herr := updateBody_err e (spliced c (decodeRunes c.post.body) (reqOf tmp))
      (spliceMsg c.post.id (decodeRunes c.post.body) (reqOf tmp))
      (((spliceMsgText (decodeRunes c.post.body) (reqOf tmp)).length : Int) + 1)
    rw [hsucc] at herr
    rw [updateBody_ok _ _ _ _ herr.symm] at hsucc
    exact (Prod.mk.inj hsucc).1.symm

/-- C1: on an open, non-expired post whose body is valid UTF-8 and whose `len` is
its rune count (at most `MaxLenBody`), a splice request with printable, NUL-free
text, `start + len` inside the body, not empty, and a result of at most
`MaxLenBody` runes and `MaxLinesBody` lines succeeds when the store accepts the
write; the new body is the encoding of the rune sequence
`old[0..start) ++ text ++ old[start+len..)`, and `len` is `old len - len + |text|`. -/
theorem C1_spliceText_replaces_rune_range (e : Env) (c : Client) (tmp : spliceRequestString)
    (hopen : openNow e c) (hvalid : utf8Valid c.post.body = true)
    (hlen : c.post.len = (decodeRunes c.post.body).length)
    (hmax : c.post.len ≤ MaxLenBody)
    (hprint : e.IsPrintableRunes (decodeRunes tmp.Text) = none)
    (hnul : (0 : Int) ∉ decodeRunes tmp.Text)
    (hrange : ((tmp.Start + tmp.Len : Nat) : Int) ≤ c.post.len)
    (hnoop : ¬ (tmp.Len = 0 ∧ decodeRunes tmp.Text = []))
    (hres : c.post.len - tmp.Len + (decodeRunes tmp.Text).length ≤ MaxLenBody)
    (hlines : countLines (encodeRunes (spliceRunes (decodeRunes c.post.body) tmp.Start tmp.Len
      (decodeRunes tmp.Text))) ≤ MaxLinesBody)
    (hstore : e.SetOpenBody c.post.id (encodeRunes (spliceRunes (decodeRunes c.post.body)
      tmp.Start tmp.Len (decodeRunes tmp.Text))) = none) :
    ∃ c', spliceText e c (some tmp) = some (c', none)
      ∧ c'.post.body = encodeRunes (spliceRunes (decodeRunes c.post.body) tmp.Start tmp.Len
          (decodeRunes tmp.Text))
      ∧ decodeRunes c'.post.body
          = spliceRunes (decodeRunes c.post.body) tmp.Start tmp.Len (decodeRunes tmp.Text)
      ∧ c'.post.len = c.post.len - tmp.Len + (decodeRunes tmp.Text).length := by
  have hM : MaxLenBody = 2000 := rfl
  have hnot : ¬ ((decodeRunes c.post.body).length : Int) - (reqOf tmp).Len
      + (reqOf tmp).Text.length > MaxLenBody := by
    simp only [reqOf]; omega
  have hnoop' : ¬ (tmp.Len = 0 ∧ (decodeRunes tmp.Text).length = 0) := by
    rw [List.length_eq_zero]; exact hnoop
  have hend := spliceEnd_not_over (decodeRunes c.post.body) (reqOf tmp) hnot
  simp only [reqOf] at hend
  have hv : ∀ r ∈ spliceRunes (decodeRunes c.post.body) tmp.Start tmp.Len (decodeRunes tmp.Text),
      ValidRune r = true := by
    rw [← hend]
    exact spliceEnd_valid _ (reqOf tmp) (decodeRunes_valid _) (decodeRunes_valid _)
  have hacc := spliceText_accept e c tmp hopen hprint hvalid hlen (by omega) (by omega)
    (by omega) hnoop' (by omega) hnul
  simp only [reqOf] at hacc
  rw [hend, if_neg (by omega)] at hacc
  have hst : e.SetOpenBody (spliced c (decodeRunes c.post.body) (reqOf tmp)).post.id
      (spliced c (decodeRunes c.post.body) (reqOf tmp)).post.body = none := by
    simp only [spliced, reqOf, hend]; exact hstore
  simp only [reqOf] at hst
  rw [updateBody_ok _ _ _ _ hst] at hacc
  refine ⟨_, hacc, ?_, ?_, ?_⟩
  · simp only [spliced, hend]
  · simp only [spliced, hend]
    exact decodeRunes_encodeRunes_of_valid _ hv
  · simp only [spliced]
    rw [min_eq_left (by omega)]; omega

/-- C1, witness: removing rune 2 of `αΒΓΔ` gives `αΒΔ`. -/
theorem C1_spliceText_replaces_rune_range_witness :
    ∃ c', spliceText (quietEnv 1000) (clientWith greekBody 4 0 1000) (some ⟨2, 1, []⟩)
        = some (c', none)
      ∧ c'.post.body = [0xCE, 0xB1, 0xCE, 0x92, 0xCE, 0x94]
      ∧ decodeRunes c'.post.body = [0x3B1, 0x392, 0x394]
      ∧ c'.post.len = 3 :=
  C1_spliceText_replaces_rune_range (quietEnv 1000) (clientWith greekBody 4 0 1000) ⟨2, 1, []⟩
    (by decide) (by decide) (by decide) (by decide) (by decide) (by decide) (by decide)
    (by decide) (by decide) (by decide) (by decide)

set_option maxRecDepth 100000 in
theorem fullClient_splice :
    spliceText (quietEnv 1000) (clientWith fullBody 2000 0 1000) (some ⟨1943, 0, neverGonna⟩)
      = some (fullClientAfter, none) := by decide!

/-- C2: on an open post whose body is valid UTF-8 and whose `len` is its rune
count, a splice for which `old len - len + |text|` exceeds `MaxLenBody` and that
returns no error leaves the body equal to the first `MaxLenBody` runes of
`old[0..start) ++ text ++ old[start+len..)` and sets `len` to `MaxLenBody`. -/
theorem C2_splice_overflow_truncates (e : Env) (c c' : Client) (tmp : spliceRequestString)
    (hopen : openNow e c) (hvalid : utf8Valid c.post.body = true)
    (hlen : c.post.len = (decodeRunes c.post.body).length)
    (hover : c.post.len - tmp.Len + (decodeRunes tmp.Text).length > MaxLenBody)
    (hsucc : spliceText e c (some tmp) = some (c', none)) :
    decodeRunes c'.post.body
        = (spliceRunes (decodeRunes c.post.body) tmp.Start tmp.Len
            (decodeRunes tmp.Text)).take MaxLenBody
      ∧ c'.post.body = encodeRunes ((spliceRunes (decodeRunes c.post.body) tmp.Start tmp.Len
            (decodeRunes tmp.Text)).take MaxLenBody)
      ∧ c'.post.len = MaxLenBody := by
  obtain ⟨_, hS, _, hr, _, _, _⟩ := spliceText_success_guards e c c' tmp hopen hsucc
  have hc := spliceText_success e c c' tmp hopen hvalid hlen hsucc
  have hover' : ((decodeRunes c.post.body).length : Int) - (reqOf tmp).Len
      + (reqOf tmp).Text.length > MaxLenBody := by
    simp only [reqOf]; omega
  have hend := spliceEnd_over (decodeRunes c.post.body) (reqOf tmp)
    (by simp only [reqOf]; omega) hS hover'
  have hv := spliceEnd_valid (decodeRunes c.post.body) (reqOf tmp) (decodeRunes_valid _)
    (decodeRunes_valid _)
  simp only [reqOf] at hend hv hover'
  subst hc
  simp only [spliced, reqOf, hend] at hv ⊢
  refine ⟨decodeRunes_encodeRunes_of_valid _ hv, trivial, ?_⟩
  rw [min_eq_right (by omega)]

/-- C2, witness: start 1943, len 0 and the long text on a body of 2000 runes give
`original[0..1943] ++ text[0..57]` and `len` 2000. -/
theorem C2_splice_overflow_truncates_witness :
    decodeRunes fullClientAfter.post.body
        = (spliceRunes (decodeRunes fullBody) 1943 0 (decodeRunes neverGonna)).take MaxLenBody
      ∧ fullClientAfter.post.body = encodeRunes ((spliceRunes (decodeRunes fullBody) 1943 0
            (decodeRunes neverGonna)).take MaxLenBody)
      ∧ fullClientAfter.post.len = MaxLenBody :=
  C2_splice_overflow_truncates (quietEnv 1000) (clientWith fullBody 2000 0 1000) fullClientAfter
    ⟨1943, 0, neverGonna⟩ (by decide) (by decide!) (by decide!) (by decide!)
    fullClient_splice

theorem decodeRunes_eq_nil_iff (p : List Nat) : decodeRunes p = [] ↔ p = [] := by
  constructor
  · intro h
    match p with
    | [] => rfl
    | b :: rest => simp [decodeRunes, decodeFrom] at h
  · intro h; subst h; rfl

/-- C3: the splice message handed to the feed describes the effective change.
After a splice that returns no error on an open post (body valid UTF-8, `len` its
rune count), replacing the runes `[start, start+len)` of the old body with the
text of the message gives the new body. Without truncation the message carries
the start, len and text of the request; with truncation it carries the start of
the request, a `len` that reaches the end of the old body, and the retained
runes. -/
theorem C3_broadcast_describes_effective_change (e : Env) (c c' : Client)
    (tmp : spliceRequestString)
    (hopen : openNow e c) (hvalid : utf8Valid c.post.body = true)
    (hlen : c.post.len = (decodeRunes c.post.body).length)
    (hsucc : spliceText e c (some tmp) = some (c', none)) :
    ∃ start len text score,
      c'.trace = c.trace ++
        [Effect.feedSetOpenBody c.post.id c'.post.body
           (Msg.MessageSplice c.post.id start len text),
         Effect.IncrementSpamScore c.ip score,
         Effect.dbSetOpenBody c.post.id c'.post.body]
      ∧ decodeRunes c'.post.body
          = spliceRunes (decodeRunes c.post.body) start len (decodeRunes text)
      ∧ (¬ c.post.len - tmp.Len + (decodeRunes tmp.Text).length > MaxLenBody →
          start = tmp.Start ∧ len = tmp.Len ∧ decodeRunes text = decodeRunes tmp.Text
            ∧ (utf8Valid tmp.Text = true → text = tmp.Text))
      ∧ (c.post.len - tmp.Len + (decodeRunes tmp.Text).length > MaxLenBody →
          start = tmp.Start ∧ start + len = (decodeRunes c.post.body).length
            ∧ decodeRunes text = (decodeRunes tmp.Text
                ++ (decodeRunes c.post.body).drop (tmp.Start + tmp.Len)).take
                  (MaxLenBody - tmp.Start)) := by
  obtain ⟨_, hS, _, hr, _, _, _⟩ := spliceText_success_guards e c c' tmp hopen hsucc
  have hc := spliceText_success e c c' tmp hopen hvalid hlen hsucc
  have hrange : tmp.Start + tmp.Len ≤ (decodeRunes c.post.body).length := by omega
  have hv := spliceEnd_valid (decodeRunes c.post.body) (reqOf tmp) (decodeRunes_valid _)
    (decodeRunes_valid _)
  have hvE : ∀ r ∈ spliceEnd (decodeRunes c.post.body) (reqOf tmp), ValidRune r = true :=
    fun r hr => hv r (List.mem_append_right _ hr)
  by_cases hover : c.post.len - tmp.Len + (decodeRunes tmp.Text).length > MaxLenBody
  · have hover' : ((decodeRunes c.post.body).length : Int) - (reqOf tmp).Len
        + (reqOf tmp).Text.length > MaxLenBody := by
      simp only [reqOf]; omega
    refine ⟨tmp.Start, (decodeRunes c.post.body).length - tmp.Start,
      encodeRunes (spliceEnd (decodeRunes c.post.body) (reqOf tmp)),
      (toUint (((spliceMsgText (decodeRunes c.post.body) (reqOf tmp)).length : Int) + 1)
        * e.CharScore % 2 ^ 64), ?_, ?_, ?_, ?_⟩
    · rw [hc]; simp only [spliced, spliceMsg, if_pos hover']; rfl
    · rw [hc]; simp only [spliced]
      rw [decodeRunes_encodeRunes_of_valid _ hv, decodeRunes_encodeRunes_of_valid _ hvE]
      simp only [spliceRunes]
      rw [List.drop_of_length_le (by omega), List.append_nil]
      rfl
    · intro h; exact absurd hover h
    · intro _
      refine ⟨rfl, by omega, ?_⟩
      rw [decodeRunes_encodeRunes_of_valid _ hvE]
      simp only [spliceEnd, if_pos hover']; rfl
  · have hover' : ¬ ((decodeRunes c.post.body).length : Int) - (reqOf tmp).Len
        + (reqOf tmp).Text.length > MaxLenBody := by
      simp only [reqOf]; omega
    have hend := spliceEnd_not_over (decodeRunes c.post.body) (reqOf tmp) hover'
    have hdt : decodeRunes (encodeRunes (decodeRunes tmp.Text)) = decodeRunes tmp.Text :=
      decodeRunes_encodeRunes_of_valid _ (decodeRunes_valid _)
    refine ⟨tmp.Start, tmp.Len, encodeRunes (decodeRunes tmp.Text),
      (toUint (((spliceMsgText (decodeRunes c.post.body) (reqOf tmp)).length : Int) + 1)
        * e.CharScore % 2 ^ 64), ?_, ?_, ?_, ?_⟩
    · rw [hc]; simp only [spliced, spliceMsg, if_neg hover']; rfl
    · rw [hc]; simp only [spliced]
      rw [decodeRunes_encodeRunes_of_valid _ hv, hend, hdt]
      rfl
    · intro _
      exact ⟨rfl, rfl, hdt, fun h => encodeRunes_decodeRunes _ h⟩
    · intro h; exact absurd h hover

/-- C3, witness: the truncated splice of the 2000-rune body. -/
theorem C3_broadcast_describes_effective_change_witness :
    ∃ start len text score,
      fullClientAfter.trace = (clientWith fullBody 2000 0 1000).trace ++
        [Effect.feedSetOpenBody 2 fullClientAfter.post.body (Msg.MessageSplice 2 start len text),
         Effect.IncrementSpamScore "::1" score,
         Effect.dbSetOpenBody 2 fullClientAfter.post.body]
      ∧ decodeRunes fullClientAfter.post.body
          = spliceRunes (decodeRunes fullBody) start len (decodeRunes text)
      ∧ (¬ (2000 : Int) - (0 : Nat) + (decodeRunes neverGonna).length > MaxLenBody →
          start = 1943 ∧ len = 0 ∧ decodeRunes text = decodeRunes neverGonna
            ∧ (utf8Valid neverGonna = true → text = neverGonna))
      ∧ ((2000 : Int) - (0 : Nat) + (decodeRunes neverGonna).length > MaxLenBody →
          start = 1943 ∧ start + len = (decodeRunes fullBody).length
            ∧ decodeRunes text = (decodeRunes neverGonna
                ++ (decodeRunes fullBody).drop (1943 + 0)).take (MaxLenBody - 1943)) :=
  C3_broadcast_describes_effective_change (quietEnv 1000) (clientWith fullBody 2000 0 1000)
    fullClientAfter ⟨1943, 0, neverGonna⟩ (by decide) (by decide!) (by decide!)
    fullClient_splice

set_option maxRecDepth 100000 in
theorem fullClient_spliceX :
    spliceText (quietEnv 1000) (clientWith fullBody 2000 0 1000) (some ⟨0, 0, [120]⟩)
      = some (fullClientAfterX, none) := by decide!

/-- C4 fails as stated. In the truncation scenario (a 2000-rune body and the
request `start 1943, len 0` with the long text) the splice message handed to the
feed carries `len = 57`, not `len = -1`. And the text of the message is not in
general a prefix of the replacement text: the splice `(0, 0, "x")` on the same
body hands a message to the feed with `len = 2000` whose text is `x` followed by
1999 runes of the old body. -/
theorem C4_overflow_broadcast_len_counterexample :
    (∃ c', spliceText (quietEnv 1000) (clientWith fullBody 2000 0 1000)
          (some ⟨1943, 0, neverGonna⟩) = some (c', none)
      ∧ lastSpliceBroadcast c' = some (1943, 57, neverGonna.take 57)
      ∧ lastSpliceBroadcast c' ≠ some (1943, -1, neverGonna.take 57))
      ∧ (∃ c', spliceText (quietEnv 1000) (clientWith fullBody 2000 0 1000)
            (some ⟨0, 0, [120]⟩) = some (c', none)
        ∧ lastSpliceBroadcast c' = some (0, 2000, 120 :: List.replicate 1999 97)
        ∧ ¬ (120 :: List.replicate 1999 97) <+: [120]) :=
  ⟨⟨fullClientAfter, fullClient_splice, by decide, by decide⟩,
   ⟨fullClientAfterX, fullClient_spliceX, by decide!, by decide!⟩⟩

/-- C4, amended: when a splice on an open post (body valid UTF-8, `len` its rune
count) overflows `MaxLenBody` and returns no error, the splice message handed to
the feed carries the start of the request, a `len` that reaches the end of the
old body (`start + len` is the old rune count; `len` is a `uint`, so never -1),
and as text the first `MaxLenBody - start` runes of the replacement text followed
by the old runes after the replaced range. When the replacement text alone has at
least `MaxLenBody - start` runes, this text is the prefix of that length of the
replacement text. -/
theorem C4_overflow_broadcast_amended (e : Env) (c c' : Client) (tmp : spliceRequestString)
    (hopen : openNow e c) (hvalid : utf8Valid c.post.body = true)
    (hlen : c.post.len = (decodeRunes c.post.body).length)
    (hover : c.post.len - tmp.Len + (decodeRunes tmp.Text).length > MaxLenBody)
    (hsucc : spliceText e c (some tmp) = some (c', none)) :
    (∃ score len,
      c'.trace = c.trace ++
        [Effect.feedSetOpenBody c.post.id c'.post.body
           (Msg.MessageSplice c.post.id tmp.Start len
             (encodeRunes ((decodeRunes tmp.Text
                ++ (decodeRunes c.post.body).drop (tmp.Start + tmp.Len)).take
                  (MaxLenBody - tmp.Start)))),
         Effect.IncrementSpamScore c.ip score,
         Effect.dbSetOpenBody c.post.id c'.post.body]
      ∧ tmp.Start + len = (decodeRunes c.post.body).length)
      ∧ (MaxLenBody - tmp.Start ≤ (decodeRunes tmp.Text).length →
          (decodeRunes tmp.Text ++ (decodeRunes c.post.body).drop (tmp.Start + tmp.Len)).take
              (MaxLenBody - tmp.Start)
            = (decodeRunes tmp.Text).take (MaxLenBody - tmp.Start)) := by
  obtain ⟨_, hS, _, hr, _, _, _⟩ := spliceText_success_guards e c c' tmp hopen hsucc
  have hc := spliceText_success e c c' tmp hopen hvalid hlen hsucc
  have hover' : ((decodeRunes c.post.body).length : Int) - (reqOf tmp).Len
      + (reqOf tmp).Text.length > MaxLenBody := by
    simp only [reqOf]; omega
  refine ⟨⟨toUint (((spliceMsgText (decodeRunes c.post.body) (reqOf tmp)).length : Int) + 1)
      * e.CharScore % 2 ^ 64, (decodeRunes c.post.body).length - tmp.Start, ?_, by omega⟩,
    fun h => List.take_append_of_le_length h⟩
  rw [hc]
  simp only [spliced, spliceMsg, if_pos hover', spliceEnd]
  rfl

/-- C4, amended, witness: for the 2000-rune body of `a` and the request
`start 1943, len 0` with the long text, the message has start 1943, len 57 and as
text the first 57 characters of the request text. -/
theorem C4_overflow_broadcast_amended_witness :
    ((∃ score len,
      fullClientAfter.trace = (clientWith fullBody 2000 0 1000).trace ++
        [Effect.feedSetOpenBody 2 fullClientAfter.post.body
           (Msg.MessageSplice 2 1943 len
             (encodeRunes ((decodeRunes neverGonna
                ++ (decodeRunes fullBody).drop (1943 + 0)).take (MaxLenBody - 1943)))),
         Effect.IncrementSpamScore "::1" score,
         Effect.dbSetOpenBody 2 fullClientAfter.post.body]
      ∧ 1943 + len = (decodeRunes fullBody).length)
      ∧ (MaxLenBody - 1943 ≤ (decodeRunes neverGonna).length →
          (decodeRunes neverGonna ++ (decodeRunes fullBody).drop (1943 + 0)).take
              (MaxLenBody - 1943)
            = (decodeRunes neverGonna).take (MaxLenBody - 1943)))
      ∧ (decodeRunes fullBody).length = 1943 + 57
      ∧ encodeRunes ((decodeRunes neverGonna).take (MaxLenBody - 1943)) = neverGonna.take 57
      ∧ lastSpliceBroadcast fullClientAfter = some (1943, 57, neverGonna.take 57) :=
  ⟨C4_overflow_broadcast_amended (quietEnv 1000) (clientWith fullBody 2000 0 1000)
      fullClientAfter ⟨1943, 0, neverGonna⟩ (by decide) (by decide!) (by decide!) (by decide!)
      fullClient_splice,
   by decide!, by decide!, by decide⟩

/-- C5: on an open, non-expired post and for a request whose text is printable,
`spliceText` returns `errInvalidSpliceCoords` with the current body and the
request if `start > MaxLenBody` or `len > MaxLenBody` or `start + len` exceeds
the post's `len`; otherwise `errSpliceNOOP` if `len = 0` and the text is empty;
otherwise `errSpliceTooLong` if the text has more than `MaxLenBody` runes. In
each case the client is returned unchanged. -/
theorem C5_splice_validation_outcome (e : Env) (c : Client) (tmp : spliceRequestString)
    (hopen : openNow e c) (hprint : e.IsPrintableRunes (decodeRunes tmp.Text) = none) :
    ((tmp.Start > MaxLenBody ∨ tmp.Len > MaxLenBody
          ∨ ((tmp.Start + tmp.Len : Nat) : Int) > c.post.len) →
        spliceText e c (some tmp) = some (c, some (Err.errInvalidSpliceCoords c.post.body
          tmp.Start tmp.Len (encodeRunes (decodeRunes tmp.Text))))
        ∧ (utf8Valid tmp.Text = true → encodeRunes (decodeRunes tmp.Text) = tmp.Text))
      ∧ (¬ (tmp.Start > MaxLenBody ∨ tmp.Len > MaxLenBody
            ∨ ((tmp.Start + tmp.Len : Nat) : Int) > c.post.len) →
          (tmp.Len = 0 ∧ tmp.Text = [] →
            spliceText e c (some tmp) = some (c, some Err.errSpliceNOOP))
          ∧ (¬ (tmp.Len = 0 ∧ tmp.Text = []) → (decodeRunes tmp.Text).length > MaxLenBody →
            spliceText e c (some tmp) = some (c, some Err.errSpliceTooLong))) := by
  rw [spliceText_of_openNow e c tmp hopen hprint]
  refine ⟨fun h => ⟨by rw [if_pos h], fun hv => encodeRunes_decodeRunes _ hv⟩, fun h => ⟨?_, ?_⟩⟩
  · intro hn
    rw [if_neg h, if_pos ⟨hn.1, by rw [hn.2]; rfl⟩]
  · intro hn hl
    have hn' : ¬ (tmp.Len = 0 ∧ (decodeRunes tmp.Text).length = 0) := by
      rw [List.length_eq_zero, decodeRunes_eq_nil_iff]; exact hn
    rw [if_neg h, if_neg hn', if_pos hl]

/-- C5, witness: `(2, 1, "")` on an empty body, `(0, 0, "")`, and `(0, 0, text)` with
a text of 2001 letters. -/
theorem C5_splice_validation_outcome_witness :
    spliceText (quietEnv 1000) (clientWith [] 0 0 1000) (some ⟨2, 1, []⟩)
        = some (clientWith [] 0 0 1000, some (Err.errInvalidSpliceCoords [] 2 1 []))
      ∧ spliceText (quietEnv 1000) (clientWith [] 0 0 1000) (some ⟨0, 0, []⟩)
        = some (clientWith [] 0 0 1000, some Err.errSpliceNOOP)
      ∧ spliceText (quietEnv 1000) (clientWith [] 0 0 1000)
          (some ⟨0, 0, List.replicate 2001 97⟩)
        = some (clientWith [] 0 0 1000, some Err.errSpliceTooLong) :=
  ⟨((C5_splice_validation_outcome (quietEnv 1000) (clientWith [] 0 0 1000) ⟨2, 1, []⟩
      (by decide) (by decide)).1 (by decide)).1,
   ((C5_splice_validation_outcome (quietEnv 1000) (clientWith [] 0 0 1000) ⟨0, 0, []⟩
      (by decide) (by decide)).2 (by decide)).1 (by decide),
   ((C5_splice_validation_outcome (quietEnv 1000) (clientWith [] 0 0 1000)
      ⟨0, 0, List.replicate 2001 97⟩ (by decide) (by decide)).2 (by decide)).2
        (by decide) (by decide!)⟩

/-- On an open post `appendRune` is its checks followed by the append. -/
theorem appendRune_of_openNow (e : Env) (c : Client) (r : Int) (hopen : openNow e c)
    (hlen : ¬ c.post.len + 1 > MaxLenBody) (hnul : r ≠ 0) :
    appendRune e c (some r) =
      if r = 10 ∧ c.post.lines + 1 > MaxLinesBody then
        ({ c with post := { c.post with lines := c.post.lines + 1 } }, some Err.errTooManyLines)
      else match e.IsPrintable r with
        | some err =>
          ({ c with post := { c.post with
              lines := if r = 10 then c.post.lines + 1 else c.post.lines } }, some err)
        | none =>
          updateBody e
            { c with post := { c.post with
                body := c.post.body ++ encodeRune r, len := c.post.len + 1,
                lines := if r = 10 then c.post.lines + 1 else c.post.lines } }
            (Msg.MessageAppend c.post.id (toUint r)) 1 := by
  unfold appendRune
  rw [hasPost_of_openNow e c hopen]
  simp only [Option.isSome_none, Bool.false_eq_true, if_false, Bool.not_true, if_neg hlen,
    if_neg hnul]
  by_cases h10 : r = 10
  · subst h10
    simp only [if_true, true_and]
  · simp only [h10, false_and, if_false]

/-- C6: on an open, non-expired post with `len < MaxLenBody`, for a rune `r` that
is not NUL, is printable and is not a newline that would exceed `MaxLinesBody`,
and when the store accepts the write, `appendRune` returns no error; the body is
the old body followed by the UTF-8 encoding of `r`, `len` is one more, `lines`
is one more exactly for a newline; the feed receives the new body with an Append
message carrying the post id and `uint64(r)`, which is `r` itself for every
non-negative rune, and the new body is written to the store. -/
theorem C6_appendRune_postcondition (e : Env) (c : Client) (r : Int)
    (hopen : openNow e c) (hlen : c.post.len < MaxLenBody) (hnul : r ≠ 0)
    (hprint : e.IsPrintable r = none)
    (hlines : ¬ (r = 10 ∧ c.post.lines + 1 > MaxLinesBody))
    (hstore : e.SetOpenBody c.post.id (c.post.body ++ encodeRune r) = none) :
    appendRune e c (some r) =
        ({ c with
            post := { c.post with
              body := c.post.body ++ encodeRune r, len := c.post.len + 1,
              lines := if r = 10 then c.post.lines + 1 else c.post.lines },
            trace := c.trace ++
              [Effect.feedSetOpenBody c.post.id (c.post.body ++ encodeRune r)
                 (Msg.MessageAppend c.post.id (toUint r)),
               Effect.IncrementSpamScore c.ip (toUint 1 * e.CharScore % 2 ^ 64),
               Effect.dbSetOpenBody c.post.id (c.post.body ++ encodeRune r)] }, none)
      ∧ (0 ≤ r → r < 2 ^ 31 → (toUint r : Int) = r) := by
  refine ⟨?_, fun h0 h1 => ?_⟩
  · rw [appendRune_of_openNow e c r hopen (by omega) hnul, if_neg hlines, hprint]
    simp only []
    rw [updateBody_ok _ _ _ _ hstore]
  · unfold toUint
    omega

/-- C6, witness: appending `d` (payload `100`) to `abc` gives `abcd`, `len` 4 and
the message `[2,100]`. -/
theorem C6_appendRune_postcondition_witness :
    appendRune (quietEnv 1000) (clientWith [97, 98, 99] 3 0 1000) (some 100) =
        ({ clientWith [97, 98, 99, 100] 4 0 1000 with
            trace := [Effect.feedSetOpenBody 2 [97, 98, 99, 100] (Msg.MessageAppend 2 100),
               Effect.IncrementSpamScore "::1" 1,
               Effect.dbSetOpenBody 2 [97, 98, 99, 100]] }, none)
      ∧ ((0 : Int) ≤ 100 → (100 : Int) < 2 ^ 31 → (toUint 100 : Int) = 100) :=
  C6_appendRune_postcondition (quietEnv 1000) (clientWith [97, 98, 99] 3 0 1000) 100
    (by decide) (by decide) (by decide) (by decide) (by decide) (by decide)

theorem backspace_of_openNow (e : Env) (c : Client) (hopen : openNow e c) :
    backspace e c =
      if c.post.len = 0 then (c, some Err.errEmptyPost)
      else updateBody e
        { c with post := { c.post with
            body := c.post.body.take (c.post.body.length - (DecodeLastRune c.post.body).2),
            lines := if (DecodeLastRune c.post.body).1 = 10 then c.post.lines - 1
              else c.post.lines,
            len := c.post.len - 1 } }
        (Msg.MessageBackspace c.post.id) 1 := by
  unfold backspace
  rw [hasPost_of_openNow e c hopen]
  simp only [Option.isSome_none, Bool.false_eq_true, if_false, Bool.not_true]

theorem encodeRunes_concat (rs : List Int) (r : Int) :
    encodeRunes (rs ++ [r]) = encodeRunes rs ++ encodeRune r := by
  rw [encodeRunes_append]; simp [encodeRunes]

theorem eq_nil_or_snoc (l : List Int) : l = [] ∨ ∃ rs r, l = rs ++ [r] := by
  rcases List.eq_nil_or_concat l with h | ⟨rs, r, h⟩
  · exact Or.inl h
  · exact Or.inr ⟨rs, r, by rw [h, List.concat_eq_append]⟩

/-- What `backspace` removes: the body without its last rune and whether that rune
is a newline. -/
theorem DecodeLastRune_of_valid (body : List Nat) (hv : utf8Valid body = true) :
    body.take (body.length - (DecodeLastRune body).2) = encodeRunes (decodeRunes body).dropLast
      ∧ ((DecodeLastRune body).1 = 10 ↔ (decodeRunes body).getLast? = some 10) := by
  have hb := body_eq_encodeRunes body hv
  have hval := decodeRunes_valid body
  rcases eq_nil_or_snoc (decodeRunes body) with hnil | ⟨rs, r, hrs⟩
  · rw [hnil] at hb ⊢
    subst hb
    simp [DecodeLastRune, encodeRunes, RuneError]
  · rw [hrs] at hb hval ⊢
    have hr : ValidRune r = true := hval r (by simp)
    rw [hb, encodeRunes_concat, DecodeLastRune_append_encodeRune, sanitize_of_valid r hr]
    simp

/-- C7: on an open, non-expired post, `backspace` with `len = 0` returns
`errEmptyPost` and changes nothing; with `len > 0`, a valid UTF-8 body and a
store that accepts the write it returns no error, the body loses exactly its last
rune with all of its bytes, `len` decreases by one, `lines` decreases by one
exactly when the removed rune is a newline, the feed receives the shortened body
with a Backspace message carrying the post id, and the shortened body is written
to the store. -/
theorem C7_backspace_contract (e : Env) (c : Client) (hopen : openNow e c) :
    (c.post.len = 0 → backspace e c = (c, some Err.errEmptyPost))
      ∧ (c.post.len > 0 → utf8Valid c.post.body = true →
          e.SetOpenBody c.post.id (encodeRunes (decodeRunes c.post.body).dropLast) = none →
          backspace e c =
              ({ c with
                  post := { c.post with
                    body := encodeRunes (decodeRunes c.post.body).dropLast,
                    lines := if (decodeRunes c.post.body).getLast? = some 10
                      then c.post.lines - 1 else c.post.lines,
                    len := c.post.len - 1 },
                  trace := c.trace ++
                    [Effect.feedSetOpenBody c.post.id
                       (encodeRunes (decodeRunes c.post.body).dropLast)
                       (Msg.MessageBackspace c.post.id),
                     Effect.IncrementSpamScore c.ip (toUint 1 * e.CharScore % 2 ^ 64),
                     Effect.dbSetOpenBody c.post.id
                       (encodeRunes (decodeRunes c.post.body).dropLast)] }, none)
            ∧ decodeRunes (encodeRunes (decodeRunes c.post.body).dropLast)
                = (decodeRunes c.post.body).dropLast
            ∧ ∀ r, (decodeRunes c.post.body).getLast? = some r →
                c.post.body = encodeRunes (decodeRunes c.post.body).dropLast ++ encodeRune r) := by
  rw [backspace_of_openNow e c hopen]
  refine ⟨fun h => by rw [if_pos h], fun hpos hv hstore => ?_⟩
  obtain ⟨h1, h2⟩ := DecodeLastRune_of_valid c.post.body hv
  have hval := decodeRunes_valid c.post.body
  refine ⟨?_, ?_, ?_⟩
  · rw [if_neg (by omega), h1]
    simp only [h2]
    rw [updateBody_ok _ _ _ _ hstore]
  · exact decodeRunes_encodeRunes_of_valid _
      (fun r hr => hval r (List.mem_of_mem_dropLast hr))
  · intro r hr
    have hb := body_eq_encodeRunes c.post.body hv
    rcases eq_nil_or_snoc (decodeRunes c.post.body) with hnil | ⟨rs, x, hrs⟩
    · rw [hnil] at hr; simp at hr
    · rw [hrs] at hr hb ⊢
      simp at hr
      subst hr
      rw [List.dropLast_concat, ← encodeRunes_concat]
      exact hb

/-- C7, witness: on `abc` the body becomes `ab` and `len` 2; on the empty post
`errEmptyPost` is returned. -/
theorem C7_backspace_contract_witness :
    backspace (quietEnv 1000) (clientWith [] 0 0 1000)
        = (clientWith [] 0 0 1000, some Err.errEmptyPost)
      ∧ backspace (quietEnv 1000) (clientWith [97, 98, 99] 3 0 1000) =
        ({ clientWith [97, 98] 2 0 1000 with
            trace := [Effect.feedSetOpenBody 2 [97, 98] (Msg.MessageBackspace 2),
               Effect.IncrementSpamScore "::1" 1,
               Effect.dbSetOpenBody 2 [97, 98]] }, none) :=
  ⟨(C7_backspace_contract (quietEnv 1000) (clientWith [] 0 0 1000) (by decide)).1 (by decide),
   ((C7_backspace_contract (quietEnv 1000) (clientWith [97, 98, 99] 3 0 1000) (by decide)).2
      (by decide) (by decide) (by decide)).1⟩

theorem sanitize_eq_newline_iff (r : Int) : sanitize r = 10 ↔ r = 10 := by
  unfold sanitize
  by_cases hv : ValidRune r = true
  · rw [if_pos hv]
  · rw [if_neg hv]
    constructor
    · intro h; exact absurd h (by decide)
    · intro h; subst h; exact absurd (by decide) hv

/-- A successful `appendRune` on an open post has passed every check. -/
theorem appendRune_success (e : Env) (c c1 : Client) (r : Int) (hopen : openNow e c)
    (hmax : c.post.len < MaxLenBody) (hacc : appendRune e c (some r) = (c1, none)) :
    c1.post = { c.post with
        body := c.post.body ++ encodeRune r, len := c.post.len + 1,
        lines := if r = 10 then c.post.lines + 1 else c.post.lines } := by
  have hnul : r ≠ 0 := by
    intro h
    subst h
    unfold appendRune at hacc
    rw [hasPost_of_openNow e c hopen] at hacc
    simp [show ¬ c.post.len + 1 > (MaxLenBody : Int) by omega] at hacc
  rw [appendRune_of_openNow e c r hopen (by omega) hnul] at hacc
  by_cases h1 : r = 10 ∧ c.post.lines + 1 > MaxLinesBody
  · rw [if_pos h1] at hacc; simp at hacc
  · rw [if_neg h1] at hacc
    cases hp : e.IsPrintable r with
    | some err => rw [hp] at hacc; simp at hacc
    | none =>
      rw [hp] at hacc
      have h := congrArg (fun x => x.1.post) hacc
      simp only [updateBody_post] at h
      exact h.symm

/-- C8: on an open, non-expired post with `len` equal to the rune count of its
body and `len < MaxLenBody`, an `appendRune` that is accepted followed by a
`backspace` (the post still not expired) restores the body, `len` and `lines`,
and with them the whole open post. -/
theorem C8_append_then_backspace_identity (e1 e2 : Env) (c c1 : Client) (r : Int)
    (hopen1 : openNow e1 c) (hopen2 : openNow e2 c)
    (hlen : c.post.len = (decodeRunes c.post.body).length)
    (hmax : c.post.len < MaxLenBody)
    (hacc : appendRune e1 c (some r) = (c1, none)) :
    (backspace e2 c1).1.post.body = c.post.body
      ∧ (backspace e2 c1).1.post.len = c.post.len
      ∧ (backspace e2 c1).1.post.lines = c.post.lines
      ∧ (backspace e2 c1).1.post = c.post := by
  have h1 := appendRune_success e1 c c1 r hopen1 hmax hacc
  have hopen : openNow e2 c1 := by
    unfold openNow at hopen2 ⊢
    rw [h1]; exact hopen2
  have key : (backspace e2 c1).1.post = c.post := by
    rw [backspace_of_openNow e2 c1 hopen, if_neg (by rw [h1]; simp only []; omega),
      updateBody_post, h1]
    simp only [DecodeLastRune_append_encodeRune, List.length_append, Nat.add_sub_cancel,
      List.take_left', sanitize_eq_newline_iff]
    have hl : c.post.len + 1 - 1 = c.post.len := by omega
    rw [hl]
    by_cases h10 : r = 10
    · simp [h10]
    · simp [h10]
  exact ⟨by rw [key], by rw [key], by rw [key], key⟩

/-- C8, witness: `abc`, append `d`, backspace. -/
theorem C8_append_then_backspace_identity_witness :
    (backspace (quietEnv 1001) (appendRune (quietEnv 1000)
        (clientWith [97, 98, 99] 3 0 1000) (some 100)).1).1.post.body = [97, 98, 99]
      ∧ (backspace (quietEnv 1001) (appendRune (quietEnv 1000)
        (clientWith [97, 98, 99] 3 0 1000) (some 100)).1).1.post.len = 3
      ∧ (backspace (quietEnv 1001) (appendRune (quietEnv 1000)
        (clientWith [97, 98, 99] 3 0 1000) (some 100)).1).1.post.lines = 0
      ∧ (backspace (quietEnv 1001) (appendRune (quietEnv 1000)
        (clientWith [97, 98, 99] 3 0 1000) (some 100)).1).1.post
          = (clientWith [97, 98, 99] 3 0 1000).post :=
  C8_append_then_backspace_identity (quietEnv 1000) (quietEnv 1001)
    (clientWith [97, 98, 99] 3 0 1000)
    (appendRune (quietEnv 1000) (clientWith [97, 98, 99] 3 0 1000) (some 100)).1 100
    (by decide) (by decide) (by decide) (by decide) (by decide)

/-- C9 fails as stated: on the body `abc` the splice `(0, 1, "x")` is accepted and
gives `xbc`; the following splice `(0, runecount("x"), "")` is accepted and gives
`bc`, so `len` is 2 and not the original 3. -/
theorem C9_splice_then_remove_counterexample :
    spliceText (quietEnv 1000) (clientWith [97, 98, 99] 3 0 1000) (some ⟨0, 1, [120]⟩)
        = some (abcAfterReplace, none)
      ∧ spliceText (quietEnv 1000) abcAfterReplace (some ⟨0, (decodeRunes [120]).length, []⟩)
        = some (abcAfterReplaceRemove, none)
      ∧ abcAfterReplaceRemove.post.len = 2
      ∧ abcAfterReplaceRemove.post.len ≠ (clientWith [97, 98, 99] 3 0 1000).post.len := by
  decide

/-- C9, amended: on an open post (body valid UTF-8, `len` its rune count), after an
accepted splice `(start, 0, text)` that inserts without truncation
(`len + runecount(text) <= MaxLenBody`), the splice `(start, runecount(text), "")`
(the post still not expired, the empty text printable) sets `len` back to its
value before the first splice. -/
theorem C9_insert_then_remove_restores_len (e1 e2 : Env) (c c1 : Client)
    (tmp : spliceRequestString)
    (hopen1 : openNow e1 c) (hopen2 : openNow e2 c)
    (hvalid : utf8Valid c.post.body = true)
    (hlen : c.post.len = (decodeRunes c.post.body).length)
    (hzero : tmp.Len = 0)
    (hfit : c.post.len + (decodeRunes tmp.Text).length ≤ MaxLenBody)
    (hprint2 : e2.IsPrintableRunes [] = none)
    (hacc : spliceText e1 c (some tmp) = some (c1, none)) :
    ∃ c2 r, spliceText e2 c1 (some ⟨tmp.Start, (decodeRunes tmp.Text).length, []⟩)
        = some (c2, r)
      ∧ c2.post.len = c.post.len := by
  have hM : MaxLenBody = 2000 := rfl
  obtain ⟨_, hS, _, hr, hnoop, hlong, _⟩ := spliceText_success_guards e1 c c1 tmp hopen1 hacc
  have hc := spliceText_success e1 c c1 tmp hopen1 hvalid hlen hacc
  have hnot : ¬ ((decodeRunes c.post.body).length : Int) - (reqOf tmp).Len
      + (reqOf tmp).Text.length > MaxLenBody := by
    simp only [reqOf]; omega
  have hend := spliceEnd_not_over (decodeRunes c.post.body) (reqOf tmp) hnot
  have hv : ∀ r ∈ spliceRunes (decodeRunes c.post.body) (reqOf tmp).Start (reqOf tmp).Len
      (reqOf tmp).Text, ValidRune r = true := by
    rw [← hend]
    exact spliceEnd_valid _ (reqOf tmp) (decodeRunes_valid _) (decodeRunes_valid _)
  have hpost : c1.post = (spliced c (decodeRunes c.post.body) (reqOf tmp)).post := by
    rw [hc]
  have hbody1 : c1.post.body = encodeRunes (spliceRunes (decodeRunes c.post.body)
      tmp.Start tmp.Len (decodeRunes tmp.Text)) := by
    rw [hpost]; simp only [spliced]; rw [hend]; rfl
  have hdec1 : decodeRunes c1.post.body = spliceRunes (decodeRunes c.post.body)
      tmp.Start tmp.Len (decodeRunes tmp.Text) := by
    rw [hbody1]; exact decodeRunes_encodeRunes_of_valid _ hv
  have hlenR := spliceRunes_length (decodeRunes c.post.body) tmp.Start tmp.Len
    (decodeRunes tmp.Text) (by omega)
  have hlen1 : c1.post.len = c.post.len + (decodeRunes tmp.Text).length := by
    rw [hpost]; simp only [spliced, reqOf]
    rw [min_eq_left (by omega)]; omega
  have hopen' : openNow e2 c1 := by
    unfold openNow at hopen2 ⊢
    rw [hpost]; exact hopen2
  have hvalid1 : utf8Valid c1.post.body = true := by
    rw [hbody1]; exact utf8Valid_encodeRunes _
  have hlen1' : c1.post.len = (decodeRunes c1.post.body).length := by
    rw [hdec1, hlenR, hlen1]; omega
  have hnoop2 : ¬ ((decodeRunes tmp.Text).length = 0 ∧ (decodeRunes []).length = 0) := by
    intro h; exact hnoop ⟨hzero, h.1⟩
  have h2 := spliceText_accept e2 c1 ⟨tmp.Start, (decodeRunes tmp.Text).length, []⟩ hopen'
    hprint2 hvalid1 hlen1' hS (by show (decodeRunes tmp.Text).length ≤ MaxLenBody; omega)
    (by rw [hdec1]; show tmp.Start + (decodeRunes tmp.Text).length ≤ _; omega) hnoop2
    (by simp [decodeRunes, decodeFrom]) (by simp [decodeRunes, decodeFrom])
  rw [h2]
  have hl2 : (spliced c1 (decodeRunes c1.post.body)
      (reqOf ⟨tmp.Start, (decodeRunes tmp.Text).length, []⟩)).post.len = c.post.len := by
    simp only [spliced, reqOf]
    have : (decodeRunes ([] : List Nat)).length = 0 := rfl
    rw [this, hdec1, hlenR, min_eq_left (by omega)]
    omega
  split_ifs
  · exact ⟨_, _, rfl, hl2⟩
  · refine ⟨(updateBody _ _ _ _).1, (updateBody _ _ _ _).2, rfl, ?_⟩
    rw [updateBody_post]; exact hl2

/-- C9, amended, witness: inserting `xy` at position 1 of `abc` and removing two
runes at position 1. -/
theorem C9_insert_then_remove_restores_len_witness :
    ∃ c2 r, spliceText (quietEnv 1001) abcAfterInsert
          (some ⟨1, (decodeRunes [120, 121]).length, []⟩) = some (c2, r)
      ∧ c2.post.len = (clientWith [97, 98, 99] 3 0 1000).post.len :=
  C9_insert_then_remove_restores_len (quietEnv 1000) (quietEnv 1001)
    (clientWith [97, 98, 99] 3 0 1000) abcAfterInsert ⟨1, 0, [120, 121]⟩
    (by decide) (by decide) (by decide) (by decide) (by decide) (by decide) (by decide)
    (by decide)

theorem CheckRouletteBan_post (e : Env) (commands : List Command) (board : String)
    (thread id : Nat) : ∀ c : Client, (CheckRouletteBan e c commands board thread id).1.post = c.post := by
  induction commands with
  | nil => intro c; rfl
  | cons command rest ih =>
    intro c
    unfold CheckRouletteBan
    split_ifs
    · cases e.Ban board "lost at #roulette" "system" Hour id with
      | some err => rfl
      | none =>
        simp only []
        cases e.IncrementRcount thread <;> rfl
    · exact ih c

theorem closePost_post (e : Env) (c : Client) :
    (closePost e c).1.post = c.post ∨ (closePost e c).1.post = openPost.zero := by
  unfold closePost
  by_cases h0 : c.post.id = 0
  · rw [if_pos h0]; exact Or.inl rfl
  · rw [if_neg h0]
    simp only []
    generalize (if c.post.len ≠ 0 then
      e.ParseBody c.post.body c.post.board c.post.op c.post.id c.ip
      else Except.ok ([], [])) = parsed
    cases parsed with
    | error err => exact Or.inl rfl
    | ok p =>
      obtain ⟨links, com⟩ := p
      simp only []
      cases e.ClosePost c.post.id c.post.op c.post.body links com with
      | some err => exact Or.inl rfl
      | none => exact Or.inr rfl

/-- The two outcomes of `hasPost`: the post is open and nothing changes, or the
flag is false and the post is unchanged or has been reset to the zero value. -/
theorem hasPost_cases (e : Env) (c : Client) :
    (openNow e c ∧ hasPost e c = (c, true, none))
      ∨ ∃ c' err, hasPost e c = (c', false, err)
          ∧ (c'.post = c.post ∨ c'.post = openPost.zero) := by
  by_cases h : openNow e c
  · exact Or.inl ⟨h, hasPost_of_openNow e c h⟩
  · right
    unfold openNow at h
    unfold hasPost
    by_cases h0 : c.post.id = 0
    · rw [if_pos h0]; exact ⟨c, _, rfl, Or.inl rfl⟩
    · rw [if_neg h0, if_pos (by by_contra h2; exact h ⟨h0, h2⟩)]
      exact ⟨_, _, rfl, closePost_post e c⟩

theorem postInv_zero : postInv openPost.zero := by decide

theorem postInv_lines (p : openPost) (l : Int) (h : postInv p) :
    postInv { p with lines := l } := h

theorem appendRune_inv (e : Env) (c : Client) (data : Option Int) (h : postInv c.post) :
    postInv (appendRune e c data).1.post := by
  rcases hasPost_cases e c with ⟨hopen, _⟩ | ⟨c', err, hh, hc'⟩
  · by_cases hlen : c.post.len + 1 > MaxLenBody
    · unfold appendRune; rw [hasPost_of_openNow e c hopen]
      simp only [Option.isSome_none, Bool.false_eq_true, if_false, Bool.not_true, if_pos hlen]
      exact h
    · cases data with
      | none =>
        unfold appendRune; rw [hasPost_of_openNow e c hopen]
        simp only [Option.isSome_none, Bool.false_eq_true, if_false, Bool.not_true, if_neg hlen]
        exact h
      | some r =>
        by_cases hnul : r = 0
        · unfold appendRune; rw [hasPost_of_openNow e c hopen]
          simp only [Option.isSome_none, Bool.false_eq_true, if_false, Bool.not_true,
            if_neg hlen, if_pos hnul]
          exact h
        · rw [appendRune_of_openNow e c r hopen hlen hnul]
          by_cases hl : r = 10 ∧ c.post.lines + 1 > MaxLinesBody
          · rw [if_pos hl]; exact h
          · rw [if_neg hl]
            cases e.IsPrintable r with
            | some err => exact h
            | none =>
              simp only []
              rw [updateBody_post]
              obtain ⟨h1, h2, h3, h4⟩ := h
              have hb := body_eq_encodeRunes c.post.body h1
              have hval := decodeRunes_valid c.post.body
              have hbody : c.post.body ++ encodeRune r
                  = encodeRunes (decodeRunes c.post.body ++ [r]) := by
                rw [encodeRunes_concat, ← hb]
              refine ⟨?_, ?_, ?_, ?_⟩
              · show utf8Valid (c.post.body ++ encodeRune r) = true
                rw [hbody]; exact utf8Valid_encodeRunes _
              · show 0 ∉ c.post.body ++ encodeRune r
                rw [List.mem_append, zero_mem_encodeRune]
                exact fun hx => hx.elim h2 hnul
              · show c.post.len + 1 = ((decodeRunes (c.post.body ++ encodeRune r)).length : Int)
                rw [hbody, decodeRunes_encodeRunes, List.length_map, List.length_append, h3]
                simp
              · show c.post.len + 1 ≤ (MaxLenBody : Int)
                omega
  · have : (appendRune e c data).1 = c' := by
      unfold appendRune; rw [hh]
      cases herr : err <;> simp
    rw [this]
    rcases hc' with hc' | hc'
    · rw [hc']; exact h
    · rw [hc']; exact postInv_zero

theorem backspace_inv (e : Env) (c : Client) (h : postInv c.post) :
    postInv (backspace e c).1.post := by
  rcases hasPost_cases e c with ⟨hopen, _⟩ | ⟨c', err, hh, hc'⟩
  · rw [backspace_of_openNow e c hopen]
    by_cases h0 : c.post.len = 0
    · rw [if_pos h0]; exact h
    · rw [if_neg h0, updateBody_post]
      obtain ⟨h1, h2, h3, h4⟩ := h
      obtain ⟨ht, _⟩ := DecodeLastRune_of_valid c.post.body h1
      have hval := decodeRunes_valid c.post.body
      have hvd : ∀ r ∈ (decodeRunes c.post.body).dropLast, ValidRune r = true :=
        fun r hr => hval r (List.mem_of_mem_dropLast hr)
      have hz : (0 : Int) ∉ decodeRunes c.post.body := by
        rw [← zero_mem_encodeRunes, ← body_eq_encodeRunes c.post.body h1]; exact h2
      refine ⟨?_, ?_, ?_, ?_⟩
      · show utf8Valid (c.post.body.take _) = true
        rw [ht]; exact utf8Valid_encodeRunes _
      · show 0 ∉ c.post.body.take _
        rw [ht, zero_mem_encodeRunes]
        exact fun hx => hz (List.mem_of_mem_dropLast hx)
      · show c.post.len - 1 = ((decodeRunes (c.post.body.take _)).length : Int)
        rw [ht, decodeRunes_encodeRunes_of_valid _ hvd, List.length_dropLast, h3]
        have : (decodeRunes c.post.body).length ≠ 0 := by
          intro hx; rw [hx] at h3; exact h0 h3
        omega
      · show c.post.len - 1 ≤ (MaxLenBody : Int)
        omega
  · have : (backspace e c).1 = c' := by
      unfold backspace; rw [hh]
      cases herr : err <;> simp
    rw [this]
    rcases hc' with hc' | hc'
    · rw [hc']; exact h
    · rw [hc']; exact postInv_zero

theorem spliced_inv (c : Client) (req : spliceRequest) (h : postInv c.post)
    (htext : ∀ r ∈ req.Text, ValidRune r = true) (hnul : (0 : Int) ∉ req.Text)
    (hrange : req.Start + req.Len ≤ (decodeRunes c.post.body).length)
    (hstart : req.Start ≤ MaxLenBody) :
    postInv (spliced c (decodeRunes c.post.body) req).post := by
  obtain ⟨h1, h2, h3, h4⟩ := h
  have hM : MaxLenBody = 2000 := rfl
  have hval := decodeRunes_valid c.post.body
  have hv := spliceEnd_valid (decodeRunes c.post.body) req hval htext
  have hz : (0 : Int) ∉ decodeRunes c.post.body := by
    rw [← zero_mem_encodeRunes, ← body_eq_encodeRunes c.post.body h1]; exact h2
  have hzR : (0 : Int) ∉ spliceRunes (decodeRunes c.post.body) req.Start req.Len req.Text := by
    simp only [spliceRunes, List.mem_append, not_or]
    exact ⟨⟨fun hx => hz (List.mem_of_mem_take hx), hnul⟩,
      fun hx => hz (List.mem_of_mem_drop hx)⟩
  have hlenR := spliceRunes_length (decodeRunes c.post.body) req.Start req.Len req.Text hrange
  by_cases hover : ((decodeRunes c.post.body).length : Int) - req.Len + req.Text.length
      > MaxLenBody
  · have hend := spliceEnd_over (decodeRunes c.post.body) req hrange hstart hover
    refine ⟨?_, ?_, ?_, ?_⟩
    · show utf8Valid (encodeRunes _) = true
      exact utf8Valid_encodeRunes _
    · show 0 ∉ encodeRunes _
      rw [zero_mem_encodeRunes, hend]
      exact fun hx => hzR (List.mem_of_mem_take hx)
    · show min _ _ = ((decodeRunes (encodeRunes _)).length : Int)
      rw [decodeRunes_encodeRunes_of_valid _ hv, hend, List.length_take, min_eq_right (by omega)]
      omega
    · show min _ _ ≤ (MaxLenBody : Int)
      exact min_le_right _ _
  · have hend := spliceEnd_not_over (decodeRunes c.post.body) req hover
    refine ⟨?_, ?_, ?_, ?_⟩
    · show utf8Valid (encodeRunes _) = true
      exact utf8Valid_encodeRunes _
    · show 0 ∉ encodeRunes _
      rw [zero_mem_encodeRunes, hend]
      exact hzR
    · show min _ _ = ((decodeRunes (encodeRunes _)).length : Int)
      rw [decodeRunes_encodeRunes_of_valid _ hv, hend, min_eq_left (by omega)]
      omega
    · show min _ _ ≤ (MaxLenBody : Int)
      exact min_le_right _ _

theorem spliceText_inv (e : Env) (c : Client) (data : Option spliceRequestString)
    (h : postInv c.post) :
    ∃ r, spliceText e c data = some r ∧ postInv r.1.post := by
  rcases hasPost_cases e c with ⟨hopen, hh⟩ | ⟨c', err, hh, hc'⟩
  · cases data with
    | none =>
      refine ⟨(c, some (Err.json 0)), ?_, h⟩
      unfold spliceText; rw [hh]
      simp [spliceRequest.UnmarshalJSON]
    | some tmp =>
      cases hp : e.IsPrintableRunes (decodeRunes tmp.Text) with
      | some perr =>
        refine ⟨(c, some perr), ?_, h⟩
        unfold spliceText; rw [hh]
        simp [spliceRequest.UnmarshalJSON, hp]
      | none =>
        rw [spliceText_of_openNow e c tmp hopen hp]
        split_ifs with g1 g2 g3 g4
        · exact ⟨_, rfl, h⟩
        · exact ⟨_, rfl, h⟩
        · exact ⟨_, rfl, h⟩
        · exact ⟨_, rfl, h⟩
        · have hrange : tmp.Start + tmp.Len ≤ (decodeRunes c.post.body).length := by
            have := h.2.2.1
            omega
          rw [spliceBody_eq e c (reqOf tmp) (decodeRunes c.post.body) (decodeRunes_valid _)
            (body_eq_encodeRunes _ h.1) h.2.2.1 hrange (show tmp.Start ≤ MaxLenBody by omega)]
          have hs := spliced_inv c (reqOf tmp) h (decodeRunes_valid _) g4 hrange
            (show tmp.Start ≤ MaxLenBody by omega)
          split_ifs
          · exact ⟨_, rfl, hs⟩
          · refine ⟨_, rfl, ?_⟩
            rw [updateBody_post]; exact hs
  · refine ⟨(c', if err.isSome then err else none), ?_, ?_⟩
    · unfold spliceText; rw [hh]
      cases err <;> simp
    · rcases hc' with hc' | hc'
      · show postInv c'.post
        rw [hc']; exact h
      · show postInv c'.post
        rw [hc']; exact postInv_zero

/-- C10: if the open post satisfies the invariant (body valid UTF-8 and NUL-free,
`len` equal to the rune count of the body, `len <= MaxLenBody`), it satisfies it
after every call of `appendRune`, `backspace` and `spliceText`, for every payload
and whether the call returns an error or not; `spliceText` does not panic. -/
theorem C10_length_invariant (e : Env) (c : Client) (h : postInv c.post) :
    (∀ data, postInv (appendRune e c data).1.post)
      ∧ postInv (backspace e c).1.post
      ∧ (∀ data, ∃ r, spliceText e c data = some r ∧ postInv r.1.post) :=
  ⟨fun data => appendRune_inv e c data h, backspace_inv e c h,
    fun data => spliceText_inv e c data h⟩

/-- C10, witness: the post with body `αΒΓΔ`. -/
theorem C10_length_invariant_witness :
    (∀ data, postInv (appendRune (quietEnv 1000) (clientWith greekBody 4 0 1000) data).1.post)
      ∧ postInv (backspace (quietEnv 1000) (clientWith greekBody 4 0 1000)).1.post
      ∧ (∀ data, ∃ r, spliceText (quietEnv 1000) (clientWith greekBody 4 0 1000) data = some r
          ∧ postInv r.1.post) :=
  C10_length_invariant (quietEnv 1000) (clientWith greekBody 4 0 1000) (by decide)

/-- C11, at the failing inputs. On a post with 100 newlines and `lines = 100`:
`appendRune` with a newline is rejected with `errTooManyLines` and leaves
`lines = 101`; `spliceText` with `(0, 0, "\n")` is rejected with
`errTooManyLines` and leaves a body of 101 newlines in memory with `lines = 101`,
and a following `appendRune` of the letter `a` writes a body of 101 newlines to
the store. -/
theorem C11_line_count_after_rejected_edit :
    (appendRune (quietEnv 1000) hundredLinesClient (some 10)).2 = some Err.errTooManyLines
      ∧ (appendRune (quietEnv 1000) hundredLinesClient (some 10)).1.post.lines = 101
      ∧ (∃ c1, spliceText (quietEnv 1000) hundredLinesClient (some ⟨0, 0, [10]⟩)
            = some (c1, some Err.errTooManyLines)
          ∧ c1.post.lines = 101
          ∧ countLines c1.post.body = 101
          ∧ (appendRune (quietEnv 1000) c1 (some 97)).2 = none
          ∧ ∃ body, Effect.dbSetOpenBody 2 body
                ∈ (appendRune (quietEnv 1000) c1 (some 97)).1.trace
              ∧ countLines body = 101) := by
  refine ⟨by decide!, by decide!, ?_⟩
  refine ⟨clientWith (List.replicate 101 10) 101 101 1000, by decide!, by decide!, by decide!,
    by decide!, List.replicate 101 10 ++ [97], by decide!, by decide!⟩

/-- C12, at the failing inputs. On a post with 100 newlines and `lines = 100` the
guard error `errTooManyLines` is returned by `appendRune` with a newline, which
has changed `lines`, and by `spliceText` with `(0, 0, "\n")`, which has changed
the body, `len` and `lines`; neither call has sent anything to the feed or the
store. -/
theorem C12_rejected_edit_changes_post :
    appendRune (quietEnv 1000) hundredLinesClient (some 10)
        = ({ hundredLinesClient with
              post := { hundredLinesClient.post with lines := 101 } },
            some Err.errTooManyLines)
      ∧ spliceText (quietEnv 1000) hundredLinesClient (some ⟨0, 0, [10]⟩)
        = some ({ hundredLinesClient with
              post := { hundredLinesClient.post with
                body := List.replicate 101 10, len := 101, lines := 101 } },
            some Err.errTooManyLines)
      ∧ (appendRune (quietEnv 1000) hundredLinesClient (some 10)).1.post
          ≠ hundredLinesClient.post
      ∧ (appendRune (quietEnv 1000) hundredLinesClient (some 10)).1.trace
          = hundredLinesClient.trace := by
  refine ⟨by decide!, by decide!, by decide!, by decide!⟩

theorem hasPost_no_post (e : Env) (c : Client) (h : c.post.id = 0) :
    hasPost e c = (c, false, some Err.errNoPostOpen) := by
  unfold hasPost; rw [if_pos h]

theorem appendRune_no_post (e : Env) (c : Client) (data : Option Int) (h : c.post.id = 0) :
    appendRune e c data = (c, some Err.errNoPostOpen) := by
  unfold appendRune; rw [hasPost_no_post e c h]; rfl

theorem backspace_no_post (e : Env) (c : Client) (h : c.post.id = 0) :
    backspace e c = (c, some Err.errNoPostOpen) := by
  unfold backspace; rw [hasPost_no_post e c h]; rfl

theorem spliceText_no_post (e : Env) (c : Client) (data : Option spliceRequestString)
    (h : c.post.id = 0) : spliceText e c data = some (c, some Err.errNoPostOpen) := by
  unfold spliceText; rw [hasPost_no_post e c h]; rfl

theorem insertImage_no_post (e : Env) (ie : ImageEnv) (c : Client)
    (data : Option ImageRequest) (h : c.post.id = 0) :
    insertImage e ie c data = (c, some Err.errNoPostOpen) := by
  unfold insertImage; rw [hasPost_no_post e c h]; rfl

theorem spoilerImage_no_post (e : Env) (ie : ImageEnv) (c : Client) (h : c.post.id = 0) :
    spoilerImage e ie c = (c, some Err.errNoPostOpen) := by
  unfold spoilerImage; rw [hasPost_no_post e c h]; rfl

theorem closePost_no_post (e : Env) (c : Client) (h : c.post.id = 0) :
    closePost e c = (c, some Err.errNoPostOpen) := by
  unfold closePost; rw [if_pos h]

/-- `CheckRouletteBan` only appends to the trace. -/
theorem CheckRouletteBan_trace (e : Env) (commands : List Command) (board : String)
    (thread id : Nat) : ∀ c : Client, ∃ rest,
      (CheckRouletteBan e c commands board thread id).1
        = { c with trace := c.trace ++ rest } := by
  induction commands with
  | nil => intro c; exact ⟨[], by simp [CheckRouletteBan]⟩
  | cons command rest ih =>
    intro c
    unfold CheckRouletteBan
    by_cases hl : command.Typ = CommandType.Roulette ∧ command.Roulette.1 = 1
    · rw [if_pos hl]
      cases e.Ban board "lost at #roulette" "system" Hour id with
      | some err => exact ⟨[], by simp⟩
      | none =>
        cases e.IncrementRcount thread with
        | some err => exact ⟨[Effect.dbBan board "lost at #roulette" "system" Hour id], rfl⟩
        | none =>
          exact ⟨[Effect.dbBan board "lost at #roulette" "system" Hour id,
            Effect.dbIncrementRcount thread], by simp⟩
    · rw [if_neg hl]; exact ih c

/-- The steps of `closePost` on an open post, in terms of `parsedBody`. -/
theorem closePost_of_open (e : Env) (c : Client) (h : c.post.id ≠ 0) :
    closePost e c =
      match parsedBody e c with
      | .error err => (c, some err)
      | .ok (links, com) =>
        match e.ClosePost c.post.id c.post.op c.post.body links com with
        | some err => (c, some err)
        | none =>
          ({ (CheckRouletteBan e
                { c with trace := c.trace ++
                  [Effect.dbClosePost c.post.id c.post.op c.post.body links com] }
                com c.post.board c.post.op c.post.id).1 with post := openPost.zero },
            (CheckRouletteBan e
                { c with trace := c.trace ++
                  [Effect.dbClosePost c.post.id c.post.op c.post.body links com] }
                com c.post.board c.post.op c.post.id).2) := by
  unfold closePost parsedBody
  rw [if_neg h]

/-- C13: `closePost` returns `errNoPostOpen` when no post is open; when it returns
no error it has written the final body with the parsed links and commands to the
store and has reset the open post to the zero value, after which `appendRune`,
`backspace`, `spliceText`, `insertImage`, `spoilerImage` and `closePost` return
`errNoPostOpen` and change nothing. -/
theorem C13_closePost_resets_post (e : Env) (c c' : Client) :
    (c.post.id = 0 → closePost e c = (c, some Err.errNoPostOpen))
      ∧ (closePost e c = (c', none) →
          c'.post = openPost.zero
          ∧ (∃ links com rest, parsedBody e c = .ok (links, com)
              ∧ c' = { c with
                  post := openPost.zero,
                  trace := c.trace ++
                    Effect.dbClosePost c.post.id c.post.op c.post.body links com :: rest })
          ∧ ∀ (e' : Env) (ie : ImageEnv),
              (∀ data, appendRune e' c' data = (c', some Err.errNoPostOpen))
              ∧ backspace e' c' = (c', some Err.errNoPostOpen)
              ∧ (∀ data, spliceText e' c' data = some (c', some Err.errNoPostOpen))
              ∧ (∀ data, insertImage e' ie c' data = (c', some Err.errNoPostOpen))
              ∧ spoilerImage e' ie c' = (c', some Err.errNoPostOpen)
              ∧ closePost e' c' = (c', some Err.errNoPostOpen)) := by
  refine ⟨closePost_no_post e c, fun hs => ?_⟩
  have hid : c.post.id ≠ 0 := by
    intro h0
    rw [closePost_no_post e c h0] at hs
    simp at hs
  rw [closePost_of_open e c hid] at hs
  cases hp : parsedBody e c with
  | error err => rw [hp] at hs; simp at hs
  | ok p =>
    obtain ⟨links, com⟩ := p
    rw [hp] at hs
    simp only [] at hs
    cases hc : e.ClosePost c.post.id c.post.op c.post.body links com with
    | some err => rw [hc] at hs; simp at hs
    | none =>
      rw [hc] at hs
      simp only [] at hs
      obtain ⟨rest, hr⟩ := CheckRouletteBan_trace e com c.post.board c.post.op c.post.id
        { c with trace := c.trace ++
          [Effect.dbClosePost c.post.id c.post.op c.post.body links com] }
      rw [hr] at hs
      have hc' : c' = { c with
          post := openPost.zero,
          trace := c.trace ++
            Effect.dbClosePost c.post.id c.post.op c.post.body links com :: rest } := by
        have := (Prod.mk.inj hs).1
        rw [← this]
        simp
      have hz : c'.post = openPost.zero := by rw [hc']
      have hid' : c'.post.id = 0 := by rw [hz]; rfl
      exact ⟨hz, ⟨links, com, rest, rfl, hc'⟩, fun e' ie =>
        ⟨fun data => appendRune_no_post e' c' data hid', backspace_no_post e' c' hid',
          fun data => spliceText_no_post e' c' data hid',
          fun data => insertImage_no_post e' ie c' data hid',
          spoilerImage_no_post e' ie c' hid', closePost_no_post e' c' hid'⟩⟩

/-- C13, witness: closing the post `abc`. -/
theorem C13_closePost_resets_post_witness :
    abcClosed.post = openPost.zero
      ∧ (∃ links com rest, parsedBody (quietEnv 1000) (clientWith [97, 98, 99] 3 0 1000)
            = .ok (links, com)
          ∧ abcClosed = { clientWith [97, 98, 99] 3 0 1000 with
              post := openPost.zero,
              trace := (clientWith [97, 98, 99] 3 0 1000).trace ++
                Effect.dbClosePost 2 1 [97, 98, 99] links com :: rest })
      ∧ ∀ (e' : Env) (ie : ImageEnv),
          (∀ data, appendRune e' abcClosed data = (abcClosed, some Err.errNoPostOpen))
          ∧ backspace e' abcClosed = (abcClosed, some Err.errNoPostOpen)
          ∧ (∀ data, spliceText e' abcClosed data = some (abcClosed, some Err.errNoPostOpen))
          ∧ (∀ data, insertImage e' ie abcClosed data = (abcClosed, some Err.errNoPostOpen))
          ∧ spoilerImage e' ie abcClosed = (abcClosed, some Err.errNoPostOpen)
          ∧ closePost e' abcClosed = (abcClosed, some Err.errNoPostOpen) :=
  (C13_closePost_resets_post (quietEnv 1000) (clientWith [97, 98, 99] 3 0 1000) abcClosed).2
    (by decide)

/-- C14: `hasPost` returns `(false, errNoPostOpen)` when no post is open; for an
open post created at time `t` it returns `(true, nil)` and leaves the client
unchanged exactly when `t >= now - 29 minutes`; when `t < now - 29 minutes` it
returns the client as `closePost` leaves it, the flag false and the error of
`closePost`. -/
theorem C14_hasPost_auto_close (e : Env) (c : Client) :
    (c.post.id = 0 → hasPost e c = (c, false, some Err.errNoPostOpen))
      ∧ (c.post.id ≠ 0 → c.post.time ≥ e.now - 29 * 60 → hasPost e c = (c, true, none))
      ∧ (c.post.id ≠ 0 → (hasPost e c).2.1 = true → c.post.time ≥ e.now - 29 * 60)
      ∧ (c.post.id ≠ 0 → c.post.time < e.now - 29 * 60 →
          hasPost e c = ((closePost e c).1, false, (closePost e c).2)) := by
  refine ⟨hasPost_no_post e c, fun h0 ht => ?_, fun h0 hh => ?_, fun h0 ht => ?_⟩
  · unfold hasPost; rw [if_neg h0, if_neg (by omega)]
  · by_contra hlt
    unfold hasPost at hh
    rw [if_neg h0, if_pos (by omega)] at hh
    simp at hh
  · unfold hasPost; rw [if_neg h0, if_pos ht]

/-- C14, witness: a post created 30 minutes before the call is closed and `hasPost`
reports false with no error; a post created 29 minutes before is kept. -/
theorem C14_hasPost_auto_close_witness :
    hasPost (quietEnv 2800) (clientWith [97, 98, 99] 3 0 1000)
        = ({ clientWith [] 0 0 0 with
              post := openPost.zero,
              trace := [Effect.dbClosePost 2 1 [97, 98, 99] [] []] }, false, none)
      ∧ hasPost (quietEnv 2740) (clientWith [97, 98, 99] 3 0 1000)
        = (clientWith [97, 98, 99] 3 0 1000, true, none) :=
  ⟨(C14_hasPost_auto_close (quietEnv 2800) (clientWith [97, 98, 99] 3 0 1000)).2.2.2
      (by decide) (by decide),
   (C14_hasPost_auto_close (quietEnv 2740) (clientWith [97, 98, 99] 3 0 1000)).2.1
      (by decide) (by decide)⟩

theorem CheckRouletteBan_none (e : Env) (commands : List Command) (board : String)
    (thread id : Nat) (c : Client) (h : ¬ ∃ command ∈ commands, losingRoulette command) :
    CheckRouletteBan e c commands board thread id = (c, none) := by
  induction commands with
  | nil => rfl
  | cons command rest ih =>
    unfold CheckRouletteBan
    have h1 : ¬ (command.Typ = CommandType.Roulette ∧ command.Roulette.1 = 1) :=
      fun hl => h ⟨command, List.mem_cons_self _ _, hl⟩
    rw [if_neg h1]
    exact ih (fun ⟨x, hx, hl⟩ => h ⟨x, List.mem_cons_of_mem _ hx, hl⟩)

/-- With a losing `#roulette` in the list, `CheckRouletteBan` is the ban followed
by the increment, whatever the other commands. -/
theorem CheckRouletteBan_some (e : Env) (commands : List Command) (board : String)
    (thread id : Nat) (c : Client) (h : ∃ command ∈ commands, losingRoulette command) :
    CheckRouletteBan e c commands board thread id =
      match e.Ban board "lost at #roulette" "system" Hour id with
      | some err => (c, some err)
      | none =>
        match e.IncrementRcount thread with
        | some err =>
          ({ c with trace := c.trace ++
              [Effect.dbBan board "lost at #roulette" "system" Hour id] }, some err)
        | none =>
          ({ c with trace := c.trace ++
              [Effect.dbBan board "lost at #roulette" "system" Hour id,
               Effect.dbIncrementRcount thread] }, none) := by
  induction commands with
  | nil => obtain ⟨x, hx, _⟩ := h; simp at hx
  | cons command rest ih =>
    unfold CheckRouletteBan
    by_cases hl : command.Typ = CommandType.Roulette ∧ command.Roulette.1 = 1
    · rw [if_pos hl]
      cases e.Ban board "lost at #roulette" "system" Hour id with
      | some err => rfl
      | none =>
        cases e.IncrementRcount thread with
        | some err => rfl
        | none => simp
    · rw [if_neg hl]
      apply ih
      obtain ⟨x, hx, hxl⟩ := h
      rcases List.mem_cons.mp hx with hx | hx
      · subst hx; exact absurd hxl hl
      · exact ⟨x, hx, hxl⟩

/-- C15: if the command list contains a `Roulette` command whose first value is 1
and the store accepts the calls, `CheckRouletteBan` issues one ban (the board, the
reason `lost at #roulette`, issued by `system`, one hour, the post id) followed by
one increment of the thread's rcount and returns no error, however many losing
commands there are; if the list contains no such command it does nothing. -/
theorem C15_roulette_ban (e : Env) (c : Client) (commands : List Command) (board : String)
    (thread id : Nat) :
    ((∃ command ∈ commands, losingRoulette command) →
        e.Ban board "lost at #roulette" "system" Hour id = none →
        e.IncrementRcount thread = none →
        CheckRouletteBan e c commands board thread id =
          ({ c with trace := c.trace ++
              [Effect.dbBan board "lost at #roulette" "system" Hour id,
               Effect.dbIncrementRcount thread] }, none))
      ∧ ((¬ ∃ command ∈ commands, losingRoulette command) →
        CheckRouletteBan e c commands board thread id = (c, none))
      ∧ Hour = 60 * 60 * 1000000000 := by
  refine ⟨fun h hb hi => ?_, fun h => CheckRouletteBan_none e commands board thread id c h, rfl⟩
  rw [CheckRouletteBan_some e commands board thread id c h, hb, hi]

/-- C15, witness: the command list `[{Roulette, [1,6]}]`, and a list with two losing
commands, give one ban and one increment. -/
theorem C15_roulette_ban_witness :
    CheckRouletteBan (quietEnv 1000) rouletteClient [⟨CommandType.Roulette, (1, 6)⟩] "a" 1 2 =
        ({ rouletteClient with trace :=
            [Effect.dbBan "a" "lost at #roulette" "system" Hour 2,
             Effect.dbIncrementRcount 1] }, none)
      ∧ CheckRouletteBan (quietEnv 1000) rouletteClient
          [⟨CommandType.Roulette, (1, 6)⟩, ⟨CommandType.Flip, (0, 0)⟩,
           ⟨CommandType.Roulette, (1, 5)⟩] "a" 1 2 =
        ({ rouletteClient with trace :=
            [Effect.dbBan "a" "lost at #roulette" "system" Hour 2,
             Effect.dbIncrementRcount 1] }, none) :=
  ⟨(C15_roulette_ban (quietEnv 1000) rouletteClient [⟨CommandType.Roulette, (1, 6)⟩] "a" 1 2).1
      (by decide) (by decide) (by decide),
   (C15_roulette_ban (quietEnv 1000) rouletteClient
      [⟨CommandType.Roulette, (1, 6)⟩, ⟨CommandType.Flip, (0, 0)⟩,
       ⟨CommandType.Roulette, (1, 5)⟩] "a" 1 2).1 (by decide) (by decide) (by decide)⟩

/-- C16 fails as stated: when the store rejects the ban, `closePost` on a post with
a losing `#roulette` returns the error, yet the close has been written to the
store; nothing is rolled back. -/
theorem C16_close_persisted_when_ban_fails_counterexample :
    closePost (banFailsEnv 1000 [⟨CommandType.Roulette, (1, 6)⟩]) rouletteClient
      = ({ rouletteClient with
            post := openPost.zero,
            trace := [Effect.dbClosePost 2 1 rouletteClient.post.body []
              [⟨CommandType.Roulette, (1, 6)⟩]] },
          some (Err.store 1)) := by
  decide

/-- C16, amended: on an open post whose parsed commands contain a losing
`#roulette`, `closePost` makes three separate store calls in the order close, ban,
increment, each only if the previous one was accepted. If the close is rejected
nothing is written; if the ban is rejected the close stays written; if the
increment is rejected the close and the ban stay written; all three are written
exactly when no call is rejected, and then `closePost` returns no error. -/
theorem C16_close_ban_increment_in_order (e : Env) (c : Client) (links : List Link)
    (com : List Command) (hid : c.post.id ≠ 0) (hp : parsedBody e c = .ok (links, com))
    (hl : ∃ command ∈ com, losingRoulette command) :
    (∀ err, e.ClosePost c.post.id c.post.op c.post.body links com = some err →
        closePost e c = (c, some err))
      ∧ (e.ClosePost c.post.id c.post.op c.post.body links com = none →
          ∀ err, e.Ban c.post.board "lost at #roulette" "system" Hour c.post.id = some err →
            closePost e c = ({ c with post := openPost.zero, trace := c.trace ++
                [Effect.dbClosePost c.post.id c.post.op c.post.body links com] }, some err))
      ∧ (e.ClosePost c.post.id c.post.op c.post.body links com = none →
          e.Ban c.post.board "lost at #roulette" "system" Hour c.post.id = none →
          ∀ err, e.IncrementRcount c.post.op = some err →
            closePost e c = ({ c with post := openPost.zero, trace := c.trace ++
                [Effect.dbClosePost c.post.id c.post.op c.post.body links com,
                 Effect.dbBan c.post.board "lost at #roulette" "system" Hour c.post.id] },
              some err))
      ∧ (e.ClosePost c.post.id c.post.op c.post.body links com = none →
          e.Ban c.post.board "lost at #roulette" "system" Hour c.post.id = none →
          e.IncrementRcount c.post.op = none →
            closePost e c = ({ c with post := openPost.zero, trace := c.trace ++
                [Effect.dbClosePost c.post.id c.post.op c.post.body links com,
                 Effect.dbBan c.post.board "lost at #roulette" "system" Hour c.post.id,
                 Effect.dbIncrementRcount c.post.op] }, none)) := by
  rw [closePost_of_open e c hid, hp]
  simp only []
  refine ⟨fun err h => by rw [h], fun h err hb => ?_, fun h hb err hi => ?_, fun h hb hi => ?_⟩
  · rw [h]; simp only []
    rw [CheckRouletteBan_some e com c.post.board c.post.op c.post.id _ hl, hb]
  · rw [h]; simp only []
    rw [CheckRouletteBan_some e com c.post.board c.post.op c.post.id _ hl, hb, hi]
    simp
  · rw [h]; simp only []
    rw [CheckRouletteBan_some e com c.post.board c.post.op c.post.id _ hl, hb, hi]
    simp

/-- C16, amended, witness: the post `#roulette` with the command `{Roulette, [1,6]}`,
once with a store that rejects the ban and once with a store that accepts
everything. -/
theorem C16_close_ban_increment_in_order_witness :
    closePost (banFailsEnv 1000 [⟨CommandType.Roulette, (1, 6)⟩]) rouletteClient
        = ({ rouletteClient with post := openPost.zero, trace := rouletteClient.trace ++
              [Effect.dbClosePost 2 1 rouletteClient.post.body []
                [⟨CommandType.Roulette, (1, 6)⟩]] }, some (Err.store 1))
      ∧ closePost (commandEnv 1000 [⟨CommandType.Roulette, (1, 6)⟩]) rouletteClient
        = ({ rouletteClient with post := openPost.zero, trace := rouletteClient.trace ++
              [Effect.dbClosePost 2 1 rouletteClient.post.body []
                [⟨CommandType.Roulette, (1, 6)⟩],
               Effect.dbBan "a" "lost at #roulette" "system" Hour 2,
               Effect.dbIncrementRcount 1] }, none) :=
  ⟨(C16_close_ban_increment_in_order (banFailsEnv 1000 [⟨CommandType.Roulette, (1, 6)⟩])
      rouletteClient [] [⟨CommandType.Roulette, (1, 6)⟩] (by decide) rfl
      (by decide)).2.1 (by decide) (Err.store 1) (by decide),
   (C16_close_ban_increment_in_order (commandEnv 1000 [⟨CommandType.Roulette, (1, 6)⟩])
      rouletteClient [] [⟨CommandType.Roulette, (1, 6)⟩] (by decide) rfl
      (by decide)).2.2.2 (by decide) (by decide) (by decide)⟩

/-- The steps of `insertImage` once `hasPost` has found an open post. -/
theorem insertImage_of_openNow (e : Env) (ie : ImageEnv) (c : Client)
    (data : Option ImageRequest) (h : openNow e c) :
    insertImage e ie c data =
      if c.post.hasImage then (c, some Err.errHasImage)
      else
        match data with
        | none => (c, some (Err.json 0))
        | some req =>
          if ie.TextOnly c.post.board then (c, some Err.errTextOnly)
          else
            match ie.formatImageName req.Name with
            | .error err => (c, some err)
            | .ok name =>
              match ie.InsertImage c.post.id req.Token name req.Spoiler with
              | .error err => (c, some err)
              | .ok msg => (withImage c req name msg, none) := by
  unfold insertImage
  rw [hasPost_of_openNow e c h]
  rfl

/-- When `hasPost` finds no usable post, `insertImage` returns an error. -/
theorem insertImage_not_openNow (e : Env) (ie : ImageEnv) (c : Client)
    (data : Option ImageRequest) (h : ¬ openNow e c) :
    (insertImage e ie c data).2 ≠ none := by
  rcases hasPost_cases e c with ⟨h1, _⟩ | ⟨c1, err, h1, _⟩
  · exact absurd h1 h
  · unfold insertImage
    rw [h1]
    cases err with
    | none => simp
    | some x => simp

/-- The steps of `spoilerImage` once `hasPost` has found an open post. -/
theorem spoilerImage_of_openNow (e : Env) (ie : ImageEnv) (c : Client) (h : openNow e c) :
    spoilerImage e ie c =
      if !c.post.hasImage then (c, some (Err.text "post does not have an image"))
      else if c.post.isSpoilered then (c, some (Err.text "already spoilered"))
      else
        match ie.SpoilerImage c.post.id c.post.op with
        | some err => (c, some err)
        | none => (withSpoiler c, none) := by
  unfold spoilerImage
  rw [hasPost_of_openNow e c h]
  rfl

/-- C17: `insertImage` returns `errNoPostOpen` when no post is open; on an open
post that has an image it returns `errHasImage` for every payload, decodable or
not; on an open post without image on a text-only board a decodable payload gives
`errTextOnly`. Whenever it returns an error on such a client, the client (its
`hasImage`, `isSpoilered` and the effects) is unchanged. It succeeds exactly when
the post is open, has no image, the payload decodes, the board is not text-only
and the name formatter and the store accept; then `hasImage` is true,
`isSpoilered` is the spoiler flag of the request and the image is written to the
store and handed to the feed. -/
theorem C17_insertImage_guards (e : Env) (ie : ImageEnv) (c : Client)
    (data : Option ImageRequest) :
    (c.post.id = 0 → insertImage e ie c data = (c, some Err.errNoPostOpen))
      ∧ (openNow e c → c.post.hasImage = true →
          insertImage e ie c data = (c, some Err.errHasImage))
      ∧ (openNow e c → c.post.hasImage = false → ∀ req, data = some req →
          ie.TextOnly c.post.board = true →
          insertImage e ie c data = (c, some Err.errTextOnly))
      ∧ ((c.post.id = 0 ∨ openNow e c) → (insertImage e ie c data).2 ≠ none →
          (insertImage e ie c data).1 = c)
      ∧ ((insertImage e ie c data).2 = none →
          openNow e c ∧ c.post.hasImage = false ∧ ie.TextOnly c.post.board = false
            ∧ ∃ req name msg, data = some req ∧ ie.formatImageName req.Name = .ok name
              ∧ ie.InsertImage c.post.id req.Token name req.Spoiler = .ok msg
              ∧ (insertImage e ie c data).1 = withImage c req name msg
              ∧ (insertImage e ie c data).1.post.hasImage = true
              ∧ (insertImage e ie c data).1.post.isSpoilered = req.Spoiler)
      ∧ (openNow e c → c.post.hasImage = false → ie.TextOnly c.post.board = false →
          ∀ req name msg, data = some req → ie.formatImageName req.Name = .ok name →
            ie.InsertImage c.post.id req.Token name req.Spoiler = .ok msg →
            insertImage e ie c data = (withImage c req name msg, none)) := by
  refine ⟨insertImage_no_post e ie c data, fun h hi => ?_, fun h hi req hd ht => ?_,
    fun h hne => ?_, fun hn => ?_, fun h hi ht req name msg hd hf hs => ?_⟩
  · rw [insertImage_of_openNow e ie c data h, hi]; rfl
  · rw [insertImage_of_openNow e ie c data h, hi, hd]
    simp only [Bool.false_eq_true, if_false]
    rw [ht]; rfl
  · rcases h with h | h
    · rw [insertImage_no_post e ie c data h]
    · rw [insertImage_of_openNow e ie c data h] at hne ⊢
      cases hi : c.post.hasImage with
      | true => simp
      | false =>
        rw [hi] at hne
        simp only [Bool.false_eq_true, if_false] at hne ⊢
        cases data with
        | none => rfl
        | some req =>
          simp only [] at hne ⊢
          cases ht : ie.TextOnly c.post.board with
          | true => simp
          | false =>
            rw [ht] at hne
            simp only [Bool.false_eq_true, if_false] at hne ⊢
            cases hf : ie.formatImageName req.Name with
            | error err => rfl
            | ok name =>
              rw [hf] at hne
              simp only [] at hne ⊢
              cases hs : ie.InsertImage c.post.id req.Token name req.Spoiler with
              | error err => rfl
              | ok msg => rw [hs] at hne; simp at hne
  · have h : openNow e c := by
      by_contra hno
      exact insertImage_not_openNow e ie c data hno hn
    rw [insertImage_of_openNow e ie c data h] at hn ⊢
    cases hi : c.post.hasImage with
    | true => rw [hi] at hn; simp at hn
    | false =>
      rw [hi] at hn
      simp only [Bool.false_eq_true, if_false] at hn ⊢
      cases data with
      | none => simp at hn
      | some req =>
        simp only [] at hn ⊢
        cases ht : ie.TextOnly c.post.board with
        | true => rw [ht] at hn; simp at hn
        | false =>
          rw [ht] at hn
          simp only [Bool.false_eq_true, if_false] at hn ⊢
          cases hf : ie.formatImageName req.Name with
          | error err => rw [hf] at hn; simp at hn
          | ok name =>
            rw [hf] at hn
            simp only [] at hn ⊢
            cases hs : ie.InsertImage c.post.id req.Token name req.Spoiler with
            | error err => rw [hs] at hn; simp at hn
            | ok msg =>
              exact ⟨h, trivial, trivial, req, name, msg, rfl, hf, hs, rfl, rfl, rfl⟩
  · rw [insertImage_of_openNow e ie c data h, hi, hd]
    simp only [Bool.false_eq_true, if_false]
    rw [ht]
    simp only [Bool.false_eq_true, if_false]
    rw [hf]
    simp only []
    rw [hs]

/-- C17, witness: a post with an image rejects an undecodable payload with
`errHasImage`; a text-only board rejects a request with `errTextOnly`; a spoilered
request on a post without image sets `hasImage` and `isSpoilered`. -/
theorem C17_insertImage_guards_witness :
    insertImage (quietEnv 1000) quietImageEnv imageClient none
        = (imageClient, some Err.errHasImage)
      ∧ insertImage (quietEnv 1000) textOnlyEnv (clientWith [97, 98, 99] 3 0 1000)
          (some fooRequest) = (clientWith [97, 98, 99] 3 0 1000, some Err.errTextOnly)
      ∧ insertImage (quietEnv 1000) quietImageEnv (clientWith [97, 98, 99] 3 0 1000)
          (some fooSpoilerRequest)
        = (withImage (clientWith [97, 98, 99] 3 0 1000) fooSpoilerRequest fooRequest.Name [],
            none) :=
  ⟨(C17_insertImage_guards (quietEnv 1000) quietImageEnv imageClient none).2.1
      (by decide) (by decide),
   (C17_insertImage_guards (quietEnv 1000) textOnlyEnv (clientWith [97, 98, 99] 3 0 1000)
      (some fooRequest)).2.2.1 (by decide) (by decide) fooRequest rfl (by decide),
   (C17_insertImage_guards (quietEnv 1000) quietImageEnv (clientWith [97, 98, 99] 3 0 1000)
      (some fooSpoilerRequest)).2.2.2.2.2 (by decide) (by decide) (by decide)
      fooSpoilerRequest fooRequest.Name [] rfl rfl rfl⟩

/-- C18: on an open post that has an image which is not spoilered,
a `spoilerImage` that the store accepts writes the spoiler to the store, hands it
to the feed and leaves the open post as it was, `isSpoilered` still false; a
second `spoilerImage` therefore succeeds as well and the spoiler is written and
broadcast a second time. -/
theorem C18_spoilerImage_keeps_flag (e : Env) (ie : ImageEnv) (c : Client)
    (h : openNow e c) (hi : c.post.hasImage = true) (hs : c.post.isSpoilered = false)
    (hdb : ie.SpoilerImage c.post.id c.post.op = none) :
    spoilerImage e ie c = (withSpoiler c, none)
      ∧ (spoilerImage e ie c).1.post = c.post
      ∧ (spoilerImage e ie c).1.post.isSpoilered = false
      ∧ spoilerImage e ie (spoilerImage e ie c).1 = (withSpoiler (withSpoiler c), none)
      ∧ (withSpoiler (withSpoiler c)).trace = c.trace ++
          [Effect.dbSpoilerImage c.post.id c.post.op,
           Effect.feedSpoilerImage c.post.id (Msg.MessageSpoiler c.post.id),
           Effect.dbSpoilerImage c.post.id c.post.op,
           Effect.feedSpoilerImage c.post.id (Msg.MessageSpoiler c.post.id)] := by
  have step : ∀ c1 : Client, openNow e c1 → c1.post.hasImage = true →
      c1.post.isSpoilered = false → ie.SpoilerImage c1.post.id c1.post.op = none →
      spoilerImage e ie c1 = (withSpoiler c1, none) := by
    intro c1 h1 h2 h3 h4
    rw [spoilerImage_of_openNow e ie c1 h1, h2, h3, h4]
    rfl
  have h1 := step c h hi hs hdb
  refine ⟨h1, by rw [h1]; rfl, by rw [h1]; exact hs, ?_, by simp [withSpoiler]⟩
  rw [h1]
  exact step (withSpoiler c) h hi hs hdb

/-- C18, witness: two `spoilerImage` calls in a row on the post with an image both
return no error. -/
theorem C18_spoilerImage_keeps_flag_witness :
    spoilerImage (quietEnv 1000) quietImageEnv imageClient = (withSpoiler imageClient, none)
      ∧ (spoilerImage (quietEnv 1000) quietImageEnv imageClient).1.post = imageClient.post
      ∧ (spoilerImage (quietEnv 1000) quietImageEnv imageClient).1.post.isSpoilered = false
      ∧ spoilerImage (quietEnv 1000) quietImageEnv
          (spoilerImage (quietEnv 1000) quietImageEnv imageClient).1
        = (withSpoiler (withSpoiler imageClient), none)
      ∧ (withSpoiler (withSpoiler imageClient)).trace = imageClient.trace ++
          [Effect.dbSpoilerImage 2 1, Effect.feedSpoilerImage 2 (Msg.MessageSpoiler 2),
           Effect.dbSpoilerImage 2 1, Effect.feedSpoilerImage 2 (Msg.MessageSpoiler 2)] :=
  C18_spoilerImage_keeps_flag (quietEnv 1000) quietImageEnv imageClient
    (by decide) (by decide) (by decide) (by decide)

theorem runHandler_no_handler (mt : MessageTypes) (typ : Nat) (msg : List Nat)
    (h : ¬ hasHandler mt typ) :
    runHandler mt typ msg = Handled.failed (Err.errInvalidPayload msg) := by
  unfold hasHandler at h
  simp only [not_or] at h
  obtain ⟨h1, h2, h3, h4, h5, h6, h7, h8, h9, h10, h11⟩ := h
  unfold runHandler
  simp only []
  rw [if_neg h1, if_neg h2, if_neg h3, if_neg h4, if_neg h5, if_neg h6, if_neg h7, if_neg h8,
    if_neg h9, if_neg h10, if_neg h11]

theorem runHandler_handler (mt : MessageTypes) (typ : Nat) (msg : List Nat)
    (h : hasHandler mt typ) : ∃ f, runHandler mt typ msg = Handled.run f (msg.drop 2) := by
  unfold runHandler
  simp only []
  by_cases h1 : typ = mt.MessageSynchronise
  · rw [if_pos h1]; exact ⟨_, rfl⟩
  rw [if_neg h1]
  by_cases h2 : typ = mt.MessageReclaim
  · rw [if_pos h2]; exact ⟨_, rfl⟩
  rw [if_neg h2]
  by_cases h3 : typ = mt.MessageAppend
  · rw [if_pos h3]; exact ⟨_, rfl⟩
  rw [if_neg h3]
  by_cases h4 : typ = mt.MessageBackspace
  · rw [if_pos h4]; exact ⟨_, rfl⟩
  rw [if_neg h4]
  by_cases h5 : typ = mt.MessageClosePost
  · rw [if_pos h5]; exact ⟨_, rfl⟩
  rw [if_neg h5]
  by_cases h6 : typ = mt.MessageSplice
  · rw [if_pos h6]; exact ⟨_, rfl⟩
  rw [if_neg h6]
  by_cases h7 : typ = mt.MessageInsertPost
  · rw [if_pos h7]; exact ⟨_, rfl⟩
  rw [if_neg h7]
  by_cases h8 : typ = mt.MessageInsertImage
  · rw [if_pos h8]; exact ⟨_, rfl⟩
  rw [if_neg h8]
  by_cases h9 : typ = mt.MessageNOOP
  · rw [if_pos h9]; exact ⟨_, rfl⟩
  rw [if_neg h9]
  by_cases h10 : typ = mt.MessageSpoiler
  · rw [if_pos h10]; exact ⟨_, rfl⟩
  rw [if_neg h10]
  by_cases h11 : typ = mt.MessageMeguTV
  · rw [if_pos h11]; exact ⟨_, rfl⟩
  exfalso
  unfold hasHandler at h
  tauto

/-- The result of `parseType` in terms of the first two bytes. -/
theorem parseType_cons (a b : Nat) (rest : List Nat) :
    parseType (a :: b :: rest) =
      if 48 ≤ a ∧ a ≤ 57 ∧ 48 ≤ b ∧ b ≤ 57 then some ((a - 48) * 10 + (b - 48)) else none :=
  rfl

/-- An admissible frame is one on which `parseType` succeeds with a type that has
a handler and that passes the first-message rule. -/
theorem admissible_iff (mt : MessageTypes) (synced : Bool) (msg : List Nat) :
    admissible mt synced msg ↔
      ∃ typ, parseType msg = some typ ∧ hasHandler mt typ
        ∧ (synced = true ∨ typ = mt.MessageSynchronise) := by
  match msg with
  | [] => simp [admissible, parseType]
  | [a] => simp [admissible, parseType]
  | a :: b :: rest =>
    rw [parseType_cons]
    unfold admissible
    constructor
    · rintro ⟨h1, h2, h3, h4, h5, h6⟩
      exact ⟨_, by rw [if_pos ⟨h1, h2, h3, h4⟩], h5, h6⟩
    · rintro ⟨typ, h1, h2, h3⟩
      by_cases hd : 48 ≤ a ∧ a ≤ 57 ∧ 48 ≤ b ∧ b ≤ 57
      · rw [if_pos hd] at h1
        cases h1
        exact ⟨hd.1, hd.2.1, hd.2.2.1, hd.2.2.2, h2, h3⟩
      · rw [if_neg hd] at h1; cases h1

/-- The steps of `handleMessage` on a text frame, by the result of `parseType`. -/
theorem handleMessage_text (fe : FrameEnv) (c : Client) (msg : List Nat) :
    handleMessage fe c TextMessage msg =
      match parseType msg with
      | none => (c, Handled.failed (Err.errInvalidPayload msg))
      | some typ =>
        if c.gotFirstMessage = true then (c, runHandler fe.types typ msg)
        else if typ ≠ fe.types.MessageSynchronise then
          (c, Handled.failed (Err.errInvalidPayload msg))
        else
          match fe.sendMessage with
          | some err => ({ c with gotFirstMessage := true }, Handled.failed err)
          | none =>
            ({ c with gotFirstMessage := true,
                      trace := c.trace ++ [Effect.send (Msg.MessageServerTime fe.now)] },
              runHandler fe.types typ msg) := by
  unfold handleMessage
  rw [if_neg (by simp)]
  by_cases hl : msg.length < 2
  · rw [if_pos hl]
    match msg, hl with
    | [], _ => rfl
    | [a], _ => rfl
    | a :: b :: rest, hl => exact absurd hl (by simp)
  · rw [if_neg hl]
    cases parseType msg with
    | none => rfl
    | some typ =>
      cases hg : c.gotFirstMessage with
      | true => simp
      | false =>
        simp only [Bool.not_false, if_true, Bool.false_eq_true, if_false]

/-- C19: `handleMessage` runs a handler only if the frame is a text frame of at
least 2 bytes that is admissible (two leading decimal digits naming a type with a
handler; the client has synchronised or the type is Synchronise), and the
handler receives the bytes after the type. A non-text frame gives the error
`only text frames allowed` and leaves the client unchanged; a text frame that is
not admissible gives `errInvalidPayload` carrying the whole message and leaves the
client, `gotFirstMessage` included, unchanged. An admissible text frame does run
a handler, provided the server time can be sent on the first Synchronise. -/
theorem C19_frame_admission (fe : FrameEnv) (c : Client) (msgType : Int) (msg : List Nat) :
    (∀ f data, (handleMessage fe c msgType msg).2 = Handled.run f data →
        msgType = TextMessage ∧ 2 ≤ msg.length
          ∧ admissible fe.types c.gotFirstMessage msg ∧ data = msg.drop 2)
      ∧ (msgType ≠ TextMessage → handleMessage fe c msgType msg
          = (c, Handled.failed (Err.errInvalidFrame "only text frames allowed")))
      ∧ (msgType = TextMessage → ¬ admissible fe.types c.gotFirstMessage msg →
          handleMessage fe c msgType msg = (c, Handled.failed (Err.errInvalidPayload msg)))
      ∧ (msgType = TextMessage → admissible fe.types c.gotFirstMessage msg →
          (c.gotFirstMessage = true ∨ fe.sendMessage = none) →
          ∃ f, (handleMessage fe c msgType msg).2 = Handled.run f (msg.drop 2)) := by
  have hframe : msgType ≠ TextMessage → handleMessage fe c msgType msg
      = (c, Handled.failed (Err.errInvalidFrame "only text frames allowed")) := by
    intro h; unfold handleMessage; rw [if_pos h]
  have hrej : msgType = TextMessage → ¬ admissible fe.types c.gotFirstMessage msg →
      handleMessage fe c msgType msg = (c, Handled.failed (Err.errInvalidPayload msg)) := by
    intro ht hna
    subst ht
    rw [handleMessage_text]
    rw [admissible_iff] at hna
    cases hp : parseType msg with
    | none => rfl
    | some typ =>
      simp only []
      by_cases hh : hasHandler fe.types typ
      · have hns : ¬ (c.gotFirstMessage = true ∨ typ = fe.types.MessageSynchronise) :=
          fun hs => hna ⟨typ, hp, hh, hs⟩
        rw [not_or] at hns
        rw [if_neg hns.1, if_pos hns.2]
      · by_cases hg : c.gotFirstMessage = true
        · rw [if_pos hg, runHandler_no_handler _ _ _ hh]
        · rw [if_neg hg]
          by_cases hs : typ = fe.types.MessageSynchronise
          · exact absurd (Or.inl hs) (by unfold hasHandler at hh; exact hh)
          · rw [if_pos hs]
  refine ⟨fun f data hr => ?_, hframe, hrej, fun ht ha hs => ?_⟩
  · have ht : msgType = TextMessage := by
      by_contra hne
      rw [hframe hne] at hr
      cases hr
    have ha : admissible fe.types c.gotFirstMessage msg := by
      by_contra hna
      rw [hrej ht hna] at hr
      cases hr
    have hlen : 2 ≤ msg.length := by
      match msg, ha with
      | a :: b :: rest, _ => simp
    refine ⟨ht, hlen, ha, ?_⟩
    subst ht
    rw [handleMessage_text] at hr
    obtain ⟨typ, hp, hh, hs⟩ := (admissible_iff _ _ _).mp ha
    obtain ⟨g, hg⟩ := runHandler_handler fe.types typ msg hh
    rw [hp] at hr
    simp only [] at hr
    by_cases hgot : c.gotFirstMessage = true
    · rw [if_pos hgot, hg] at hr
      cases hr; rfl
    · rw [if_neg hgot] at hr
      have hsy : typ = fe.types.MessageSynchronise := by
        rcases hs with hs | hs
        · exact absurd hs hgot
        · exact hs
      rw [if_neg (by simpa using hsy)] at hr
      cases hsend : fe.sendMessage with
      | some err => rw [hsend] at hr; cases hr
      | none =>
        rw [hsend] at hr
        simp only [] at hr
        rw [hg] at hr
        cases hr; rfl
  · subst ht
    rw [handleMessage_text]
    obtain ⟨typ, hp, hh, hsy⟩ := (admissible_iff _ _ _).mp ha
    obtain ⟨g, hg⟩ := runHandler_handler fe.types typ msg hh
    rw [hp]
    simp only []
    by_cases hgot : c.gotFirstMessage = true
    · rw [if_pos hgot]; exact ⟨g, hg⟩
    · rw [if_neg hgot]
      have hsy : typ = fe.types.MessageSynchronise := by
        rcases hsy with hs | hs
        · exact absurd hs hgot
        · exact hs
      rw [if_neg (by simpa using hsy)]
      have hsend : fe.sendMessage = none := by
        rcases hs with hs | hs
        · exact absurd hs hgot
        · exact hs
      rw [hsend]
      exact ⟨g, hg⟩

/-- C19, witness: the frames of `TestHandleMessage`: a binary frame; the text
frames `0`, `nope` and `99no` on a client that has not synchronised, and `99no` on
one that has. -/
theorem C19_frame_admission_witness :
    handleMessage testFrameEnv freshClient BinaryMessage natsutte
        = (freshClient, Handled.failed (Err.errInvalidFrame "only text frames allowed"))
      ∧ handleMessage testFrameEnv freshClient TextMessage [48]
        = (freshClient, Handled.failed (Err.errInvalidPayload [48]))
      ∧ handleMessage testFrameEnv freshClient TextMessage [110, 111, 112, 101]
        = (freshClient, Handled.failed (Err.errInvalidPayload [110, 111, 112, 101]))
      ∧ handleMessage testFrameEnv freshClient TextMessage [57, 57, 110, 111]
        = (freshClient, Handled.failed (Err.errInvalidPayload [57, 57, 110, 111]))
      ∧ handleMessage testFrameEnv { freshClient with gotFirstMessage := true } TextMessage
          [57, 57, 110, 111]
        = ({ freshClient with gotFirstMessage := true },
            Handled.failed (Err.errInvalidPayload [57, 57, 110, 111])) :=
  ⟨(C19_frame_admission testFrameEnv freshClient BinaryMessage natsutte).2.1 (by decide),
   (C19_frame_admission testFrameEnv freshClient TextMessage [48]).2.2.1 rfl (by decide),
   (C19_frame_admission testFrameEnv freshClient TextMessage [110, 111, 112, 101]).2.2.1 rfl
      (by decide),
   (C19_frame_admission testFrameEnv freshClient TextMessage [57, 57, 110, 111]).2.2.1 rfl
      (by decide),
   (C19_frame_admission testFrameEnv { freshClient with gotFirstMessage := true } TextMessage
      [57, 57, 110, 111]).2.2.1 rfl (by decide)⟩

/-- C20: on the channel of a new client, `Close(e1)` leaves `e1` pending twice and
a second `Close(e2)` leaves it pending once, so the listener exits with `e1`; but
the second and the third call each receive one pending signal: after the third
call no signal is pending, the listener does not exit, and a fourth call
`Close(e4)` makes the listener exit with `e4`, not with `e1`. -/
theorem C20_Close_consumes_pending_signal (e1 e2 e3 e4 : Option Err) :
    Close [] e1 = [e1, e1]
      ∧ Close (Close [] e1) e2 = [e1]
      ∧ listenerExit (Close (Close [] e1) e2) = some e1
      ∧ Close (Close (Close [] e1) e2) e3 = []
      ∧ listenerExit (Close (Close (Close [] e1) e2) e3) = none
      ∧ Close (Close (Close (Close [] e1) e2) e3) e4 = [e4, e4]
      ∧ listenerExit (Close (Close (Close (Close [] e1) e2) e3) e4) = some e4 :=
  ⟨rfl, rfl, rfl, rfl, rfl, rfl, rfl⟩

theorem Send_free (size : Nat) (s : Session) (msg : List Nat)
    (h : s.sendExternal.length < size) :
    Send size s msg = { s with sendExternal := s.sendExternal ++ [msg] } := by
  unfold Send; rw [if_pos h]

theorem Send_full (size : Nat) (s : Session) (msg : List Nat)
    (h : ¬ s.sendExternal.length < size) :
    Send size s msg = { s with close := Close s.close overflow } := by
  unfold Send; rw [if_neg h]; rfl

theorem listenerSend_nil (send : List Nat → Option Err) (s : Session)
    (h : s.sendExternal = []) : listenerSend send s = (s, none) := by
  unfold listenerSend; rw [h]

theorem listenerSend_cons (send : List Nat → Option Err) (s : Session) (msg : List Nat)
    (rest : List (List Nat)) (h : s.sendExternal = msg :: rest) :
    listenerSend send s
      = ({ s with sendExternal := rest, written := s.written ++ [msg] }, send msg) := by
  unfold listenerSend; rw [h]

theorem runQueue_write (size : Nat) (send : List Nat → Option Err) (ops : List QueueOp)
    (s : Session) :
    runQueue size send (QueueOp.write :: ops) s =
      match listenerSend send s with
      | (s1, none) => runQueue size send ops s1
      | (s1, some _) => s1 := by
  rw [runQueue]

/-- What has been written followed by what is queued only grows at its end, by
messages of `Send` calls in call order. -/
theorem runQueue_order (size : Nat) (send : List Nat → Option Err) (ops : List QueueOp) :
    ∀ s : Session, ∃ acc, acc.Sublist (sentMessages ops)
      ∧ (runQueue size send ops s).written ++ (runQueue size send ops s).sendExternal
        = s.written ++ s.sendExternal ++ acc := by
  induction ops with
  | nil => intro s; exact ⟨[], List.Sublist.refl _, by simp [runQueue]⟩
  | cons op ops ih =>
    intro s
    cases op with
    | Send msg =>
      obtain ⟨acc, hsub, heq⟩ := ih (Send size s msg)
      by_cases h : s.sendExternal.length < size
      · refine ⟨msg :: acc, hsub.cons₂ msg, ?_⟩
        show (runQueue size send ops (Send size s msg)).written
          ++ (runQueue size send ops (Send size s msg)).sendExternal = _
        rw [heq, Send_free size s msg h]
        simp
      · refine ⟨acc, hsub.cons msg, ?_⟩
        show (runQueue size send ops (Send size s msg)).written
          ++ (runQueue size send ops (Send size s msg)).sendExternal = _
        rw [heq, Send_full size s msg h]
    | write =>
      rw [runQueue_write]
      cases hq : s.sendExternal with
      | nil =>
        obtain ⟨acc, hsub, heq⟩ := ih s
        refine ⟨acc, hsub, ?_⟩
        rw [listenerSend_nil send s hq]
        simp only []
        rw [heq, hq]
      | cons msg rest =>
        rw [listenerSend_cons send s msg rest hq]
        cases hs : send msg with
        | some err =>
          refine ⟨[], List.nil_sublist _, ?_⟩
          simp
        | none =>
          obtain ⟨acc, hsub, heq⟩ :=
            ih { s with sendExternal := rest, written := s.written ++ [msg] }
          refine ⟨acc, hsub, ?_⟩
          simp only []
          rw [heq]
          simp

theorem runQueue_append (size : Nat) (send : List Nat → Option Err) (a b : List QueueOp) :
    ∀ s : Session, (∀ msg, send msg = none) →
      runQueue size send (a ++ b) s = runQueue size send b (runQueue size send a s) := by
  induction a with
  | nil => intro s _; rfl
  | cons op a ih =>
    intro s hs
    cases op with
    | Send msg => exact ih (Send size s msg) hs
    | write =>
      show runQueue size send (QueueOp.write :: (a ++ b)) s
        = runQueue size send b (runQueue size send (QueueOp.write :: a) s)
      rw [runQueue_write, runQueue_write]
      cases hq : s.sendExternal with
      | nil =>
        rw [listenerSend_nil send s hq]
        exact ih s hs
      | cons msg rest =>
        rw [listenerSend_cons send s msg rest hq, hs msg]
        exact ih _ hs

/-- Sending a batch that fits the free capacity queues it in call order. -/
theorem runQueue_sends (size : Nat) (send : List Nat → Option Err) (msgs : List (List Nat)) :
    ∀ s : Session, s.sendExternal.length + msgs.length ≤ size →
      runQueue size send (msgs.map QueueOp.Send) s
        = { s with sendExternal := s.sendExternal ++ msgs } := by
  induction msgs with
  | nil => intro s _; simp [runQueue]
  | cons msg msgs ih =>
    intro s h
    simp only [List.length_cons] at h
    show runQueue size send (msgs.map QueueOp.Send) (Send size s msg) = _
    rw [Send_free size s msg (by omega), ih _ (by simp; omega)]
    simp

/-- As many listener writes as there are queued messages write the queue in its
order, when the connection accepts every write. -/
theorem runQueue_writes (size : Nat) (send : List Nat → Option Err)
    (hs : ∀ msg, send msg = none) (queue : List (List Nat)) :
    ∀ s : Session, s.sendExternal = queue →
      runQueue size send (List.replicate queue.length QueueOp.write) s
        = { s with sendExternal := [], written := s.written ++ queue } := by
  induction queue with
  | nil =>
    intro s h
    cases s
    simp only at h
    subst h
    simp [runQueue]
  | cons msg rest ih =>
    intro s h
    show runQueue size send (QueueOp.write :: List.replicate rest.length QueueOp.write) s = _
    rw [runQueue_write, listenerSend_cons send s msg rest h, hs msg]
    simp only []
    rw [ih _ rfl]
    simp

/-- The method `Send` and the outbound queue. `Send` on a queue with free capacity
appends the message at the tail and touches nothing else; on a full queue it
leaves the queue and the written messages unchanged and calls `Close` with the
error `send buffer overflow`, with which the listener exits when no close signal
was pending. In every run of `Send` calls and listener writes, what has been
written followed by what is queued grows only at its end and only by messages of
`Send` calls in call order; a batch that fits the queue is written to the socket
in call order. -/
theorem Send_keeps_order (size : Nat) (send : List Nat → Option Err) (s : Session) :
    (∀ msg, s.sendExternal.length < size →
        Send size s msg = { s with sendExternal := s.sendExternal ++ [msg] })
      ∧ (∀ msg, ¬ s.sendExternal.length < size →
          Send size s msg = { s with close := Close s.close overflow }
            ∧ (Send size s msg).sendExternal = s.sendExternal
            ∧ (Send size s msg).written = s.written
            ∧ (s.close = [] → listenerExit (Send size s msg).close = some overflow))
      ∧ (∀ ops, ∃ acc, acc.Sublist (sentMessages ops)
          ∧ (runQueue size send ops s).written ++ (runQueue size send ops s).sendExternal
            = s.written ++ s.sendExternal ++ acc)
      ∧ (∀ msgs : List (List Nat), (∀ msg, send msg = none) →
          s.sendExternal.length + msgs.length ≤ size →
          runQueue size send (msgs.map QueueOp.Send
              ++ List.replicate (s.sendExternal.length + msgs.length) QueueOp.write) s
            = { s with sendExternal := [], written := s.written ++ s.sendExternal ++ msgs }) := by
  refine ⟨fun msg h => Send_free size s msg h, fun msg h => ?_,
    fun ops => runQueue_order size send ops s, fun msgs hs h => ?_⟩
  · rw [Send_full size s msg h]
    refine ⟨rfl, rfl, rfl, fun hc => ?_⟩
    show listenerExit (Close s.close overflow) = some overflow
    rw [hc]
    rfl
  · rw [runQueue_append size send _ _ s hs, runQueue_sends size send msgs s h]
    have := runQueue_writes size send hs (s.sendExternal ++ msgs)
      { s with sendExternal := s.sendExternal ++ msgs } rfl
    rw [List.length_append] at this
    rw [this]
    simp

/-- An example: with room for two messages, the third `Send` leaves the queue as
it is and raises the close signal `send buffer overflow`; two messages sent and
then written reach the socket in call order. -/
theorem Send_keeps_order_example :
    Send 2 { idleSession with sendExternal := [[1], [2]] } [3]
        = { idleSession with sendExternal := [[1], [2]], close := [overflow, overflow] }
      ∧ runQueue 2 (fun _ => none)
          ([[1], [2]].map QueueOp.Send ++ List.replicate (0 + 2) QueueOp.write) idleSession
        = { idleSession with written := [[1], [2]] } :=
  ⟨((Send_keeps_order 2 (fun _ => none)
      { idleSession with sendExternal := [[1], [2]] }).2.1 [3] (by decide)).1,
   (Send_keeps_order 2 (fun _ => none) idleSession).2.2.2 [[1], [2]] (fun _ => rfl)
      (by decide)⟩

theorem closeConnections_nil (ce : ConnEnv) (c : Client) (ch : List (Option Err))
    (h : ce.connClose = none) :
    closeConnections ce c ch none
      = (closedWith c [Effect.WriteControlClose CloseNormalClosure, Effect.connClose],
          Close ch none, Returned.err none) := by
  unfold closeConnections
  simp only [h]
  simp [closedWith, CloseNormalClosure]

theorem closeConnections_CloseError (ce : ConnEnv) (c : Client) (ch : List (Option Err))
    (Code : Nat) (h : ce.connClose = none) :
    closeConnections ce c ch (some (Err.CloseError Code))
      = if gracefulCode Code then
          (closedWith c [Effect.WriteControlClose CloseNormalClosure, Effect.connClose],
            Close ch none, Returned.err none)
        else
          (closedWith c [Effect.connClose], Close ch none,
            Returned.err (some (Err.CloseError Code))) := by
  unfold closeConnections
  simp only [h]
  by_cases hg : gracefulCode Code
  · rw [if_pos hg]
    unfold gracefulCode at hg
    rw [if_pos hg]
    simp [closedWith, CloseNormalClosure]
  · rw [if_neg hg]
    unfold gracefulCode at hg
    rw [if_neg hg]
    simp [closedWith]

theorem closeConnections_other (ce : ConnEnv) (c : Client) (ch : List (Option Err))
    (e : Err) (he : ∀ Code, e ≠ Err.CloseError Code) (h : ce.connClose = none) :
    closeConnections ce c ch (some e)
      = (closedWith c [Effect.send (Msg.MessageInvalid (Err.Error ce.text e)),
            Effect.WriteControlClose CloseInvalidFramePayloadData, Effect.connClose],
          Close ch none, Returned.err (some e)) := by
  unfold closeConnections
  simp only [h]
  cases e <;> first
    | exact absurd rfl (he _)
    | simp [closedWith, CloseInvalidFramePayloadData]

/-- C22 fails as stated: when the cause is a close error of the peer with the
code 1002, which is not one of the graceful codes, `closeConnections` sends no
InvalidMessage frame and emits no Close frame at all; it closes the socket and
returns the error. -/
theorem C22_no_close_frame_for_other_close_codes_counterexample :
    closeConnections quietConn freshClient [] (some (Err.CloseError 1002))
        = ({ freshClient with trace := [Effect.connClose] }, [none, none],
            Returned.err (some (Err.CloseError 1002)))
      ∧ Effect.WriteControlClose CloseInvalidFramePayloadData
          ∉ (closeConnections quietConn freshClient [] (some (Err.CloseError 1002))).1.trace := by
  decide

/-- C22, amended: when closing the socket succeeds, `closeConnections` emits the
Close frame with code 1000 and returns no error if the cause is nil or a close
error of the peer with code 1000, 1001, 1005 or 1006; for a close error of the
peer with any other code it emits no frame and returns the error; for every other
cause it first sends the error text as an InvalidMessage frame, then emits the
Close frame with code 1007, and returns the error. In each case the socket is
closed last and `Close(nil)` is applied to the close channel; when closing the
socket fails, the same calls are made and the error returned is the close error
wrapped around the cause. -/
theorem C22_close_frame_code (ce : ConnEnv) (c : Client) (ch : List (Option Err))
    (err : Option Err) :
    (ce.connClose = none →
      (err = none → closeConnections ce c ch err
          = (closedWith c [Effect.WriteControlClose 1000, Effect.connClose],
              Close ch none, Returned.err none))
        ∧ (∀ Code, err = some (Err.CloseError Code) → gracefulCode Code →
            closeConnections ce c ch err
              = (closedWith c [Effect.WriteControlClose 1000, Effect.connClose],
                  Close ch none, Returned.err none))
        ∧ (∀ Code, err = some (Err.CloseError Code) → ¬ gracefulCode Code →
            closeConnections ce c ch err
              = (closedWith c [Effect.connClose], Close ch none, Returned.err err))
        ∧ (∀ e, err = some e → (∀ Code, e ≠ Err.CloseError Code) →
            closeConnections ce c ch err
              = (closedWith c [Effect.send (Msg.MessageInvalid (Err.Error ce.text e)),
                    Effect.WriteControlClose 1007, Effect.connClose],
                  Close ch none, Returned.err err)))
      ∧ (∀ closeError, ce.connClose = some closeError →
          ∃ inner, closeConnections { ce with connClose := none } c ch err
              = ((closeConnections ce c ch err).1, (closeConnections ce c ch err).2.1,
                  Returned.err inner)
            ∧ (closeConnections ce c ch err).2.2
              = Returned.WrappedError (Err.Error ce.text closeError) inner) := by
  refine ⟨fun h => ⟨fun he => ?_, fun Code he hg => ?_, fun Code he hg => ?_,
    fun e he hne => ?_⟩, fun closeError h => ?_⟩
  · subst he; exact closeConnections_nil ce c ch h
  · subst he; rw [closeConnections_CloseError ce c ch Code h, if_pos hg]; rfl
  · subst he; rw [closeConnections_CloseError ce c ch Code h, if_neg hg]
  · subst he; exact closeConnections_other ce c ch e hne h
  · unfold closeConnections
    simp only [h]
    exact ⟨_, rfl, rfl⟩

/-- C22, amended, witness: the binary frame of `TestInvalidMessage` is rejected by
`handleMessage` with `only text frames allowed`; `closeConnections` with this
error sends it as an InvalidMessage frame, emits the Close frame 1007 and
returns the error. A nil cause gives the Close frame 1000. -/
theorem C22_close_frame_code_witness :
    handleMessage testFrameEnv freshClient BinaryMessage [1]
        = (freshClient, Handled.failed (Err.errInvalidFrame "only text frames allowed"))
      ∧ closeConnections quietConn freshClient []
          (some (Err.errInvalidFrame "only text frames allowed"))
        = (closedWith freshClient
              [Effect.send (Msg.MessageInvalid "only text frames allowed"),
               Effect.WriteControlClose 1007, Effect.connClose],
            Close [] none,
            Returned.err (some (Err.errInvalidFrame "only text frames allowed")))
      ∧ closeConnections quietConn freshClient [] none
        = (closedWith freshClient [Effect.WriteControlClose 1000, Effect.connClose],
            Close [] none, Returned.err none) :=
  ⟨by decide,
   ((C22_close_frame_code quietConn freshClient []
      (some (Err.errInvalidFrame "only text frames allowed"))).1 rfl).2.2.2
      (Err.errInvalidFrame "only text frames allowed") rfl (fun _ h => Err.noConfusion h),
   ((C22_close_frame_code quietConn freshClient [] none).1 rfl).1 rfl⟩

/-- C23: `synchronise` returns `ErrInvalidBoard(board)` when the named board does
not exist, and `ErrInvalidThread(thread, board)` when the board exists, the
requested thread is nonzero and the store finds it not to be a thread of the
board. In both cases the client is returned as it was: its open post is
untouched and its trace has no new entry, so no feed has been joined and no frame
sent. -/
theorem C23_synchronise_routing_errors (se : SyncEnv) (c : Client) (msg : syncRequest) :
    (se.IsBoard msg.Board = false →
        synchronise se c (some msg) = (c, some (Err.ErrInvalidBoard msg.Board)))
      ∧ (se.IsBoard msg.Board = true → msg.Thread ≠ 0 →
          se.ValidateOP msg.Thread msg.Board = .ok false →
          synchronise se c (some msg)
            = (c, some (Err.ErrInvalidThread msg.Thread msg.Board))) := by
  refine ⟨fun h => ?_, fun h ht hv => ?_⟩
  · unfold synchronise
    simp only [h]
    rfl
  · unfold synchronise
    simp only [h, hv]
    rw [if_pos ht]
    rfl

/-- C23, witness: the board `c` is not configured; thread 1 is not a thread of the
board `a`. -/
theorem C23_synchronise_routing_errors_witness :
    synchronise boardEnv freshClient (some (boardRequest "c" 0 0))
        = (freshClient, some (Err.ErrInvalidBoard "c"))
      ∧ synchronise boardEnv freshClient (some (boardRequest "a" 1 0))
        = (freshClient, some (Err.ErrInvalidThread 1 "a")) :=
  ⟨(C23_synchronise_routing_errors boardEnv freshClient (boardRequest "c" 0 0)).1 (by decide),
   (C23_synchronise_routing_errors boardEnv freshClient (boardRequest "a" 1 0)).2
      (by decide) (by decide) rfl⟩

/-- C24: in a board-level `registerSync` (thread 0, matching protocol version) of
a client without open post, the error of the cache fetch is dropped: when the
fetch fails and the connection accepts the write, `registerSync` sends the
Synchronise frame with whatever JSON the failed fetch returned and returns no
error. -/
theorem C24_registerSync_drops_cache_error (se : SyncEnv) (c : Client) (req : syncRequest)
    (json : List Nat) (err : Err) (hp : c.post.id = 0)
    (hs : se.SyncClient req.Thread req.Board = none) (ht : req.Thread = 0)
    (hv : req.ProtocolVersion = se.ProtocolVersion)
    (hc : se.GetJSONAndData req.Board (toInt64 req.Page) req.Catalog = (json, some err))
    (hw : se.send (Msg.MessageSynchronise (some json)) = none) :
    registerSync se c req
      = ({ c with trace := c.trace ++
            [Effect.feedSyncClient req.Thread req.Board,
             Effect.send (Msg.MessageSynchronise (some json))] }, none) := by
  have hs0 : se.SyncClient 0 req.Board = none := by rw [← ht]; exact hs
  unfold registerSync
  simp only [hp, ht, hv, hc, hw]
  simp [sendResult, hs0]

/-- C24, witness: a client without open post synchronises to the board `a` with
the protocol version of the server while the cache fetch fails with a store
error: an empty Synchronise frame is sent and no error is returned. -/
theorem C24_registerSync_drops_cache_error_witness :
    registerSync cacheFailsEnv freshClient (boardRequest "a" 0 1)
      = ({ freshClient with trace := freshClient.trace ++
            [Effect.feedSyncClient 0 "a", Effect.send (Msg.MessageSynchronise (some []))] },
          none) :=
  C24_registerSync_drops_cache_error cacheFailsEnv freshClient (boardRequest "a" 0 1) []
    (Err.store 1) rfl rfl rfl rfl rfl rfl

theorem sendResult_none (c : Client) (msg : Msg) :
    sendResult c msg none = ({ c with trace := c.trace ++ [Effect.send msg] }, none) := rfl

/-- The steps of `reclaimPost` after `closePreviousPost` has succeeded and the
payload has been decoded. -/
theorem reclaimPost_steps (re : ReclaimEnv) (c c1 : Client) (req : reclaimRequest)
    (hc : re.closePreviousPost c = (c1, none)) :
    reclaimPost re c (some req) =
      match re.GetPostPassword req.ID with
      | .error err => (c1, some err)
      | .ok none => sendResult c1 (Msg.MessageReclaim 1) (re.send (Msg.MessageReclaim 1))
      | .ok (some hash) =>
        match re.BcryptCompare req.Password hash with
        | some err =>
          if err = Err.ErrMismatchedHashAndPassword then
            sendResult c1 (Msg.MessageReclaim 1) (re.send (Msg.MessageReclaim 1))
          else (c1, some err)
        | none =>
          match re.GetPost req.ID with
          | .error err => (c1, some err)
          | .ok post =>
            if !post.Editing then
              sendResult c1 (Msg.MessageReclaim 1) (re.send (Msg.MessageReclaim 1))
            else
              sendResult
                { c1 with post := re.init post,
                          trace := c1.trace ++ [Effect.feedInsertPost post.ID] }
                (Msg.MessageReclaim 0) (re.send (Msg.MessageReclaim 0)) := by
  unfold reclaimPost
  rw [hc]
  try rfl

/-- C25: after `closePreviousPost` has succeeded, with the connection accepting
the reply: `reclaimPost` replies `MessageReclaim` with code 1 and leaves the open
post as it is when the store has no password hash for the post, when the password
does not match the hash, and when the password matches but the stored post is no
longer being edited; it replies with code 0 after making the stored post the open
post when the password matches and the stored post is being edited. Whenever
`reclaimPost` returns no error, it has done the latter exactly when the post is
reclaimable, and the former otherwise. -/
theorem C25_reclaimPost_result (re : ReclaimEnv) (c c1 : Client) (req : reclaimRequest)
    (hc : re.closePreviousPost c = (c1, none)) :
    (re.GetPostPassword req.ID = .ok none → re.send (Msg.MessageReclaim 1) = none →
        reclaimPost re c (some req) = (refused c1, none))
      ∧ (∀ hash, re.GetPostPassword req.ID = .ok (some hash) →
          re.BcryptCompare req.Password hash = some Err.ErrMismatchedHashAndPassword →
          re.send (Msg.MessageReclaim 1) = none →
          reclaimPost re c (some req) = (refused c1, none))
      ∧ (∀ hash post, re.GetPostPassword req.ID = .ok (some hash) →
          re.BcryptCompare req.Password hash = none → re.GetPost req.ID = .ok post →
          post.Editing = false → re.send (Msg.MessageReclaim 1) = none →
          reclaimPost re c (some req) = (refused c1, none))
      ∧ (∀ hash post, reclaimable re req hash post → re.send (Msg.MessageReclaim 0) = none →
          reclaimPost re c (some req) = (reclaimed re c1 post, none)
            ∧ (reclaimed re c1 post).post = re.init post)
      ∧ ((reclaimPost re c (some req)).2 = none →
          (∃ hash post, reclaimable re req hash post
              ∧ (reclaimPost re c (some req)).1 = reclaimed re c1 post)
            ∨ ((¬ ∃ hash post, reclaimable re req hash post)
              ∧ (reclaimPost re c (some req)).1 = refused c1
              ∧ (refused c1).post = c1.post)) := by
  rw [reclaimPost_steps re c c1 req hc]
  refine ⟨fun h hs => ?_, fun hash h hb hs => ?_, fun hash post h hb hg he hs => ?_,
    fun hash post hr hs => ?_, fun hn => ?_⟩
  · rw [h]; simp only []; rw [hs]; rfl
  · rw [h]; simp only []; rw [hb]; simp only [if_true]; rw [hs]; rfl
  · rw [h]; simp only []; rw [hb]; simp only []; rw [hg]; simp only []
    rw [he]; simp only [Bool.not_false, if_true]; rw [hs]; rfl
  · obtain ⟨h, hb, hg, he⟩ := hr
    rw [h]; simp only []; rw [hb]; simp only []; rw [hg]; simp only []
    rw [he]; simp only [Bool.not_true, Bool.false_eq_true, if_false]; rw [hs]
    exact ⟨by simp [sendResult, reclaimed], rfl⟩
  · cases h : re.GetPostPassword req.ID with
    | error err => rw [h] at hn; simp at hn
    | ok o =>
      cases o with
      | none =>
        rw [h] at hn
        simp only [] at hn ⊢
        cases hs : re.send (Msg.MessageReclaim 1) with
        | some err => rw [hs] at hn; simp [sendResult] at hn
        | none =>
          right
          refine ⟨?_, rfl, rfl⟩
          rintro ⟨hash, post, hr, _⟩
          rw [h] at hr
          cases hr
      | some hash =>
        rw [h] at hn
        simp only [] at hn ⊢
        cases hb : re.BcryptCompare req.Password hash with
        | some err =>
          rw [hb] at hn
          simp only [] at hn ⊢
          by_cases hm : err = Err.ErrMismatchedHashAndPassword
          · rw [if_pos hm] at hn ⊢
            cases hs : re.send (Msg.MessageReclaim 1) with
            | some err => rw [hs] at hn; simp [sendResult] at hn
            | none =>
              right
              refine ⟨?_, rfl, rfl⟩
              rintro ⟨hash2, post, hr, hb2, _⟩
              rw [h] at hr
              cases hr
              rw [hb] at hb2
              cases hb2
          · rw [if_neg hm] at hn; simp at hn
        | none =>
          rw [hb] at hn
          simp only [] at hn ⊢
          cases hg : re.GetPost req.ID with
          | error err => rw [hg] at hn; simp at hn
          | ok post =>
            rw [hg] at hn
            simp only [] at hn ⊢
            cases he : post.Editing with
            | false =>
              rw [he] at hn
              simp only [Bool.not_false, if_true] at hn ⊢
              cases hs : re.send (Msg.MessageReclaim 1) with
              | some err => rw [hs] at hn; simp [sendResult] at hn
              | none =>
                right
                refine ⟨?_, rfl, rfl⟩
                rintro ⟨hash2, post2, _, _, hg2, he2⟩
                rw [hg] at hg2
                cases hg2
                rw [he] at he2
                cases he2
            | true =>
              rw [he] at hn
              simp only [Bool.not_true, Bool.false_eq_true, if_false] at hn ⊢
              cases hs : re.send (Msg.MessageReclaim 0) with
              | some err => rw [hs] at hn; simp [sendResult] at hn
              | none =>
                left
                exact ⟨hash, post, ⟨h, hb, hg, he⟩, by simp [sendResult, reclaimed]⟩

/-- C25, witness: the cases of `TestReclaimPost`: post 99 is not stored; post 3 is
closed; the wrong password on post 2; the right password on post 2. -/
theorem C25_reclaimPost_result_witness :
    reclaimPost reclaimEnv freshClient (some ⟨99, ""⟩) = (refused freshClient, none)
      ∧ reclaimPost reclaimEnv freshClient (some ⟨3, "123"⟩) = (refused freshClient, none)
      ∧ reclaimPost reclaimEnv freshClient (some ⟨2, "aaaaaaaa"⟩) = (refused freshClient, none)
      ∧ reclaimPost reclaimEnv freshClient (some ⟨2, "123"⟩)
        = (reclaimed reclaimEnv freshClient storedPost2, none) :=
  ⟨(C25_reclaimPost_result reclaimEnv freshClient freshClient ⟨99, ""⟩ rfl).1 rfl rfl,
   (C25_reclaimPost_result reclaimEnv freshClient freshClient ⟨3, "123"⟩ rfl).2.2.1
      [1] storedPost3 rfl rfl rfl rfl rfl,
   (C25_reclaimPost_result reclaimEnv freshClient freshClient ⟨2, "aaaaaaaa"⟩ rfl).2.1
      [1] rfl rfl rfl,
   ((C25_reclaimPost_result reclaimEnv freshClient freshClient ⟨2, "123"⟩ rfl).2.2.2.1
      [1] storedPost2 ⟨rfl, rfl, rfl, rfl⟩ rfl).1⟩

/-- C27: if `db.BeginTx` fails, `InTransaction` returns its error and neither
calls `fn` nor commits nor rolls back. Otherwise it calls `fn` exactly once on the
transaction and then does exactly one of the two: `tx.Commit`, whose result it
returns, exactly when `fn` returned nil; `tx.Rollback` when `fn` returned an
error, which it returns unchanged. -/
theorem C27_InTransaction_commit_or_rollback (te : TxEnv) (readOnly : Bool)
    (fn : Nat → Option Err) :
    (∀ err, te.BeginTx readOnly = .error err →
        InTransaction te readOnly fn = ([TxEffect.BeginTx readOnly], some err))
      ∧ (∀ tx, te.BeginTx readOnly = .ok tx → fn tx = none →
          InTransaction te readOnly fn
            = ([TxEffect.BeginTx readOnly, TxEffect.call tx, TxEffect.Commit tx],
                te.Commit tx))
      ∧ (∀ tx err, te.BeginTx readOnly = .ok tx → fn tx = some err →
          InTransaction te readOnly fn
            = ([TxEffect.BeginTx readOnly, TxEffect.call tx, TxEffect.Rollback tx],
                some err))
      ∧ (∀ tx, te.BeginTx readOnly = .ok tx →
          (InTransaction te readOnly fn).1.count (TxEffect.call tx) = 1
            ∧ (InTransaction te readOnly fn).1.count (TxEffect.Commit tx)
                + (InTransaction te readOnly fn).1.count (TxEffect.Rollback tx) = 1
            ∧ (TxEffect.Commit tx ∈ (InTransaction te readOnly fn).1 ↔ fn tx = none)) := by
  refine ⟨fun err h => ?_, fun tx h hf => ?_, fun tx err h hf => ?_, fun tx h => ?_⟩
  · unfold InTransaction; rw [h]
  · unfold InTransaction; rw [h]; simp only []; rw [hf]
  · unfold InTransaction; rw [h]; simp only []; rw [hf]
  · unfold InTransaction
    rw [h]
    simp only []
    cases hf : fn tx with
    | none => simp
    | some err => simp

/-- C27, witness: a callback that returns nil is committed, one that returns an
error is rolled back and its error returned, and on a failed begin the callback
is not called. -/
theorem C27_InTransaction_commit_or_rollback_witness :
    InTransaction quietTx false (fun _ => none)
        = ([TxEffect.BeginTx false, TxEffect.call 7, TxEffect.Commit 7], none)
      ∧ InTransaction quietTx false (fun _ => some (Err.store 2))
        = ([TxEffect.BeginTx false, TxEffect.call 7, TxEffect.Rollback 7], some (Err.store 2))
      ∧ InTransaction noTx false (fun _ => none)
        = ([TxEffect.BeginTx false], some (Err.store 1)) :=
  ⟨(C27_InTransaction_commit_or_rollback quietTx false (fun _ => none)).2.1 7 rfl rfl,
   (C27_InTransaction_commit_or_rollback quietTx false (fun _ => some (Err.store 2))).2.2.1
      7 (Err.store 2) rfl rfl,
   (C27_InTransaction_commit_or_rollback noTx false (fun _ => none)).1 (Err.store 1) rfl⟩

/-- A `closePost` that returns no error has written the close, and the roulette
ban with the increment when the commands hold a lost roulette, and nothing
else. -/
theorem closePost_success (e : Env) (c c1 : Client) (h : closePost e c = (c1, none)) :
    c.post.id ≠ 0 ∧ ∃ links com, parsedBody e c = .ok (links, com)
      ∧ (c1 = autoClosed c links com ∨ c1 = autoClosedBanned c links com) := by
  have hid : c.post.id ≠ 0 := by
    intro h0
    rw [closePost_no_post e c h0] at h
    simp at h
  refine ⟨hid, ?_⟩
  rw [closePost_of_open e c hid] at h
  cases hp : parsedBody e c with
  | error err => rw [hp] at h; simp at h
  | ok p =>
    obtain ⟨links, com⟩ := p
    rw [hp] at h
    simp only [] at h
    cases hc : e.ClosePost c.post.id c.post.op c.post.body links com with
    | some err => rw [hc] at h; simp at h
    | none =>
      rw [hc] at h
      simp only [] at h
      refine ⟨links, com, rfl, ?_⟩
      by_cases hl : ∃ command ∈ com, losingRoulette command
      · rw [CheckRouletteBan_some e com c.post.board c.post.op c.post.id _ hl] at h
        cases hb : e.Ban c.post.board "lost at #roulette" "system" Hour c.post.id with
        | some err => rw [hb] at h; simp at h
        | none =>
          rw [hb] at h
          simp only [] at h
          cases hi : e.IncrementRcount c.post.op with
          | some err => rw [hi] at h; simp at h
          | none =>
            rw [hi] at h
            right
            rw [← (Prod.mk.inj h).1]
            simp [autoClosedBanned]
      · rw [CheckRouletteBan_none e com c.post.board c.post.op c.post.id _ hl] at h
        left
        rw [← (Prod.mk.inj h).1]
        rfl

/-- C30: when the open post is older than 29 minutes and its automatic close
succeeds, `appendRune`, `backspace` and `spliceText` return no error and leave the
client as the close left it: no open post, and in the trace only the close of the
post with the body it had before the call (and the roulette ban with its
increment, if the body lost at roulette), so the edit is neither applied nor
handed to the feed nor written to the store. `insertImage` and `spoilerImage`
leave the same client and return `errNoPostOpen`. -/
theorem C30_edit_on_expired_post_is_dropped (e : Env) (c c1 : Client) (hid : c.post.id ≠ 0)
    (hold : c.post.time < e.now - 29 * 60) (hclose : closePost e c = (c1, none)) :
    (∀ data, appendRune e c data = (c1, none))
      ∧ backspace e c = (c1, none)
      ∧ (∀ data, spliceText e c data = some (c1, none))
      ∧ c1.post = openPost.zero
      ∧ (∃ links com, parsedBody e c = .ok (links, com)
          ∧ (c1 = autoClosed c links com ∨ c1 = autoClosedBanned c links com))
      ∧ (∀ ie data, insertImage e ie c data = (c1, some Err.errNoPostOpen))
      ∧ (∀ ie, spoilerImage e ie c = (c1, some Err.errNoPostOpen)) := by
  have hp : hasPost e c = (c1, false, none) := by
    unfold hasPost
    rw [if_neg hid, if_pos hold, hclose]
  obtain ⟨_, links, com, hparsed, hc1⟩ := closePost_success e c c1 hclose
  refine ⟨fun data => ?_, ?_, fun data => ?_, ?_, ⟨links, com, hparsed, hc1⟩,
    fun ie data => ?_, fun ie => ?_⟩
  · unfold appendRune; rw [hp]; rfl
  · unfold backspace; rw [hp]; rfl
  · unfold spliceText; rw [hp]; rfl
  · rcases hc1 with h | h <;> rw [h] <;> rfl
  · unfold insertImage; rw [hp]; rfl
  · unfold spoilerImage; rw [hp]; rfl

/-- C30, witness: the post `abc` created 30 minutes before the call: an append of
`d`, a backspace and a splice are dropped while the post is closed with the body
`abc`; an image insertion and a spoiler are refused. -/
theorem C30_edit_on_expired_post_is_dropped_witness :
    appendRune (quietEnv 2800) (clientWith [97, 98, 99] 3 0 1000) (some 100)
        = (autoClosed (clientWith [97, 98, 99] 3 0 1000) [] [], none)
      ∧ backspace (quietEnv 2800) (clientWith [97, 98, 99] 3 0 1000)
        = (autoClosed (clientWith [97, 98, 99] 3 0 1000) [] [], none)
      ∧ spliceText (quietEnv 2800) (clientWith [97, 98, 99] 3 0 1000) (some ⟨0, 1, [120]⟩)
        = some (autoClosed (clientWith [97, 98, 99] 3 0 1000) [] [], none)
      ∧ (autoClosed (clientWith [97, 98, 99] 3 0 1000) [] []).trace
        = [Effect.dbClosePost 2 1 [97, 98, 99] [] []]
      ∧ insertImage (quietEnv 2800) quietImageEnv (clientWith [97, 98, 99] 3 0 1000) none
        = (autoClosed (clientWith [97, 98, 99] 3 0 1000) [] [], some Err.errNoPostOpen)
      ∧ spoilerImage (quietEnv 2800) quietImageEnv (clientWith [97, 98, 99] 3 0 1000)
        = (autoClosed (clientWith [97, 98, 99] 3 0 1000) [] [], some Err.errNoPostOpen) :=
  ⟨(C30_edit_on_expired_post_is_dropped (quietEnv 2800) (clientWith [97, 98, 99] 3 0 1000)
      (autoClosed (clientWith [97, 98, 99] 3 0 1000) [] []) (by decide) (by decide)
      (by decide)).1 (some 100),
   (C30_edit_on_expired_post_is_dropped (quietEnv 2800) (clientWith [97, 98, 99] 3 0 1000)
      (autoClosed (clientWith [97, 98, 99] 3 0 1000) [] []) (by decide) (by decide)
      (by decide)).2.1,
   (C30_edit_on_expired_post_is_dropped (quietEnv 2800) (clientWith [97, 98, 99] 3 0 1000)
      (autoClosed (clientWith [97, 98, 99] 3 0 1000) [] []) (by decide) (by decide)
      (by decide)).2.2.1 (some ⟨0, 1, [120]⟩),
   by decide,
   (C30_edit_on_expired_post_is_dropped (quietEnv 2800) (clientWith [97, 98, 99] 3 0 1000)
      (autoClosed (clientWith [97, 98, 99] 3 0 1000) [] []) (by decide) (by decide)
      (by decide)).2.2.2.2.2.1 quietImageEnv none,
   (C30_edit_on_expired_post_is_dropped (quietEnv 2800) (clientWith [97, 98, 99] 3 0 1000)
      (autoClosed (clientWith [97, 98, 99] 3 0 1000) [] []) (by decide) (by decide)
      (by decide)).2.2.2.2.2.2 quietImageEnv⟩

theorem isPunctuation_ne_zero (b : Nat) (h : isPunctuation b = true) : b ≠ 0 := by
  intro h0
  subst h0
  simp [isPunctuation] at h

theorem edgeList_edgeByte (b : Nat) :
    edgeList (edgeByte b) = if isPunctuation b then [b] else [] := by
  unfold edgeList edgeByte
  by_cases h : isPunctuation b = true
  · simp [h, isPunctuation_ne_zero b h]
  · simp [h]

theorem SplitPunctuationString_eq (word : List Nat) :
    SplitPunctuationString word = SplitPunctuation word := rfl

theorem getD_snoc_last (init : List Nat) (last : Nat) :
    (init ++ [last]).getD ((init ++ [last]).length - 1) 0 = last := by
  simp [List.getD_eq_getElem?_getD]

theorem take_snoc_init (init : List Nat) (last : Nat) :
    (init ++ [last]).take ((init ++ [last]).length - 1) = init := by
  simp

/-- The trailing step of `SplitPunctuation` on what remains after the leading
step, when at least two bytes remain. -/
theorem trailing_step (lead : Nat) (init : List Nat) (last : Nat) (h : init ≠ []) :
    (if (init ++ [last]).length < 2 then (lead, init ++ [last], 0)
      else if isPunctuation ((init ++ [last]).getD ((init ++ [last]).length - 1) 0) then
        (lead, (init ++ [last]).take ((init ++ [last]).length - 1),
          (init ++ [last]).getD ((init ++ [last]).length - 1) 0)
      else (lead, init ++ [last], 0))
      = if isPunctuation last then (lead, init, last) else (lead, init ++ [last], 0) := by
  have hl : ¬ (init ++ [last]).length < 2 := by
    cases init with
    | nil => exact absurd rfl h
    | cons a t => simp
  rw [if_neg hl, getD_snoc_last, take_snoc_init]

/-- The result of `SplitPunctuation` on a word of at least two bytes whose first
byte is punctuation and is followed by a single byte. -/
theorem SplitPunctuation_pair_punct (a b : Nat) (h : isPunctuation a = true) :
    SplitPunctuation [a, b] = (a, [b], 0) := by
  simp [SplitPunctuation, h]

/-- The result of `SplitPunctuation` on a word whose first byte is punctuation and
is followed by at least two bytes. -/
theorem SplitPunctuation_punct (a : Nat) (init : List Nat) (last : Nat) (hi : init ≠ [])
    (h : isPunctuation a = true) :
    SplitPunctuation (a :: (init ++ [last]))
      = if isPunctuation last then (a, init, last) else (a, init ++ [last], 0) := by
  have hlen : ¬ (a :: (init ++ [last])).length < 2 := by simp
  unfold SplitPunctuation
  rw [if_neg hlen]
  simp only [List.getD_cons_zero, h, if_true, List.drop_one, List.tail_cons]
  exact trailing_step a init last hi

/-- The result of `SplitPunctuation` on a word of at least two bytes whose first
byte is not punctuation. -/
theorem SplitPunctuation_plain (a : Nat) (init : List Nat) (last : Nat)
    (h : isPunctuation a = false) :
    SplitPunctuation (a :: (init ++ [last]))
      = if isPunctuation last then (0, a :: init, last) else (0, a :: (init ++ [last]), 0) := by
  have hlen : ¬ (a :: (init ++ [last])).length < 2 := by simp
  unfold SplitPunctuation
  rw [if_neg hlen]
  simp only [List.getD_cons_zero, h, Bool.false_eq_true, if_false]
  exact trailing_step 0 (a :: init) last (by simp)

theorem eq_nil_or_snoc_bytes (l : List Nat) : l = [] ∨ ∃ init last, l = init ++ [last] := by
  rcases List.eq_nil_or_concat l with h | ⟨init, last, h⟩
  · exact Or.inl h
  · exact Or.inr ⟨init, last, by rw [h, List.concat_eq_append]⟩

theorem splitsEdges_SplitPunctuation (word : List Nat) :
    splitsEdges word (SplitPunctuation word) := by
  match word with
  | [] => simp [splitsEdges, SplitPunctuation, edgeList]
  | [a] => simp [splitsEdges, SplitPunctuation, edgeList]
  | a :: b :: rest =>
    rcases eq_nil_or_snoc_bytes (b :: rest) with h | ⟨init, last, h⟩
    · simp at h
    · rw [h]
      have hlast : (a :: (init ++ [last])).getD ((a :: (init ++ [last])).length - 1) 0 = last :=
        getD_snoc_last (a :: init) last
      have hlen : (a :: (init ++ [last])).length = init.length + 2 := by simp
      by_cases hp : isPunctuation a = true
      · by_cases hi : init = []
        · subst hi
          simp only [List.nil_append]
          rw [SplitPunctuation_pair_punct a last hp]
          simp [splitsEdges, edgeByte, edgeList, hp, isPunctuation_ne_zero a hp]
        · rw [SplitPunctuation_punct a init last hi hp]
          have hi3 : 1 ≤ init.length := by
            cases init with
            | nil => exact absurd rfl hi
            | cons x t => simp
          unfold splitsEdges
          rw [hlast, hlen]
          by_cases hl : isPunctuation last = true
          · simp [edgeByte, edgeList, hp, hl, isPunctuation_ne_zero a hp,
              isPunctuation_ne_zero last hl, hi]
          · simp [edgeByte, edgeList, hp, hl, isPunctuation_ne_zero a hp]
      · have hp0 : isPunctuation a = false := by simpa using hp
        rw [SplitPunctuation_plain a init last hp0]
        unfold splitsEdges
        rw [hlast, hlen]
        by_cases hl : isPunctuation last = true
        · simp [edgeByte, edgeList, hp0, hl, isPunctuation_ne_zero last hl]
          intro h2
          subst h2
          simp [hl]
        · simp [edgeByte, edgeList, hp0, hl]
          intro h2
          subst h2
          simp [hl]

/-- C28 fails as stated: the word `.` of one byte is returned whole, its
punctuation byte is neither leading nor trailing; of the word `..` only the
leading byte is split off, the last byte stays in the middle. -/
theorem C28_short_word_keeps_punctuation_counterexample :
    isPunctuation 46 = true
      ∧ SplitPunctuation [46] = (0, [46], 0)
      ∧ SplitPunctuationString [46] = (0, [46], 0)
      ∧ ¬ splitsEveryEdge [46] (SplitPunctuation [46])
      ∧ SplitPunctuation [46, 46] = (46, [46], 0)
      ∧ ¬ splitsEveryEdge [46, 46] (SplitPunctuation [46, 46]) := by
  decide

/-- C28, amended: `SplitPunctuationString` does on the bytes of a string what
`SplitPunctuation` does on a byte slice. A word of fewer than 2 bytes is returned
whole with leading and trailing 0. For a word of at least 2 bytes, leading is the
first byte when that is punctuation and 0 otherwise; trailing is the last byte
when that is punctuation and at least 2 bytes remain after the leading split (so
always for a word of 3 bytes or more, and for a word of 2 bytes only when its
first byte is not punctuation), and 0 otherwise. The word is always the leading
byte, if one was split off, the middle, and the trailing byte, if one was split
off; the middle of a non-empty word is never empty. For words of 3 bytes or more
the claim holds as stated. -/
theorem C28_SplitPunctuation_edges (word : List Nat) :
    SplitPunctuationString word = SplitPunctuation word
      ∧ (word.length < 2 → SplitPunctuation word = (0, word, 0))
      ∧ (2 ≤ word.length → (SplitPunctuation word).1 = edgeByte (word.getD 0 0))
      ∧ (3 ≤ word.length →
          (SplitPunctuation word).2.2 = edgeByte (word.getD (word.length - 1) 0))
      ∧ (word.length = 2 →
          (SplitPunctuation word).2.2
            = if isPunctuation (word.getD 0 0) then 0 else edgeByte (word.getD 1 0))
      ∧ word = edgeList (SplitPunctuation word).1 ++ (SplitPunctuation word).2.1
          ++ edgeList (SplitPunctuation word).2.2
      ∧ (word ≠ [] → (SplitPunctuation word).2.1 ≠ [])
      ∧ (3 ≤ word.length → splitsEveryEdge word (SplitPunctuation word)) := by
  obtain ⟨h1, h2, h3, h4, h5, h6⟩ := splitsEdges_SplitPunctuation word
  exact ⟨rfl, h1, h2, h3, h4, h5, h6, fun h => ⟨h2 (by omega), h3 h, h5⟩⟩

/-- C28, amended, witness: the words `.`, `(a)`, `a.` and `.a`. -/
theorem C28_SplitPunctuation_edges_witness :
    SplitPunctuation [46] = (0, [46], 0)
      ∧ splitsEveryEdge [40, 97, 41] (SplitPunctuation [40, 97, 41])
      ∧ SplitPunctuation [40, 97, 41] = (40, [97], 41)
      ∧ (SplitPunctuation [97, 46]).2.2
          = (if isPunctuation ([97, 46].getD 0 0) then 0 else edgeByte ([97, 46].getD 1 0))
      ∧ SplitPunctuation [97, 46] = (0, [97], 46)
      ∧ (SplitPunctuation [46, 97]).1 = edgeByte ([46, 97].getD 0 0)
      ∧ SplitPunctuation [46, 97] = (46, [97], 0) :=
  ⟨(C28_SplitPunctuation_edges [46]).2.1 (by decide),
   (C28_SplitPunctuation_edges [40, 97, 41]).2.2.2.2.2.2.2 (by decide),
   by decide,
   (C28_SplitPunctuation_edges [97, 46]).2.2.2.2.1 (by decide),
   by decide,
   (C28_SplitPunctuation_edges [46, 97]).2.2.1 (by decide),
   by decide⟩

theorem digitsValueFrom_cons (n c : Nat) (s : List Nat) :
    digitsValueFrom n (c :: s) = digitsValueFrom (n * 10 + (c - 48)) s := rfl

theorem digitsValueFrom_snoc (n c : Nat) (s : List Nat) :
    digitsValueFrom n (s ++ [c]) = digitsValueFrom n s * 10 + (c - 48) := by
  unfold digitsValueFrom
  rw [List.foldl_append]
  rfl

theorem le_digitsValueFrom (s : List Nat) : ∀ n, n ≤ digitsValueFrom n s := by
  induction s with
  | nil => intro n; exact Nat.le_refl n
  | cons c s ih =>
    intro n
    rw [digitsValueFrom_cons]
    have := ih (n * 10 + (c - 48))
    omega

/-- On a text of digits whose value fits 64 bits, the loop of `ParseUint` returns
the value. -/
theorem parseUintLoop_digits (s : List Nat) :
    ∀ n, (∀ c ∈ s, 48 ≤ c ∧ c ≤ 57) → digitsValueFrom n s < 2 ^ 64 →
      parseUintLoop (2 ^ 64 - 1) n s = (digitsValueFrom n s, none) := by
  induction s with
  | nil => intro n _ _; rfl
  | cons c s ih =>
    intro n hd hv
    rw [digitsValueFrom_cons] at hv ⊢
    have hc := hd c (List.mem_cons_self _ _)
    have hle := le_digitsValueFrom s (n * 10 + (c - 48))
    have h1 : ¬ n ≥ (2 ^ 64 - 1) / 10 + 1 := by omega
    have h2 : (n * 10 + (c - 48)) % 2 ^ 64 = n * 10 + (c - 48) := Nat.mod_eq_of_lt (by omega)
    unfold parseUintLoop
    rw [if_pos hc, if_neg h1]
    simp only [h2]
    rw [if_neg (by omega)]
    exact ih _ (fun x hx => hd x (List.mem_cons_of_mem _ hx)) hv

/-- When the loop of `ParseUint` returns no error, the text consists of digits and
the result is its value, which fits 64 bits. -/
theorem parseUintLoop_ok (s : List Nat) :
    ∀ n, n < 2 ^ 64 → (parseUintLoop (2 ^ 64 - 1) n s).2 = none →
      (∀ c ∈ s, 48 ≤ c ∧ c ≤ 57) ∧ digitsValueFrom n s < 2 ^ 64
        ∧ (parseUintLoop (2 ^ 64 - 1) n s).1 = digitsValueFrom n s := by
  induction s with
  | nil => intro n hn _; exact ⟨by simp, hn, rfl⟩
  | cons c s ih =>
    intro n hn h
    unfold parseUintLoop at h ⊢
    by_cases hc : 48 ≤ c ∧ c ≤ 57
    · rw [if_pos hc] at h ⊢
      by_cases h1 : n ≥ (2 ^ 64 - 1) / 10 + 1
      · rw [if_pos h1] at h; simp at h
      · rw [if_neg h1] at h ⊢
        simp only [] at h ⊢
        by_cases h2 : (n * 10 + (c - 48)) % 2 ^ 64 < n * 10
            ∨ (n * 10 + (c - 48)) % 2 ^ 64 > 2 ^ 64 - 1
        · rw [if_pos h2] at h; simp at h
        · rw [if_neg h2] at h ⊢
          have h3 : (n * 10 + (c - 48)) % 2 ^ 64 = n * 10 + (c - 48) := by
            apply Nat.mod_eq_of_lt
            by_contra hge
            have : (n * 10 + (c - 48)) % 2 ^ 64 = n * 10 + (c - 48) - 2 ^ 64 := by
              rw [Nat.mod_eq_sub_mod (by omega)]
              exact Nat.mod_eq_of_lt (by omega)
            omega
          rw [h3] at h ⊢
          obtain ⟨hd, hv, hr⟩ := ih _ (by omega) h
          refine ⟨fun x hx => ?_, hv, hr⟩
          rcases List.mem_cons.mp hx with hx | hx
          · subst hx; exact hc
          · exact hd x hx
    · rw [if_neg hc] at h; simp at h

theorem ParseUint_of_isDecimal64 (s : List Nat) (h : isDecimal64 s) :
    ParseUint s 64 = (digitsValue s, none) := by
  unfold ParseUint
  rw [if_neg h.1]
  exact parseUintLoop_digits s 0 h.2.1 h.2.2

theorem isDecimal64_of_ParseUint (s : List Nat) (h : (ParseUint s 64).2 = none) :
    isDecimal64 s ∧ (ParseUint s 64).1 = digitsValue s := by
  unfold ParseUint at h ⊢
  by_cases hs : s = []
  · rw [if_pos hs] at h; simp at h
  · rw [if_neg hs] at h ⊢
    obtain ⟨hd, hv, hr⟩ := parseUintLoop_ok s 0 (by norm_num) h
    exact ⟨⟨hs, hd, hv⟩, hr⟩

theorem SplitComma_ne_nil (s : List Nat) : SplitComma s ≠ [] := by
  cases s with
  | nil => simp [SplitComma]
  | cons c t =>
    unfold SplitComma
    by_cases h : c = 44
    · rw [if_pos h]; simp
    · rw [if_neg h]
      cases SplitComma t <;> simp

/-- A text is a single field, or a first field, a comma and a remainder. -/
theorem SplitComma_cases (s : List Nat) :
    (44 ∉ s ∧ SplitComma s = [s])
      ∨ ∃ b rest, 44 ∉ b ∧ s = b ++ 44 :: rest ∧ SplitComma s = b :: SplitComma rest := by
  induction s with
  | nil => left; exact ⟨by simp, rfl⟩
  | cons c t ih =>
    by_cases h : c = 44
    · right
      subst h
      exact ⟨[], t, by simp, rfl, by simp [SplitComma]⟩
    · rcases ih with ⟨hn, hs⟩ | ⟨b, rest, hb, ht, hs⟩
      · left
        refine ⟨?_, ?_⟩
        · intro hm
          rcases List.mem_cons.mp hm with hm | hm
          · exact h hm.symm
          · exact hn hm
        · unfold SplitComma
          rw [if_neg h, hs]
      · right
        refine ⟨c :: b, rest, ?_, by rw [ht]; rfl, ?_⟩
        · intro hm
          rcases List.mem_cons.mp hm with hm | hm
          · exact h hm.symm
          · exact hb hm
        · conv_lhs => unfold SplitComma
          rw [if_neg h, hs]

/-- The texts that `strings.Split` cuts into exactly two fields. -/
theorem SplitComma_two (s board num : List Nat) :
    SplitComma s = [board, num] ↔ s = board ++ 44 :: num ∧ 44 ∉ board ∧ 44 ∉ num := by
  constructor
  · intro h
    rcases SplitComma_cases s with ⟨_, hs⟩ | ⟨b, rest, hb, ht, hs⟩
    · rw [hs] at h; simp at h
    · rw [hs] at h
      have hb2 : b = board := (List.cons.inj h).1
      have hr : SplitComma rest = [num] := (List.cons.inj h).2
      rcases SplitComma_cases rest with ⟨hn, hs2⟩ | ⟨b2, rest2, _, _, hs2⟩
      · rw [hs2] at hr
        have : rest = num := (List.cons.inj hr).1
        subst this
        subst hb2
        exact ⟨ht, hb, hn⟩
      · rw [hs2] at hr
        have := SplitComma_ne_nil rest2
        simp at hr
        exact absurd hr.2 this
  · rintro ⟨hs, hb, hn⟩
    rcases SplitComma_cases num with ⟨_, hs2⟩ | ⟨b2, rest2, _, ht2, _⟩
    · rcases SplitComma_cases s with ⟨hno, _⟩ | ⟨b, rest, hb1, ht, hs1⟩
      · exact absurd (by rw [hs]; simp) hno
      · have hb_eq : b = board ∧ rest = num := by
          have hh : b ++ 44 :: rest = board ++ 44 :: num := by rw [← ht, hs]
          clear hs ht hs1 hs2
          induction b generalizing board with
          | nil =>
            cases board with
            | nil => simpa using hh
            | cons x bt =>
              simp at hh
              exact absurd (by rw [← hh.1]; simp) hb
          | cons y b ihb =>
            cases board with
            | nil =>
              simp at hh
              exact absurd (by rw [hh.1]; simp) hb1
            | cons x bt =>
              simp at hh
              obtain ⟨h1, h2⟩ := ihb bt (fun hm => hb (List.mem_cons_of_mem _ hm))
                (fun hm => hb1 (List.mem_cons_of_mem _ hm)) hh.2
              exact ⟨by rw [hh.1, h1], h2⟩
        rw [hs1, hb_eq.1, hb_eq.2, hs2]
    · exact absurd (by rw [ht2]; simp) hn

theorem decimalFuel_spec (fuel : Nat) :
    ∀ n, n < fuel → decimalFuel fuel n ≠ [] ∧ (∀ c ∈ decimalFuel fuel n, 48 ≤ c ∧ c ≤ 57)
      ∧ digitsValue (decimalFuel fuel n) = n := by
  induction fuel with
  | zero => intro n h; omega
  | succ fuel ih =>
    intro n h
    unfold decimalFuel
    by_cases h10 : n < 10
    · rw [if_pos h10]
      refine ⟨by simp, ?_, ?_⟩
      · intro c hc
        simp at hc
        omega
      · simp [digitsValue, digitsValueFrom]
    · rw [if_neg h10]
      have hlt : n / 10 < fuel := by omega
      obtain ⟨_, hd, hv⟩ := ih (n / 10) hlt
      refine ⟨by simp, ?_, ?_⟩
      · intro c hc
        rcases List.mem_append.mp hc with hc | hc
        · exact hd c hc
        · simp at hc
          omega
      · unfold digitsValue at hv ⊢
        rw [digitsValueFrom_snoc, hv]
        omega

theorem isDecimal64_decimal (id : Nat) (h : id < 2 ^ 64) :
    isDecimal64 (decimal id) ∧ digitsValue (decimal id) = id := by
  obtain ⟨h1, h2, h3⟩ := decimalFuel_spec (id + 1) id (by omega)
  exact ⟨⟨h1, h2, by unfold decimal; rw [h3]; exact h⟩, h3⟩

theorem not_comma_of_isDecimal64 (s : List Nat) (h : isDecimal64 s) : 44 ∉ s := by
  intro hm
  have := h.2.1 44 hm
  omega

/-- The result of `SplitBoardAndID` on a board, a comma and a number. -/
theorem SplitBoardAndID_of_fields (msg board num : List Nat) (hm : msg = board ++ 44 :: num)
    (hb : 44 ∉ board) (hn : isDecimal64 num) :
    SplitBoardAndID msg = (board, digitsValue num, none) := by
  have hs : SplitComma msg = [board, num] :=
    (SplitComma_two msg board num).mpr ⟨hm, hb, not_comma_of_isDecimal64 num hn⟩
  unfold SplitBoardAndID
  rw [hs]
  simp only []
  rw [ParseUint_of_isDecimal64 num hn]

/-- C29: for every board text without comma and every id below `2 ^ 64`,
`SplitBoardAndID` on the board, a comma and the decimal text of the id returns
the board, the id and no error. A message returns no error only if it is a
comma-free field, a comma and a base-10 unsigned 64-bit integer, and then the
board and the value of the integer are returned; every other message returns the
error `ErrMsgParse(msg)`. -/
theorem C29_SplitBoardAndID_parses_board_comma_id (msg : List Nat) :
    (∀ board id, 44 ∉ board → id < 2 ^ 64 → msg = board ++ [44] ++ decimal id →
        SplitBoardAndID msg = (board, id, none))
      ∧ ((¬ ∃ board num, msg = board ++ [44] ++ num ∧ 44 ∉ board ∧ isDecimal64 num) →
          (SplitBoardAndID msg).2.2 = some (Err.ErrMsgParse msg))
      ∧ (∀ board num, msg = board ++ [44] ++ num → 44 ∉ board → isDecimal64 num →
          SplitBoardAndID msg = (board, digitsValue num, none)) := by
  refine ⟨fun board id hb hid hm => ?_, fun hno => ?_, fun board num hm hb hn => ?_⟩
  · obtain ⟨hd, hv⟩ := isDecimal64_decimal id hid
    rw [SplitBoardAndID_of_fields msg board (decimal id) (by rw [hm]; simp) hb hd, hv]
  · unfold SplitBoardAndID
    match hs : SplitComma msg with
    | [] => rfl
    | [a] => rfl
    | a :: b :: c :: rest => rfl
    | [board, num] =>
      simp only []
      cases hp : ParseUint num 64 with
      | mk id err =>
        cases err with
        | some x => rfl
        | none =>
          exfalso
          obtain ⟨hd, _⟩ := isDecimal64_of_ParseUint num (by rw [hp])
          obtain ⟨hm, hb, _⟩ := (SplitComma_two msg board num).mp hs
          exact hno ⟨board, num, by rw [hm]; simp, hb, hd⟩
  · exact SplitBoardAndID_of_fields msg board num (by rw [hm]; simp) hb hn

/-- C29, witness: the message `a,42` gives the board `a` and the id 42; the
messages `a`, `a,b,1`, `a,x`, `a,` and `a,18446744073709551616` give
`ErrMsgParse`. -/
theorem C29_SplitBoardAndID_parses_board_comma_id_witness :
    SplitBoardAndID ([97] ++ [44] ++ decimal 42) = ([97], 42, none)
      ∧ decimal 42 = [52, 50]
      ∧ (SplitBoardAndID [97]).2.2 = some (Err.ErrMsgParse [97])
      ∧ (SplitBoardAndID [97, 44, 98, 44, 49]).2.2 = some (Err.ErrMsgParse [97, 44, 98, 44, 49])
      ∧ (SplitBoardAndID [97, 44, 120]).2.2 = some (Err.ErrMsgParse [97, 44, 120])
      ∧ (SplitBoardAndID [97, 44]).2.2 = some (Err.ErrMsgParse [97, 44])
      ∧ (SplitBoardAndID ([97, 44] ++ decimal (2 ^ 64))).2.2
          = some (Err.ErrMsgParse ([97, 44] ++ decimal (2 ^ 64))) :=
  ⟨(C29_SplitBoardAndID_parses_board_comma_id ([97] ++ [44] ++ decimal 42)).1 [97] 42
      (by decide) (by norm_num) rfl,
   by decide, by decide, by decide, by decide, by decide, by decide!⟩

theorem Cache.find_store (c : Cache) (k : Key) (entry : CacheEntry) :
    (c.store k entry).find k = some entry := by
  simp [Cache.find, Cache.store]

theorem GetJSON_miss (now : Int) (f : FrontEnd) (k : Key) (c : Cache) (counter : Nat)
    (v : List Nat) (hmiss : c.find k = none) (hc : f.GetCounter k = .ok counter)
    (hf : f.GetFresh k = .ok v) :
    GetJSON now f k c = (builtCache now f k c counter v, .ok (f.RenderJSON v, v, counter)) := by
  unfold GetJSON
  rw [hmiss]
  simp only [Cache.build, hc, hf]
  rfl

theorem GetJSON_fresh (now : Int) (f : FrontEnd) (k : Key) (c : Cache) (entry : CacheEntry)
    (hfind : c.find k = some entry) (ht : now - entry.lastChecked < counterTTL) :
    GetJSON now f k c = (c, .ok (entry.json, entry.data, entry.counter)) := by
  unfold GetJSON
  rw [hfind]
  simp only []
  rw [if_pos ht]

theorem GetJSON_recheck (now : Int) (f : FrontEnd) (k : Key) (c : Cache) (entry : CacheEntry)
    (hfind : c.find k = some entry) (ht : ¬ now - entry.lastChecked < counterTTL)
    (hc : f.GetCounter k = .ok entry.counter) :
    GetJSON now f k c
      = ((c.called (CacheCall.GetCounter k)).store k { entry with lastChecked := now },
          .ok (entry.json, entry.data, entry.counter)) := by
  unfold GetJSON
  rw [hfind]
  simp only []
  rw [if_neg ht, hc]
  simp

/-- C26: for a front end whose `GetCounter` returns the counter `counter` and
whose `GetFresh` returns the value `v` for a key without entry, two successive
`GetJSON` calls for the key at the times `t1` and `t2` both return the JSON of
`v`, the value and the counter, and call `GetFresh` once in total; `GetCounter`
is called once in total when the second call comes within the counter TTL of one
second after the first, and twice when it comes later. -/
theorem C26_cache_freshness (f : FrontEnd) (k : Key) (c : Cache) (counter : Nat)
    (v : List Nat) (t1 t2 : Int) (hmiss : c.find k = none)
    (hc : f.GetCounter k = .ok counter) (hf : f.GetFresh k = .ok v) :
    (GetJSON t1 f k c).2 = .ok (f.RenderJSON v, v, counter)
      ∧ (GetJSON t2 f k (GetJSON t1 f k c).1).2 = .ok (f.RenderJSON v, v, counter)
      ∧ (GetJSON t2 f k (GetJSON t1 f k c).1).1.calls.count (CacheCall.GetFresh k)
          = c.calls.count (CacheCall.GetFresh k) + 1
      ∧ (t2 - t1 < counterTTL →
          (GetJSON t2 f k (GetJSON t1 f k c).1).1.calls.count (CacheCall.GetCounter k)
            = c.calls.count (CacheCall.GetCounter k) + 1)
      ∧ (counterTTL ≤ t2 - t1 →
          (GetJSON t2 f k (GetJSON t1 f k c).1).1.calls.count (CacheCall.GetCounter k)
            = c.calls.count (CacheCall.GetCounter k) + 2) := by
  rw [GetJSON_miss t1 f k c counter v hmiss hc hf]
  have hfind : (builtCache t1 f k c counter v).find k
      = some { counter := counter, json := f.RenderJSON v, data := v, lastChecked := t1 } :=
    Cache.find_store _ k _
  have hcalls : (builtCache t1 f k c counter v).calls
      = c.calls ++ [CacheCall.GetCounter k] ++ [CacheCall.GetFresh k] := rfl
  by_cases ht : t2 - t1 < counterTTL
  · rw [GetJSON_fresh t2 f k _ _ hfind ht]
    refine ⟨rfl, rfl, ?_, fun _ => ?_, fun h => absurd ht (by omega)⟩
    · show (builtCache t1 f k c counter v).calls.count _ = _
      rw [hcalls]
      simp
    · show (builtCache t1 f k c counter v).calls.count _ = _
      rw [hcalls]
      simp
  · rw [GetJSON_recheck t2 f k _ _ hfind ht hc]
    have hcalls2 : (((builtCache t1 f k c counter v).called (CacheCall.GetCounter k)).store k
        { counter := counter, json := f.RenderJSON v, data := v, lastChecked := t2 }).calls
        = c.calls ++ [CacheCall.GetCounter k] ++ [CacheCall.GetFresh k]
          ++ [CacheCall.GetCounter k] := rfl
    refine ⟨rfl, rfl, ?_, fun h => absurd h ht, fun _ => ?_⟩
    · show (((builtCache t1 f k c counter v).called (CacheCall.GetCounter k)).store k
        { counter := counter, json := f.RenderJSON v, data := v, lastChecked := t2 }).calls.count
          _ = _
      rw [hcalls2]
      simp
    · show (((builtCache t1 f k c counter v).called (CacheCall.GetCounter k)).store k
        { counter := counter, json := f.RenderJSON v, data := v, lastChecked := t2 }).calls.count
          _ = _
      rw [hcalls2]
      simp

/-- C26, witness: counter 1 and value `foo`; the second call comes at once, or 1.1
seconds after the first. -/
theorem C26_cache_freshness_witness :
    (GetJSON 0 fooFrontEnd boardKey emptyCache).2
        = .ok ([34, 102, 111, 111, 34], [102, 111, 111], 1)
      ∧ (GetJSON 0 fooFrontEnd boardKey (GetJSON 0 fooFrontEnd boardKey emptyCache).1).2
        = .ok ([34, 102, 111, 111, 34], [102, 111, 111], 1)
      ∧ (GetJSON 0 fooFrontEnd boardKey
            (GetJSON 0 fooFrontEnd boardKey emptyCache).1).1.calls
        = [CacheCall.GetCounter boardKey, CacheCall.GetFresh boardKey]
      ∧ (GetJSON 1100000000 fooFrontEnd boardKey
            (GetJSON 0 fooFrontEnd boardKey emptyCache).1).1.calls
        = [CacheCall.GetCounter boardKey, CacheCall.GetFresh boardKey,
            CacheCall.GetCounter boardKey]
      ∧ (GetJSON 1100000000 fooFrontEnd boardKey
            (GetJSON 0 fooFrontEnd boardKey emptyCache).1).1.calls.count
            (CacheCall.GetCounter boardKey)
          = emptyCache.calls.count (CacheCall.GetCounter boardKey) + 2 :=
  ⟨(C26_cache_freshness fooFrontEnd boardKey emptyCache 1 [102, 111, 111] 0 0 rfl rfl rfl).1,
   (C26_cache_freshness fooFrontEnd boardKey emptyCache 1 [102, 111, 111] 0 0 rfl rfl rfl).2.1,
   by decide,
   by decide,
   (C26_cache_freshness fooFrontEnd boardKey emptyCache 1 [102, 111, 111] 0 1100000000
      rfl rfl rfl).2.2.2.2 (by decide)⟩

/-- C21: on a full queue `Send` leaves the queue and the written messages as they
are and calls `Close` with the error `send buffer overflow`; but `Close` receives
a pending close signal instead of leaving it. From a session without close
signal the first overflowing `Send` raises the signal, with which the listener
would exit; the second takes one of the two signals away and the third the
other, so that after three overflowing `Send` calls no close signal is pending
and the listener does not exit: the session is as it was, not closed. A single
overflowing `Send` on a session with one signal pending removes that signal. -/
theorem C21_overflowing_Send_loses_close_signal (size : Nat) (s : Session)
    (m1 m2 m3 : List Nat) (hfull : ¬ s.sendExternal.length < size) :
    (Send size s m1).sendExternal = s.sendExternal
      ∧ (Send size s m1).written = s.written
      ∧ (Send size s m1).close = Close s.close overflow
      ∧ (s.close = [] →
          (Send size s m1).close = [overflow, overflow]
            ∧ listenerExit (Send size s m1).close = some overflow
            ∧ (Send size (Send size s m1) m2).close = [overflow]
            ∧ Send size (Send size (Send size s m1) m2) m3 = s
            ∧ listenerExit (Send size (Send size (Send size s m1) m2) m3).close = none)
      ∧ (∀ err, s.close = [err] →
          (Send size s m1).close = [] ∧ listenerExit (Send size s m1).close = none) := by
  cases s with
  | mk queue cl w =>
    simp only at hfull
    have h1 : ∀ (cl1 : List (Option Err)) (m : List Nat),
        Send size { sendExternal := queue, close := cl1, written := w } m
          = { sendExternal := queue, close := Close cl1 overflow, written := w } :=
      fun cl1 m => Send_full size _ m hfull
    refine ⟨by rw [h1], by rw [h1], by rw [h1], fun hc => ?_, fun err hc => ?_⟩
    · simp only at hc
      subst hc
      rw [h1, h1, h1]
      exact ⟨rfl, rfl, rfl, rfl, rfl⟩
    · simp only at hc
      subst hc
      rw [h1]
      exact ⟨rfl, rfl⟩

/-- C21, witness: with room for two messages and two messages queued, three
further `Send` calls leave the session as it was, without close signal. -/
theorem C21_overflowing_Send_loses_close_signal_witness :
    (Send 2 { idleSession with sendExternal := [[1], [2]] } [3]).close = [overflow, overflow]
      ∧ Send 2 (Send 2 (Send 2 { idleSession with sendExternal := [[1], [2]] } [3]) [4]) [5]
        = { idleSession with sendExternal := [[1], [2]] }
      ∧ listenerExit (Send 2 (Send 2 (Send 2
          { idleSession with sendExternal := [[1], [2]] } [3]) [4]) [5]).close = none :=
  ⟨((C21_overflowing_Send_loses_close_signal 2
      { idleSession with sendExternal := [[1], [2]] } [3] [4] [5] (by decide)).2.2.2.1 rfl).1,
   ((C21_overflowing_Send_loses_close_signal 2
      { idleSession with sendExternal := [[1], [2]] } [3] [4] [5] (by decide)).2.2.2.1
      rfl).2.2.2.1,
   ((C21_overflowing_Send_loses_close_signal 2
      { idleSession with sendExternal := [[1], [2]] } [3] [4] [5] (by decide)).2.2.2.1
      rfl).2.2.2.2⟩

end Remichan
